import Mathlib

/-!
A shallow embedding of the WebSocket framing engine in `src/WebSocketProtocol.h`
(uWebSockets): the UTF-8 validator, the close-frame codec, the frame formatter
and the incremental frame parser, together with proofs of the specification's
claims about them.

Bytes are modelled as natural numbers; well-formed buffers have every element
below 256.  Buffers are immutable lists: the in-place unmasking of the C code
is modelled by pure functions producing the bytes that the callbacks observe
(the aliasing analysis justifying this is recorded at the parser model below).
-/

namespace UWS

/-- Error strings of the engine (`WebSocketProtocol.h`, lines 35-41). -/
def ERR_TOO_BIG_MESSAGE : String := "Received too big message"

/-- `"Received invalid close payload"`, the reason text returned for a bad close payload. -/
def ERR_INVALID_CLOSE_PAYLOAD : String := "Received invalid close payload"

/-- `"Received invalid WebSocket frame"`, the reason passed to `forceClose` on protocol errors. -/
def ERR_PROTOCOL : String := "Received invalid WebSocket frame"

/-! ### The UTF-8 validator (`isValidUtf8`, lines 134-174)

The C function walks a pointer `s` towards `e`.  Its inner loop
`while (!(*s & 0x80)) ++s` skips ASCII bytes; we model it as `asciiRun`,
which returns the suffix starting at the first byte with the high bit set. -/

/-- The ASCII-skipping inner loop of `isValidUtf8`: drops leading bytes whose
high bit is clear (returning `[]` models the loop hitting `e` and the function
returning `true`). -/
def asciiRun : List Nat → List Nat
  | [] => []
  | b :: r => if b &&& 0x80 = 0 then asciiRun r else b :: r

theorem asciiRun_sublist (s : List Nat) : (asciiRun s).Sublist s := by
  induction s with
  | nil => simp [asciiRun]
  | cons b r ih =>
    simp only [asciiRun]
    split
    · exact ih.cons b
    · exact List.Sublist.refl _

theorem asciiRun_length_le (s : List Nat) : (asciiRun s).length ≤ s.length :=
  (asciiRun_sublist s).length_le

/-- Model of `isValidUtf8` (the hand-rolled Markus-Kuhn-based validator,
lines 134-174).  The 16-byte ASCII fast path, the ASCII inner loop and the
2/3/4-byte dispatch follow the source; pointer reads `s[k]` become `t.getD k 0`
and the bounds checks `s + k >= e` become `t.length < k + 1`. -/
def isValidUtf8 (s : List Nat) : Bool :=
  if 16 ≤ s.length ∧ ∀ b ∈ s.take 16, b &&& 0x80 = 0 then
    isValidUtf8 (s.drop 16)
  else
    let t := asciiRun s
    if _h0 : t = [] then true
    else
      let s0 := t.headI
      if s0 &&& 0x60 = 0x40 then
        if t.length < 2 ∨ (t.getD 1 0) &&& 0xC0 ≠ 0x80 ∨ s0 &&& 0xFE = 0xC0 then false
        else isValidUtf8 (t.drop 2)
      else if s0 &&& 0xF0 = 0xE0 then
        if t.length < 3 ∨ (t.getD 1 0) &&& 0xC0 ≠ 0x80 ∨ (t.getD 2 0) &&& 0xC0 ≠ 0x80 ∨
            (s0 = 0xE0 ∧ (t.getD 1 0) &&& 0xE0 = 0x80) ∨
            (s0 = 0xED ∧ (t.getD 1 0) &&& 0xE0 = 0xA0) then false
        else isValidUtf8 (t.drop 3)
      else if s0 &&& 0xF8 = 0xF0 then
        if t.length < 4 ∨ (t.getD 1 0) &&& 0xC0 ≠ 0x80 ∨ (t.getD 2 0) &&& 0xC0 ≠ 0x80 ∨
            (t.getD 3 0) &&& 0xC0 ≠ 0x80 ∨ (s0 = 0xF0 ∧ (t.getD 1 0) &&& 0xF0 = 0x80) ∨
            (s0 = 0xF4 ∧ 0x8F < t.getD 1 0) ∨ 0xF4 < s0 then false
        else isValidUtf8 (t.drop 4)
      else false
  termination_by s.length
  decreasing_by
  all_goals
    first
    | (simp only [List.length_drop]; omega)
    | (have hl := asciiRun_length_le s
       have hp : 0 < (asciiRun s).length := List.length_pos.mpr _h0
       simp only [List.length_drop]; omega)

/-- `true` iff `b` is a UTF-8 continuation byte `0x80..0xBF`. -/
def isCont (b : Nat) : Bool := 0x80 ≤ b && b ≤ 0xBF

/-- Modelled from the spec: a reference RFC 3629 decoder.  One branch per row
of the RFC 3629 `UTF8-char` grammar, so overlong forms, surrogates
`U+D800..U+DFFF`, code points above `U+10FFFF`, truncated sequences and stray
continuation bytes are all rejected. -/
def utf8Ref (l : List Nat) : Bool :=
  if _h0 : l = [] then true
  else
    let b := l.headI
    if b ≤ 0x7F then utf8Ref l.tail
    else if 0xC2 ≤ b ∧ b ≤ 0xDF then
      decide (2 ≤ l.length) && isCont (l.getD 1 0) && utf8Ref (l.drop 2)
    else if b = 0xE0 then
      decide (3 ≤ l.length) && decide (0xA0 ≤ l.getD 1 0 ∧ l.getD 1 0 ≤ 0xBF) &&
        isCont (l.getD 2 0) && utf8Ref (l.drop 3)
    else if (0xE1 ≤ b ∧ b ≤ 0xEC) ∨ b = 0xEE ∨ b = 0xEF then
      decide (3 ≤ l.length) && isCont (l.getD 1 0) && isCont (l.getD 2 0) && utf8Ref (l.drop 3)
    else if b = 0xED then
      decide (3 ≤ l.length) && decide (0x80 ≤ l.getD 1 0 ∧ l.getD 1 0 ≤ 0x9F) &&
        isCont (l.getD 2 0) && utf8Ref (l.drop 3)
    else if b = 0xF0 then
      decide (4 ≤ l.length) && decide (0x90 ≤ l.getD 1 0 ∧ l.getD 1 0 ≤ 0xBF) &&
        isCont (l.getD 2 0) && isCont (l.getD 3 0) && utf8Ref (l.drop 4)
    else if 0xF1 ≤ b ∧ b ≤ 0xF3 then
      decide (4 ≤ l.length) && isCont (l.getD 1 0) && isCont (l.getD 2 0) &&
        isCont (l.getD 3 0) && utf8Ref (l.drop 4)
    else if b = 0xF4 then
      decide (4 ≤ l.length) && decide (0x80 ≤ l.getD 1 0 ∧ l.getD 1 0 ≤ 0x8F) &&
        isCont (l.getD 2 0) && isCont (l.getD 3 0) && utf8Ref (l.drop 4)
    else false
  termination_by l.length
  decreasing_by
  all_goals
    have hp : 0 < l.length := List.length_pos.mpr _h0
    simp only [List.length_drop, List.length_tail]
    omega

theorem isValidUtf8_nil : isValidUtf8 [] = true := by
  rw [isValidUtf8.eq_def]
  simp [asciiRun]

/-- Guarded unfolding of the 16-byte ASCII fast path of `isValidUtf8`. -/
theorem isValidUtf8_fast (s : List Nat) (h1 : 16 ≤ s.length)
    (h2 : ∀ b ∈ s.take 16, b &&& 0x80 = 0) :
    isValidUtf8 s = isValidUtf8 (s.drop 16) := by
  rw [isValidUtf8.eq_def, if_pos ⟨h1, h2⟩]

/-- Guarded unfolding of the slow path of `isValidUtf8`. -/
theorem isValidUtf8_step (s : List Nat)
    (h : ¬ (16 ≤ s.length ∧ ∀ b ∈ s.take 16, b &&& 0x80 = 0)) :
    isValidUtf8 s =
    (let t := asciiRun s
    if t = [] then true
    else
      let s0 := t.headI
      if s0 &&& 0x60 = 0x40 then
        if t.length < 2 ∨ (t.getD 1 0) &&& 0xC0 ≠ 0x80 ∨ s0 &&& 0xFE = 0xC0 then false
        else isValidUtf8 (t.drop 2)
      else if s0 &&& 0xF0 = 0xE0 then
        if t.length < 3 ∨ (t.getD 1 0) &&& 0xC0 ≠ 0x80 ∨ (t.getD 2 0) &&& 0xC0 ≠ 0x80 ∨
            (s0 = 0xE0 ∧ (t.getD 1 0) &&& 0xE0 = 0x80) ∨
            (s0 = 0xED ∧ (t.getD 1 0) &&& 0xE0 = 0xA0) then false
        else isValidUtf8 (t.drop 3)
      else if s0 &&& 0xF8 = 0xF0 then
        if t.length < 4 ∨ (t.getD 1 0) &&& 0xC0 ≠ 0x80 ∨ (t.getD 2 0) &&& 0xC0 ≠ 0x80 ∨
            (t.getD 3 0) &&& 0xC0 ≠ 0x80 ∨ (s0 = 0xF0 ∧ (t.getD 1 0) &&& 0xF0 = 0x80) ∨
            (s0 = 0xF4 ∧ 0x8F < t.getD 1 0) ∨ 0xF4 < s0 then false
        else isValidUtf8 (t.drop 4)
      else false) := by
  rw [isValidUtf8.eq_def, if_neg h]
  rcases hr : asciiRun s with _ | ⟨s0, t0⟩ <;> simp [hr]

theorem utf8Ref_nil : utf8Ref [] = true := by
  rw [utf8Ref.eq_def]
  simp

/-- Guarded unfolding of `utf8Ref` on a non-empty list. -/
theorem utf8Ref_step (l : List Nat) (h : l ≠ []) :
    utf8Ref l =
    (let b := l.headI
    if b ≤ 0x7F then utf8Ref l.tail
    else if 0xC2 ≤ b ∧ b ≤ 0xDF then
      decide (2 ≤ l.length) && isCont (l.getD 1 0) && utf8Ref (l.drop 2)
    else if b = 0xE0 then
      decide (3 ≤ l.length) && decide (0xA0 ≤ l.getD 1 0 ∧ l.getD 1 0 ≤ 0xBF) &&
        isCont (l.getD 2 0) && utf8Ref (l.drop 3)
    else if (0xE1 ≤ b ∧ b ≤ 0xEC) ∨ b = 0xEE ∨ b = 0xEF then
      decide (3 ≤ l.length) && isCont (l.getD 1 0) && isCont (l.getD 2 0) && utf8Ref (l.drop 3)
    else if b = 0xED then
      decide (3 ≤ l.length) && decide (0x80 ≤ l.getD 1 0 ∧ l.getD 1 0 ≤ 0x9F) &&
        isCont (l.getD 2 0) && utf8Ref (l.drop 3)
    else if b = 0xF0 then
      decide (4 ≤ l.length) && decide (0x90 ≤ l.getD 1 0 ∧ l.getD 1 0 ≤ 0xBF) &&
        isCont (l.getD 2 0) && isCont (l.getD 3 0) && utf8Ref (l.drop 4)
    else if 0xF1 ≤ b ∧ b ≤ 0xF3 then
      decide (4 ≤ l.length) && isCont (l.getD 1 0) && isCont (l.getD 2 0) &&
        isCont (l.getD 3 0) && utf8Ref (l.drop 4)
    else if b = 0xF4 then
      decide (4 ≤ l.length) && decide (0x80 ≤ l.getD 1 0 ∧ l.getD 1 0 ≤ 0x8F) &&
        isCont (l.getD 2 0) && isCont (l.getD 3 0) && utf8Ref (l.drop 4)
    else false) := by
  rw [utf8Ref.eq_def]
  simp [h]

set_option maxRecDepth 10000 in
/-- Arithmetic readings of the bit tests of `isValidUtf8`, for bytes. -/
theorem byteBits : ∀ b : Nat, b < 256 →
    ((b &&& 0x80 = 0) ↔ b < 0x80) ∧
    ((b &&& 0xC0 = 0x80) ↔ (0x80 ≤ b ∧ b ≤ 0xBF)) ∧
    ((0x80 ≤ b → ((b &&& 0x60 = 0x40) ↔ (0xC0 ≤ b ∧ b ≤ 0xDF)))) ∧
    ((b &&& 0xF0 = 0xE0) ↔ (0xE0 ≤ b ∧ b ≤ 0xEF)) ∧
    ((b &&& 0xF8 = 0xF0) ↔ (0xF0 ≤ b ∧ b ≤ 0xF7)) ∧
    ((b &&& 0xFE = 0xC0) ↔ (b = 0xC0 ∨ b = 0xC1)) ∧
    ((b &&& 0xE0 = 0x80) ↔ (0x80 ≤ b ∧ b ≤ 0x9F)) ∧
    ((b &&& 0xE0 = 0xA0) ↔ (0xA0 ≤ b ∧ b ≤ 0xBF)) ∧
    ((b &&& 0xF0 = 0x80) ↔ (0x80 ≤ b ∧ b ≤ 0x8F)) := by
  decide

theorem asciiRun_eq_append (s : List Nat) :
    ∃ pre, s = pre ++ asciiRun s ∧ ∀ b ∈ pre, b &&& 0x80 = 0 := by
  induction s with
  | nil => exact ⟨[], rfl, by simp⟩
  | cons b r ih =>
    by_cases hb : b &&& 0x80 = 0
    · obtain ⟨pre, hpre, hall⟩ := ih
      refine ⟨b :: pre, ?_, ?_⟩
      · simpa [asciiRun, hb] using hpre
      · intro x hx
        rcases List.mem_cons.mp hx with hx | hx
        · exact hx ▸ hb
        · exact hall x hx
    · exact ⟨[], by simp [asciiRun, hb], by simp⟩

theorem asciiRun_head {s : List Nat} {s0 : Nat} {t : List Nat}
    (h : asciiRun s = s0 :: t) : ¬ s0 &&& 0x80 = 0 := by
  induction s with
  | nil => simp [asciiRun] at h
  | cons b r ih =>
    simp only [asciiRun] at h
    split at h
    · exact ih h
    · cases h; assumption

theorem utf8Ref_cons_ascii {b : Nat} (r : List Nat) (hb : b ≤ 0x7F) :
    utf8Ref (b :: r) = utf8Ref r := by
  rw [utf8Ref.eq_def]
  simp [hb]

theorem utf8Ref_append_ascii (pre rest : List Nat) (h : ∀ b ∈ pre, b < 0x80) :
    utf8Ref (pre ++ rest) = utf8Ref rest := by
  induction pre with
  | nil => rfl
  | cons b p ih =>
    have hb : b ≤ 0x7F := by have := h b (by simp); omega
    rw [List.cons_append, utf8Ref_cons_ascii _ hb]
    exact ih fun x hx => h x (by simp [hx])

theorem utf8Ref_bad {s0 : Nat} (r : List Nat)
    (h : (0x80 ≤ s0 ∧ s0 ≤ 0xC1) ∨ 0xF5 ≤ s0) : utf8Ref (s0 :: r) = false := by
  rw [utf8Ref_step _ (List.cons_ne_nil _ _)]
  simp only [List.headI_cons]
  rw [if_neg (by omega), if_neg (by intro hq; omega), if_neg (by omega), if_neg (by intro hq; omega),
    if_neg (by omega), if_neg (by intro hq; omega), if_neg (by omega), if_neg (by intro hq; omega)]

theorem utf8Ref_two {s0 : Nat} (r : List Nat) (h1 : 0xC2 ≤ s0) (h2 : s0 ≤ 0xDF) :
    utf8Ref (s0 :: r) =
      (match r with | c1 :: r1 => isCont c1 && utf8Ref r1 | [] => false) := by
  rw [utf8Ref_step _ (List.cons_ne_nil _ _)]
  simp only [List.headI_cons]
  rw [if_neg (by omega), if_pos ⟨h1, h2⟩]
  rcases r with _ | ⟨c1, r1⟩
  · simp
  · have hlen : 2 ≤ (s0 :: c1 :: r1).length := by simp
    rw [decide_eq_true hlen]
    simp [List.getD]

theorem utf8Ref_E0 (r : List Nat) :
    utf8Ref (0xE0 :: r) =
      (match r with
      | c1 :: c2 :: r2 => (decide (0xA0 ≤ c1 ∧ c1 ≤ 0xBF)) && isCont c2 && utf8Ref r2
      | _ => false) := by
  rw [utf8Ref_step _ (List.cons_ne_nil _ _)]
  simp only [List.headI_cons]
  rw [if_neg (by intro hq; omega), if_neg (by omega), if_pos trivial]
  rcases r with _ | ⟨c1, _ | ⟨c2, r2⟩⟩
  · simp
  · simp
  · have hlen : 3 ≤ (0xE0 :: c1 :: c2 :: r2).length := by simp only [List.length_cons]; omega
    rw [decide_eq_true hlen]
    simp [List.getD]

theorem utf8Ref_ED (r : List Nat) :
    utf8Ref (0xED :: r) =
      (match r with
      | c1 :: c2 :: r2 => (decide (0x80 ≤ c1 ∧ c1 ≤ 0x9F)) && isCont c2 && utf8Ref r2
      | _ => false) := by
  rw [utf8Ref_step _ (List.cons_ne_nil _ _)]
  simp only [List.headI_cons]
  rw [if_neg (by intro hq; omega), if_neg (by omega), if_neg (by intro hq; omega), if_neg (by omega), if_pos trivial]
  rcases r with _ | ⟨c1, _ | ⟨c2, r2⟩⟩
  · simp
  · simp
  · have hlen : 3 ≤ (0xED :: c1 :: c2 :: r2).length := by simp only [List.length_cons]; omega
    rw [decide_eq_true hlen]
    simp [List.getD]

theorem utf8Ref_mid3 {s0 : Nat} (r : List Nat)
    (h : (0xE1 ≤ s0 ∧ s0 ≤ 0xEC) ∨ s0 = 0xEE ∨ s0 = 0xEF) :
    utf8Ref (s0 :: r) =
      (match r with
      | c1 :: c2 :: r2 => isCont c1 && isCont c2 && utf8Ref r2
      | _ => false) := by
  rw [utf8Ref_step _ (List.cons_ne_nil _ _)]
  simp only [List.headI_cons]
  rw [if_neg (by intro hq; omega), if_neg (by omega), if_neg (by intro hq; omega), if_pos h]
  rcases r with _ | ⟨c1, _ | ⟨c2, r2⟩⟩
  · simp
  · simp
  · have hlen : 3 ≤ (s0 :: c1 :: c2 :: r2).length := by simp only [List.length_cons]; omega
    rw [decide_eq_true hlen]
    simp [List.getD]

theorem utf8Ref_F0 (r : List Nat) :
    utf8Ref (0xF0 :: r) =
      (match r with
      | c1 :: c2 :: c3 :: r3 =>
        (decide (0x90 ≤ c1 ∧ c1 ≤ 0xBF)) && isCont c2 && isCont c3 && utf8Ref r3
      | _ => false) := by
  rw [utf8Ref_step _ (List.cons_ne_nil _ _)]
  simp only [List.headI_cons]
  rw [if_neg (by omega), if_neg (by intro hq; omega), if_neg (by omega), if_neg (by intro hq; omega),
    if_neg (by omega), if_pos trivial]
  rcases r with _ | ⟨c1, _ | ⟨c2, _ | ⟨c3, r3⟩⟩⟩
  · simp
  · simp
  · simp
  · have hlen : 4 ≤ (0xF0 :: c1 :: c2 :: c3 :: r3).length := by simp only [List.length_cons]; omega
    rw [decide_eq_true hlen]
    simp [List.getD]

theorem utf8Ref_mid4 {s0 : Nat} (r : List Nat) (h1 : 0xF1 ≤ s0) (h2 : s0 ≤ 0xF3) :
    utf8Ref (s0 :: r) =
      (match r with
      | c1 :: c2 :: c3 :: r3 => isCont c1 && isCont c2 && isCont c3 && utf8Ref r3
      | _ => false) := by
  rw [utf8Ref_step _ (List.cons_ne_nil _ _)]
  simp only [List.headI_cons]
  rw [if_neg (by intro hq; omega), if_neg (by omega), if_neg (by intro hq; omega), if_neg (by omega),
    if_neg (by intro hq; omega), if_neg (by omega), if_pos ⟨h1, h2⟩]
  rcases r with _ | ⟨c1, _ | ⟨c2, _ | ⟨c3, r3⟩⟩⟩
  · simp
  · simp
  · simp
  · have hlen : 4 ≤ (s0 :: c1 :: c2 :: c3 :: r3).length := by simp only [List.length_cons]; omega
    rw [decide_eq_true hlen]
    simp [List.getD]

theorem utf8Ref_F4 (r : List Nat) :
    utf8Ref (0xF4 :: r) =
      (match r with
      | c1 :: c2 :: c3 :: r3 =>
        (decide (0x80 ≤ c1 ∧ c1 ≤ 0x8F)) && isCont c2 && isCont c3 && utf8Ref r3
      | _ => false) := by
  rw [utf8Ref_step _ (List.cons_ne_nil _ _)]
  simp only [List.headI_cons]
  rw [if_neg (by intro hq; omega), if_neg (by omega), if_neg (by intro hq; omega), if_neg (by omega),
    if_neg (by intro hq; omega), if_neg (by omega), if_neg (by intro hq; omega), if_pos trivial]
  rcases r with _ | ⟨c1, _ | ⟨c2, _ | ⟨c3, r3⟩⟩⟩
  · simp
  · simp
  · simp
  · have hlen : 4 ≤ (0xF4 :: c1 :: c2 :: c3 :: r3).length := by simp only [List.length_cons]; omega
    rw [decide_eq_true hlen]
    simp [List.getD]

theorem isValidUtf8_agreesAux :
    ∀ n (s : List Nat), s.length ≤ n → (∀ b ∈ s, b < 256) →
      isValidUtf8 s = utf8Ref s := by
  intro n
  induction n with
  | zero =>
    intro s hs _
    have hnil : s = [] := List.eq_nil_of_length_eq_zero (Nat.le_zero.mp hs)
    subst hnil
    rw [isValidUtf8_nil, utf8Ref_nil]
  | succ n ih =>
    intro s hs h256
    by_cases hfast : 16 ≤ s.length ∧ ∀ b ∈ s.take 16, b &&& 0x80 = 0
    · rw [isValidUtf8_fast s hfast.1 hfast.2]
      have hdropRef : utf8Ref s = utf8Ref (s.drop 16) := by
        conv_lhs => rw [← List.take_append_drop 16 s]
        refine utf8Ref_append_ascii _ _ fun b hb => ?_
        have hb256 : b < 256 := h256 b (List.take_subset 16 s hb)
        have := (byteBits b hb256).1.mp (hfast.2 b hb)
        omega
      rw [hdropRef]
      exact ih _ (by simp only [List.length_drop]; omega)
        fun b hb => h256 b (List.drop_subset 16 s hb)
    · rw [isValidUtf8_step s hfast]
      obtain ⟨pre, hpre, hpreA⟩ := asciiRun_eq_append s
      have hRef : utf8Ref s = utf8Ref (asciiRun s) := by
        conv_lhs => rw [hpre]
        refine utf8Ref_append_ascii _ _ fun b hb => ?_
        have hb256 : b < 256 := h256 b (by rw [hpre]; exact List.mem_append_left _ hb)
        have := (byteBits b hb256).1.mp (hpreA b hb)
        omega
      rw [hRef]
      rcases ht : asciiRun s with _ | ⟨s0, t0⟩
      · simp [utf8Ref_nil]
      · have hsub : (s0 :: t0).Sublist s := ht ▸ asciiRun_sublist s
        have h256c : ∀ b ∈ s0 :: t0, b < 256 := fun b hb => h256 b (hsub.subset hb)
        have hs0_256 : s0 < 256 := h256c s0 (by simp)
        have hmem : ∀ b ∈ t0, b < 256 := fun b hb => h256c b (by simp [hb])
        have hlenT : t0.length ≤ n := by
          have := hsub.length_le; simp only [List.length_cons] at this; omega
        have ihT : ∀ k, isValidUtf8 (t0.drop k) = utf8Ref (t0.drop k) := fun k =>
          ih _ (le_trans (by simp only [List.length_drop]; omega) hlenT)
            fun b hb => hmem b (List.drop_subset k t0 hb)
        have hs0hi : ¬ s0 &&& 0x80 = 0 := asciiRun_head ht
        obtain ⟨hB1, hB2, hB3, hB4, hB5, hB6, hB7, hB8, hB9⟩ := byteBits s0 hs0_256
        have hge : 0x80 ≤ s0 := by
          rcases Nat.lt_or_ge s0 0x80 with h | h
          · exact absurd (hB1.mpr h) hs0hi
          · exact h
        simp only [List.headI_cons, if_neg (List.cons_ne_nil s0 t0)]
        by_cases hA : s0 ≤ 0xBF
        · rw [if_neg (fun hc => by have := (hB3 hge).mp hc; omega),
            if_neg (fun hc => by have := hB4.mp hc; omega),
            if_neg (fun hc => by have := hB5.mp hc; omega),
            utf8Ref_bad _ (Or.inl ⟨hge, by omega⟩)]
        · by_cases hB : s0 ≤ 0xC1
          · rw [if_pos ((hB3 hge).mpr (by omega)),
              if_pos (Or.inr (Or.inr (hB6.mpr (by omega)))),
              utf8Ref_bad _ (Or.inl ⟨hge, hB⟩)]
          · by_cases hC : s0 ≤ 0xDF
            · -- two-byte sequence, lead byte 0xC2..0xDF
              rw [if_pos ((hB3 hge).mpr (by omega)), utf8Ref_two _ (by omega) hC]
              rcases t0 with _ | ⟨s1, t1⟩
              · rw [if_pos (Or.inl (by simp))]
              · have hs1_256 : s1 < 256 := hmem s1 (by simp)
                have hc1 := (byteBits s1 hs1_256).2.1
                have g1 : (s0 :: s1 :: t1).getD 1 0 = s1 := by simp [List.getD]
                have gd : (s0 :: s1 :: t1).drop 2 = t1 := by simp
                have hih := ihT 1
                simp only [List.drop_succ_cons, List.drop_zero] at hih
                by_cases hcont : 0x80 ≤ s1 ∧ s1 ≤ 0xBF
                · have hnc : ¬ ((s0 :: s1 :: t1).length < 2 ∨
                      (s0 :: s1 :: t1).getD 1 0 &&& 0xC0 ≠ 0x80 ∨ s0 &&& 0xFE = 0xC0) := by
                    rw [g1]
                    rintro (h | h | h)
                    · simp only [List.length_cons] at h; omega
                    · exact h (hc1.mpr hcont)
                    · have := hB6.mp h; omega
                  rw [if_neg hnc, gd, hih]
                  simp [isCont, hcont.1, hcont.2]
                · have hns1 : s1 &&& 0xC0 ≠ 0x80 := fun h => hcont (hc1.mp h)
                  rw [if_pos (Or.inr (Or.inl (by rw [g1]; exact hns1)))]
                  have hic : isCont s1 = false := by simp [isCont]; omega
                  simp [hic]
            · by_cases hD : s0 ≤ 0xEF
              · -- three-byte sequence, lead byte 0xE0..0xEF
                rw [if_neg (fun hc => by have := (hB3 hge).mp hc; omega),
                  if_pos (hB4.mpr ⟨by omega, hD⟩)]
                rcases t0 with _ | ⟨s1, _ | ⟨s2, t2⟩⟩
                · rw [if_pos (Or.inl (by simp))]
                  by_cases hE0 : s0 = 0xE0
                  · subst hE0; rw [utf8Ref_E0]
                  · by_cases hED : s0 = 0xED
                    · subst hED; rw [utf8Ref_ED]
                    · rw [utf8Ref_mid3 _ (by omega)]
                · rw [if_pos (Or.inl (by simp))]
                  by_cases hE0 : s0 = 0xE0
                  · subst hE0; rw [utf8Ref_E0]
                  · by_cases hED : s0 = 0xED
                    · subst hED; rw [utf8Ref_ED]
                    · rw [utf8Ref_mid3 _ (by omega)]
                · have hs1_256 : s1 < 256 := hmem s1 (by simp)
                  have hs2_256 : s2 < 256 := hmem s2 (by simp)
                  obtain ⟨_, hc1, _, _, _, _, h71, h81, _⟩ := byteBits s1 hs1_256
                  have hc2 := (byteBits s2 hs2_256).2.1
                  have g1 : (s0 :: s1 :: s2 :: t2).getD 1 0 = s1 := by simp [List.getD]
                  have g2 : (s0 :: s1 :: s2 :: t2).getD 2 0 = s2 := by simp [List.getD]
                  have gd : (s0 :: s1 :: s2 :: t2).drop 3 = t2 := by simp
                  have hih := ihT 2
                  simp only [List.drop_succ_cons, List.drop_zero] at hih
                  by_cases hE0 : s0 = 0xE0
                  · subst hE0
                    rw [utf8Ref_E0]
                    by_cases hv1 : 0xA0 ≤ s1 ∧ s1 ≤ 0xBF
                    · by_cases hv2 : 0x80 ≤ s2 ∧ s2 ≤ 0xBF
                      · have hnc : ¬ ((0xE0 :: s1 :: s2 :: t2).length < 3 ∨
                            (0xE0 :: s1 :: s2 :: t2).getD 1 0 &&& 0xC0 ≠ 0x80 ∨
                            (0xE0 :: s1 :: s2 :: t2).getD 2 0 &&& 0xC0 ≠ 0x80 ∨
                            ((0xE0:Nat) = 0xE0 ∧ (0xE0 :: s1 :: s2 :: t2).getD 1 0 &&& 0xE0 = 0x80) ∨
                            ((0xE0:Nat) = 0xED ∧ (0xE0 :: s1 :: s2 :: t2).getD 1 0 &&& 0xE0 = 0xA0)) := by
                          rw [g1, g2]
                          rintro (h | h | h | ⟨he, hov⟩ | ⟨he, hov⟩)
                          · simp only [List.length_cons] at h; omega
                          · exact h (hc1.mpr ⟨by omega, hv1.2⟩)
                          · exact h (hc2.mpr hv2)
                          · have := h71.mp hov; omega
                          · omega
                        rw [if_neg hnc, gd, hih]
                        simp [isCont, hv1.1, hv1.2, hv2.1, hv2.2]
                      · rw [if_pos (Or.inr (Or.inr (Or.inl
                          (by rw [g2]; exact fun h => hv2 (hc2.mp h)))))]
                        have hic : isCont s2 = false := by simp [isCont]; omega
                        simp [hic]
                    · have hpos : (0xE0 :: s1 :: s2 :: t2).length < 3 ∨
                          (0xE0 :: s1 :: s2 :: t2).getD 1 0 &&& 0xC0 ≠ 0x80 ∨
                          (0xE0 :: s1 :: s2 :: t2).getD 2 0 &&& 0xC0 ≠ 0x80 ∨
                          ((0xE0:Nat) = 0xE0 ∧ (0xE0 :: s1 :: s2 :: t2).getD 1 0 &&& 0xE0 = 0x80) ∨
                          ((0xE0:Nat) = 0xED ∧ (0xE0 :: s1 :: s2 :: t2).getD 1 0 &&& 0xE0 = 0xA0) := by
                        rw [g1, g2]
                        rcases Nat.lt_or_ge s1 0xA0 with hlt | hge1
                        · rcases Nat.lt_or_ge s1 0x80 with hlt2 | hge2
                          · exact Or.inr (Or.inl (fun h => by have := hc1.mp h; omega))
                          · exact Or.inr (Or.inr (Or.inr (Or.inl
                              ⟨rfl, h71.mpr ⟨hge2, by omega⟩⟩)))
                        · exact Or.inr (Or.inl (fun h => by have := hc1.mp h; omega))
                      rw [if_pos hpos]
                      simp [decide_eq_false hv1]
                  · by_cases hED : s0 = 0xED
                    · subst hED
                      rw [utf8Ref_ED]
                      by_cases hv1 : 0x80 ≤ s1 ∧ s1 ≤ 0x9F
                      · by_cases hv2 : 0x80 ≤ s2 ∧ s2 ≤ 0xBF
                        · have hnc : ¬ ((0xED :: s1 :: s2 :: t2).length < 3 ∨
                              (0xED :: s1 :: s2 :: t2).getD 1 0 &&& 0xC0 ≠ 0x80 ∨
                              (0xED :: s1 :: s2 :: t2).getD 2 0 &&& 0xC0 ≠ 0x80 ∨
                              ((0xED:Nat) = 0xE0 ∧ (0xED :: s1 :: s2 :: t2).getD 1 0 &&& 0xE0 = 0x80) ∨
                              ((0xED:Nat) = 0xED ∧ (0xED :: s1 :: s2 :: t2).getD 1 0 &&& 0xE0 = 0xA0)) := by
                            rw [g1, g2]
                            rintro (h | h | h | ⟨he, hov⟩ | ⟨he, hov⟩)
                            · simp only [List.length_cons] at h; omega
                            · exact h (hc1.mpr ⟨hv1.1, by omega⟩)
                            · exact h (hc2.mpr hv2)
                            · omega
                            · have := h81.mp hov; omega
                          rw [if_neg hnc, gd, hih]
                          simp [isCont, hv1.1, hv1.2, hv2.1, hv2.2]
                        · rw [if_pos (Or.inr (Or.inr (Or.inl
                            (by rw [g2]; exact fun h => hv2 (hc2.mp h)))))]
                          have hic : isCont s2 = false := by simp [isCont]; omega
                          simp [hic]
                      · have hpos : (0xED :: s1 :: s2 :: t2).length < 3 ∨
                            (0xED :: s1 :: s2 :: t2).getD 1 0 &&& 0xC0 ≠ 0x80 ∨
                            (0xED :: s1 :: s2 :: t2).getD 2 0 &&& 0xC0 ≠ 0x80 ∨
                            ((0xED:Nat) = 0xE0 ∧ (0xED :: s1 :: s2 :: t2).getD 1 0 &&& 0xE0 = 0x80) ∨
                            ((0xED:Nat) = 0xED ∧ (0xED :: s1 :: s2 :: t2).getD 1 0 &&& 0xE0 = 0xA0) := by
                          rw [g1, g2]
                          rcases Nat.lt_or_ge s1 0x80 with hlt | hge1
                          · exact Or.inr (Or.inl (fun h => by have := hc1.mp h; omega))
                          · rcases Nat.lt_or_ge s1 0xC0 with hlt2 | hge2
                            · exact Or.inr (Or.inr (Or.inr (Or.inr
                                ⟨rfl, h81.mpr ⟨by omega, by omega⟩⟩)))
                            · exact Or.inr (Or.inl (fun h => by have := hc1.mp h; omega))
                        rw [if_pos hpos]
                        simp [decide_eq_false hv1]
                    · rw [utf8Ref_mid3 _ (by omega)]
                      by_cases hv1 : 0x80 ≤ s1 ∧ s1 ≤ 0xBF
                      · by_cases hv2 : 0x80 ≤ s2 ∧ s2 ≤ 0xBF
                        · have hnc : ¬ ((s0 :: s1 :: s2 :: t2).length < 3 ∨
                              (s0 :: s1 :: s2 :: t2).getD 1 0 &&& 0xC0 ≠ 0x80 ∨
                              (s0 :: s1 :: s2 :: t2).getD 2 0 &&& 0xC0 ≠ 0x80 ∨
                              (s0 = 0xE0 ∧ (s0 :: s1 :: s2 :: t2).getD 1 0 &&& 0xE0 = 0x80) ∨
                              (s0 = 0xED ∧ (s0 :: s1 :: s2 :: t2).getD 1 0 &&& 0xE0 = 0xA0)) := by
                            rw [g1, g2]
                            rintro (h | h | h | ⟨he, hov⟩ | ⟨he, hov⟩)
                            · simp only [List.length_cons] at h; omega
                            · exact h (hc1.mpr hv1)
                            · exact h (hc2.mpr hv2)
                            · omega
                            · omega
                          rw [if_neg hnc, gd, hih]
                          simp [isCont, hv1.1, hv1.2, hv2.1, hv2.2]
                        · rw [if_pos (Or.inr (Or.inr (Or.inl
                            (by rw [g2]; exact fun h => hv2 (hc2.mp h)))))]
                          have hic : isCont s2 = false := by simp [isCont]; omega
                          simp [hic]
                      · rw [if_pos (Or.inr (Or.inl
                          (by rw [g1]; exact fun h => hv1 (hc1.mp h))))]
                        have hic : isCont s1 = false := by simp [isCont]; omega
                        simp [hic]
              · by_cases hE : s0 ≤ 0xF7
                · -- four-byte lead 0xF0..0xF7
                  rw [if_neg (fun hc => by have := (hB3 hge).mp hc; omega),
                    if_neg (fun hc => by have := hB4.mp hc; omega),
                    if_pos (hB5.mpr ⟨by omega, hE⟩)]
                  by_cases hF57 : 0xF5 ≤ s0
                  · rw [if_pos (Or.inr (Or.inr (Or.inr (Or.inr (Or.inr (Or.inr (by omega))))))),
                      utf8Ref_bad _ (Or.inr hF57)]
                  · rcases t0 with _ | ⟨s1, _ | ⟨s2, _ | ⟨s3, t3⟩⟩⟩
                    · rw [if_pos (Or.inl (by simp))]
                      by_cases hF0 : s0 = 0xF0
                      · subst hF0; rw [utf8Ref_F0]
                      · by_cases hF4 : s0 = 0xF4
                        · subst hF4; rw [utf8Ref_F4]
                        · rw [utf8Ref_mid4 _ (by omega) (by omega)]
                    · rw [if_pos (Or.inl (by simp))]
                      by_cases hF0 : s0 = 0xF0
                      · subst hF0; rw [utf8Ref_F0]
                      · by_cases hF4 : s0 = 0xF4
                        · subst hF4; rw [utf8Ref_F4]
                        · rw [utf8Ref_mid4 _ (by omega) (by omega)]
                    · rw [if_pos (Or.inl (by simp))]
                      by_cases hF0 : s0 = 0xF0
                      · subst hF0; rw [utf8Ref_F0]
                      · by_cases hF4 : s0 = 0xF4
                        · subst hF4; rw [utf8Ref_F4]
                        · rw [utf8Ref_mid4 _ (by omega) (by omega)]
                    · have hs1_256 : s1 < 256 := hmem s1 (by simp)
                      have hs2_256 : s2 < 256 := hmem s2 (by simp)
                      have hs3_256 : s3 < 256 := hmem s3 (by simp)
                      obtain ⟨_, hc1, _, _, _, _, _, _, h91⟩ := byteBits s1 hs1_256
                      have hc2 := (byteBits s2 hs2_256).2.1
                      have hc3 := (byteBits s3 hs3_256).2.1
                      have g1 : (s0 :: s1 :: s2 :: s3 :: t3).getD 1 0 = s1 := by simp [List.getD]
                      have g2 : (s0 :: s1 :: s2 :: s3 :: t3).getD 2 0 = s2 := by simp [List.getD]
                      have g3 : (s0 :: s1 :: s2 :: s3 :: t3).getD 3 0 = s3 := by simp [List.getD]
                      have gd : (s0 :: s1 :: s2 :: s3 :: t3).drop 4 = t3 := by simp
                      have hih := ihT 3
                      simp only [List.drop_succ_cons, List.drop_zero] at hih
                      by_cases hF0 : s0 = 0xF0
                      · subst hF0
                        rw [utf8Ref_F0]
                        by_cases hv1 : 0x90 ≤ s1 ∧ s1 ≤ 0xBF
                        · by_cases hv2 : 0x80 ≤ s2 ∧ s2 ≤ 0xBF
                          · by_cases hv3 : 0x80 ≤ s3 ∧ s3 ≤ 0xBF
                            · have hnc : ¬ ((0xF0 :: s1 :: s2 :: s3 :: t3).length < 4 ∨
                                  (0xF0 :: s1 :: s2 :: s3 :: t3).getD 1 0 &&& 0xC0 ≠ 0x80 ∨
                                  (0xF0 :: s1 :: s2 :: s3 :: t3).getD 2 0 &&& 0xC0 ≠ 0x80 ∨
                                  (0xF0 :: s1 :: s2 :: s3 :: t3).getD 3 0 &&& 0xC0 ≠ 0x80 ∨
                                  ((0xF0:Nat) = 0xF0 ∧ (0xF0 :: s1 :: s2 :: s3 :: t3).getD 1 0 &&& 0xF0 = 0x80) ∨
                                  ((0xF0:Nat) = 0xF4 ∧ 0x8F < (0xF0 :: s1 :: s2 :: s3 :: t3).getD 1 0) ∨
                                  0xF4 < (0xF0:Nat)) := by
                                rw [g1, g2, g3]
                                rintro (h | h | h | h | ⟨he, hov⟩ | ⟨he, hov⟩ | h)
                                · simp only [List.length_cons] at h; omega
                                · exact h (hc1.mpr ⟨by omega, hv1.2⟩)
                                · exact h (hc2.mpr hv2)
                                · exact h (hc3.mpr hv3)
                                · have := h91.mp hov; omega
                                · omega
                                · omega
                              rw [if_neg hnc, gd, hih]
                              simp [isCont, hv1.1, hv1.2, hv2.1, hv2.2, hv3.1, hv3.2]
                            · rw [if_pos (Or.inr (Or.inr (Or.inr (Or.inl
                                (by rw [g3]; exact fun h => hv3 (hc3.mp h))))))]
                              have hic : isCont s3 = false := by simp [isCont]; omega
                              simp [hic]
                          · rw [if_pos (Or.inr (Or.inr (Or.inl
                              (by rw [g2]; exact fun h => hv2 (hc2.mp h)))))]
                            have hic : isCont s2 = false := by simp [isCont]; omega
                            simp [hic]
                        · have hpos : (0xF0 :: s1 :: s2 :: s3 :: t3).length < 4 ∨
                              (0xF0 :: s1 :: s2 :: s3 :: t3).getD 1 0 &&& 0xC0 ≠ 0x80 ∨
                              (0xF0 :: s1 :: s2 :: s3 :: t3).getD 2 0 &&& 0xC0 ≠ 0x80 ∨
                              (0xF0 :: s1 :: s2 :: s3 :: t3).getD 3 0 &&& 0xC0 ≠ 0x80 ∨
                              ((0xF0:Nat) = 0xF0 ∧ (0xF0 :: s1 :: s2 :: s3 :: t3).getD 1 0 &&& 0xF0 = 0x80) ∨
                              ((0xF0:Nat) = 0xF4 ∧ 0x8F < (0xF0 :: s1 :: s2 :: s3 :: t3).getD 1 0) ∨
                              0xF4 < (0xF0:Nat) := by
                            rw [g1, g2, g3]
                            rcases Nat.lt_or_ge s1 0x90 with hlt | hge1
                            · rcases Nat.lt_or_ge s1 0x80 with hlt2 | hge2
                              · exact Or.inr (Or.inl (fun h => by have := hc1.mp h; omega))
                              · exact Or.inr (Or.inr (Or.inr (Or.inr (Or.inl
                                  ⟨rfl, h91.mpr ⟨hge2, by omega⟩⟩))))
                            · exact Or.inr (Or.inl (fun h => by have := hc1.mp h; omega))
                          rw [if_pos hpos]
                          simp [decide_eq_false hv1]
                      · by_cases hF4 : s0 = 0xF4
                        · subst hF4
                          rw [utf8Ref_F4]
                          by_cases hv1 : 0x80 ≤ s1 ∧ s1 ≤ 0x8F
                          · by_cases hv2 : 0x80 ≤ s2 ∧ s2 ≤ 0xBF
                            · by_cases hv3 : 0x80 ≤ s3 ∧ s3 ≤ 0xBF
                              · have hnc : ¬ ((0xF4 :: s1 :: s2 :: s3 :: t3).length < 4 ∨
                                    (0xF4 :: s1 :: s2 :: s3 :: t3).getD 1 0 &&& 0xC0 ≠ 0x80 ∨
                                    (0xF4 :: s1 :: s2 :: s3 :: t3).getD 2 0 &&& 0xC0 ≠ 0x80 ∨
                                    (0xF4 :: s1 :: s2 :: s3 :: t3).getD 3 0 &&& 0xC0 ≠ 0x80 ∨
                                    ((0xF4:Nat) = 0xF0 ∧ (0xF4 :: s1 :: s2 :: s3 :: t3).getD 1 0 &&& 0xF0 = 0x80) ∨
                                    ((0xF4:Nat) = 0xF4 ∧ 0x8F < (0xF4 :: s1 :: s2 :: s3 :: t3).getD 1 0) ∨
                                    0xF4 < (0xF4:Nat)) := by
                                  rw [g1, g2, g3]
                                  rintro (h | h | h | h | ⟨he, hov⟩ | ⟨he, hov⟩ | h)
                                  · simp only [List.length_cons] at h; omega
                                  · exact h (hc1.mpr ⟨hv1.1, by omega⟩)
                                  · exact h (hc2.mpr hv2)
                                  · exact h (hc3.mpr hv3)
                                  · omega
                                  · omega
                                  · omega
                                rw [if_neg hnc, gd, hih]
                                simp [isCont, hv1.1, hv1.2, hv2.1, hv2.2, hv3.1, hv3.2]
                              · rw [if_pos (Or.inr (Or.inr (Or.inr (Or.inl
                                  (by rw [g3]; exact fun h => hv3 (hc3.mp h))))))]
                                have hic : isCont s3 = false := by simp [isCont]; omega
                                simp [hic]
                            · rw [if_pos (Or.inr (Or.inr (Or.inl
                                (by rw [g2]; exact fun h => hv2 (hc2.mp h)))))]
                              have hic : isCont s2 = false := by simp [isCont]; omega
                              simp [hic]
                          · have hpos : (0xF4 :: s1 :: s2 :: s3 :: t3).length < 4 ∨
                                (0xF4 :: s1 :: s2 :: s3 :: t3).getD 1 0 &&& 0xC0 ≠ 0x80 ∨
                                (0xF4 :: s1 :: s2 :: s3 :: t3).getD 2 0 &&& 0xC0 ≠ 0x80 ∨
                                (0xF4 :: s1 :: s2 :: s3 :: t3).getD 3 0 &&& 0xC0 ≠ 0x80 ∨
                                ((0xF4:Nat) = 0xF0 ∧ (0xF4 :: s1 :: s2 :: s3 :: t3).getD 1 0 &&& 0xF0 = 0x80) ∨
                                ((0xF4:Nat) = 0xF4 ∧ 0x8F < (0xF4 :: s1 :: s2 :: s3 :: t3).getD 1 0) ∨
                                0xF4 < (0xF4:Nat) := by
                              rw [g1, g2, g3]
                              rcases Nat.lt_or_ge s1 0x80 with hlt | hge1
                              · exact Or.inr (Or.inl (fun h => by have := hc1.mp h; omega))
                              · exact Or.inr (Or.inr (Or.inr (Or.inr (Or.inr (Or.inl
                                  ⟨rfl, by omega⟩)))))
                            rw [if_pos hpos]
                            simp [decide_eq_false hv1]
                        · -- 0xF1..0xF3
                          rw [utf8Ref_mid4 _ (by omega) (by omega)]
                          by_cases hv1 : 0x80 ≤ s1 ∧ s1 ≤ 0xBF
                          · by_cases hv2 : 0x80 ≤ s2 ∧ s2 ≤ 0xBF
                            · by_cases hv3 : 0x80 ≤ s3 ∧ s3 ≤ 0xBF
                              · have hnc : ¬ ((s0 :: s1 :: s2 :: s3 :: t3).length < 4 ∨
                                    (s0 :: s1 :: s2 :: s3 :: t3).getD 1 0 &&& 0xC0 ≠ 0x80 ∨
                                    (s0 :: s1 :: s2 :: s3 :: t3).getD 2 0 &&& 0xC0 ≠ 0x80 ∨
                                    (s0 :: s1 :: s2 :: s3 :: t3).getD 3 0 &&& 0xC0 ≠ 0x80 ∨
                                    (s0 = 0xF0 ∧ (s0 :: s1 :: s2 :: s3 :: t3).getD 1 0 &&& 0xF0 = 0x80) ∨
                                    (s0 = 0xF4 ∧ 0x8F < (s0 :: s1 :: s2 :: s3 :: t3).getD 1 0) ∨
                                    0xF4 < s0) := by
                                  rw [g1, g2, g3]
                                  rintro (h | h | h | h | ⟨he, hov⟩ | ⟨he, hov⟩ | h)
                                  · simp only [List.length_cons] at h; omega
                                  · exact h (hc1.mpr hv1)
                                  · exact h (hc2.mpr hv2)
                                  · exact h (hc3.mpr hv3)
                                  · omega
                                  · omega
                                  · omega
                                rw [if_neg hnc, gd, hih]
                                simp [isCont, hv1.1, hv1.2, hv2.1, hv2.2, hv3.1, hv3.2]
                              · rw [if_pos (Or.inr (Or.inr (Or.inr (Or.inl
                                  (by rw [g3]; exact fun h => hv3 (hc3.mp h))))))]
                                have hic : isCont s3 = false := by simp [isCont]; omega
                                simp [hic]
                            · rw [if_pos (Or.inr (Or.inr (Or.inl
                                (by rw [g2]; exact fun h => hv2 (hc2.mp h)))))]
                              have hic : isCont s2 = false := by simp [isCont]; omega
                              simp [hic]
                          · rw [if_pos (Or.inr (Or.inl
                              (by rw [g1]; exact fun h => hv1 (hc1.mp h))))]
                            have hic : isCont s1 = false := by simp [isCont]; omega
                            simp [hic]
                · -- lead byte 0xF8..0xFF
                  rw [if_neg (fun hc => by have := (hB3 hge).mp hc; omega),
                    if_neg (fun hc => by have := hB4.mp hc; omega),
                    if_neg (fun hc => by have := hB5.mp hc; omega),
                    utf8Ref_bad _ (Or.inr (by omega))]

/-! ### The close-frame codec (`parseClosePayload` / `formatClosePayload`, lines 184-211) -/

/-- What the `message` pointer of a `CloseFrame` points at: nothing
(`nullptr`), bytes inside the parsed buffer, or one of the static error
strings. -/
inductive CloseMessage where
  | null : CloseMessage
  | payload (bytes : List Nat) : CloseMessage
  | errorText (s : String) : CloseMessage
  deriving DecidableEq, Repr

/-- Model of `struct CloseFrame { uint16_t code; char *message; size_t length; }`. -/
structure CloseFrame where
  code : Nat
  message : CloseMessage
  length : Nat
  deriving DecidableEq, Repr

/-- Model of `parseClosePayload` (lines 184-197).  `memcpy` of the first two
bytes followed by `cond_byte_swap<uint16_t>` is a big-endian 16-bit read. -/
def parseClosePayload (src : List Nat) (skipUTF8Validation : Bool := false) : CloseFrame :=
  if 2 ≤ src.length then
    let code := src.headI * 256 + (src.tail).headI
    let message := src.drop 2
    if code < 1000 ∨ 4999 < code ∨ (1011 < code ∧ code < 4000) ∨
        (1004 ≤ code ∧ code ≤ 1006) ∨ (skipUTF8Validation = false ∧ isValidUtf8 message = false) then
      ⟨1006, .errorText ERR_INVALID_CLOSE_PAYLOAD, ERR_INVALID_CLOSE_PAYLOAD.length⟩
    else
      ⟨code, .payload message, src.length - 2⟩
  else
    ⟨1005, .null, 0⟩

/-- Model of `formatClosePayload` (lines 199-211), returning the bytes written
to `dst`; the C return value (the byte count) is the length of this list.
A `nullptr` message with `length == 0` behaves like the empty list. -/
def formatClosePayload (code : Nat) (message : List Nat) : List Nat :=
  if code ≠ 0 ∧ code ≠ 1005 ∧ code ≠ 1006 then
    code / 256 % 256 :: code % 256 :: message
  else
    []

/-! ### The frame formatter (`messageFrameSize` / `formatMessage`, lines 213-280) -/

/-- Model of `messageFrameSize` (lines 213-223). -/
def messageFrameSize (isServer : Bool) (messageSize : Nat) : Nat :=
  if messageSize < 126 then (if isServer then 2 else 6) + messageSize
  else if messageSize ≤ 0xFFFF then (if isServer then 4 else 8) + messageSize
  else (if isServer then 10 else 14) + messageSize

/-- The 16-bit big-endian bytes produced by `cond_byte_swap<uint16_t>` + `memcpy`. -/
def be16 (n : Nat) : List Nat := [n / 2 ^ 8 % 256, n % 256]

/-- The 64-bit big-endian bytes produced by `cond_byte_swap<uint64_t>` + `memcpy`
(the value is implicitly truncated to 64 bits, as by the C cast). -/
def be64 (n : Nat) : List Nat :=
  [n / 2 ^ 56 % 256, n / 2 ^ 48 % 256, n / 2 ^ 40 % 256, n / 2 ^ 32 % 256,
    n / 2 ^ 24 % 256, n / 2 ^ 16 % 256, n / 2 ^ 8 % 256, n % 256]

/-- XOR a byte list with the repeating 4-byte `mask`, the first byte pairing
with `mask[off % 4]`.  This is what every unmask routine of the source
(`unmaskImprecise4/8`, `unmaskInplace`, `unmaskAll`, the loop in
`formatMessage`) computes on the bytes that are subsequently read; their
overruns into padding and the shifted-copy trick of
`unmaskImpreciseCopyMask` never touch bytes at or after the next frame
header, so the pure view is exact. -/
def maskBytes (mask : List Nat) (off : Nat) : List Nat → List Nat
  | [] => []
  | b :: r => (b ^^^ mask.getD (off % 4) 0) :: maskBytes mask (off + 1) r

/-- Model of `formatMessage` (lines 231-280), returning the frame bytes
written to `dst`; the C return value `messageLength` is the length of this
list.  The 4 mask bytes that `rand()` deposits in memory are the `mask`
argument; the client masking loop XORs payload byte `i` with `mask[i % 4]`. -/
def formatMessage (isServer : Bool) (src : List Nat) (opCode : Nat)
    (reportedLength : Nat) (compressed fin : Bool) (mask : List Nat) : List Nat :=
  let b0 : Nat :=
    (if fin then 128 else 0) ||| (if compressed ∧ opCode ≠ 0 then 64 else 0) ||| opCode
  let m1 : Nat :=
    if reportedLength < 126 then reportedLength
    else if reportedLength ≤ 0xFFFF then 126
    else 127
  let ext : List Nat :=
    if reportedLength < 126 then []
    else if reportedLength ≤ 0xFFFF then be16 reportedLength
    else be64 reportedLength
  if isServer then
    b0 :: m1 :: ext ++ src
  else
    b0 :: (m1 ||| 0x80) :: ext ++ mask ++ maskBytes mask 0 src

/-! ### The incremental frame parser (`WebSocketProtocol`, lines 285-525)

The parser mutates a caller-owned buffer in place (unmasking) and advances
`src`/`length` by reference; the model threads an immutable byte list and
returns the unconsumed rest.  `Impl::handleFragment` is modelled as always
returning false (never aborting the buffer), and the callback invocations
are recorded as a list of events. -/

def SHORT_MESSAGE_HEADER (isServer : Bool) : Nat := if isServer then 6 else 2
def MEDIUM_MESSAGE_HEADER (isServer : Bool) : Nat := if isServer then 8 else 4
def LONG_MESSAGE_HEADER (isServer : Bool) : Nat := if isServer then 14 else 10

/-- Model of the per-connection `WebSocketState` (lines 59-89): the bit-field
`State` plus `remainingBytes` and the mask.  `spill` holds the buffered
header bytes (`spillLength` is `spill.length`); `opStack ∈ {-1, 0, 1}`;
`opCode0`/`opCode1` model the two `OpCode` slots. -/
structure ParserState where
  wantsHead : Bool
  spill : List Nat
  opStack : Int
  opCode0 : Nat
  opCode1 : Nat
  lastFin : Bool
  remainingBytes : Nat
  mask : List Nat
  deriving DecidableEq, Repr

/-- The freshly constructed state (constructor at lines 77-82; the mask is
uninitialised in C and never read before being set, so it is zeroed here). -/
def initialState : ParserState :=
  { wantsHead := true
    spill := []
    opStack := -1
    opCode0 := 0
    opCode1 := 0
    lastFin := true
    remainingBytes := 0
    mask := [0, 0, 0, 0] }

/-- `opCode[opStack]`: the opcode slot indexed by the current stack top (only
read when `opStack ∈ {0, 1}`). -/
def ParserState.topOp (st : ParserState) : Nat :=
  if st.opStack = 1 then st.opCode1 else st.opCode0

/-- The observable callback invocations of one `consume` run. -/
inductive Event where
  | fragment (payload : List Nat) (remaining : Nat) (opCode : Nat) (fin : Bool)
  | forceClose (reason : String)
  deriving DecidableEq, Repr

/-- The implementation callbacks (`Impl`), modelled as pure answers:
`setCompressed` is the fixed answer of `Impl::setCompressed` and `refuse` the
answer of `Impl::refusePayloadLength`. -/
structure Impl where
  setCompressed : Bool
  refuse : Nat → Bool

/-- Header accessors (lines 293-297). -/
def isFin (frame : List Nat) : Bool := frame.headI &&& 128 ≠ 0

def getOpCode (frame : List Nat) : Nat := frame.headI &&& 15

def payloadLength (frame : List Nat) : Nat := frame.tail.headI &&& 127

def rsv23 (frame : List Nat) : Bool := frame.headI &&& 48 ≠ 0

def rsv1 (frame : List Nat) : Bool := frame.headI &&& 64 ≠ 0

/-- Model of `rotateMask` (lines 345-351): `new[(i + offset) % 4] = old[i]`,
i.e. `new[j] = old[(j + 4 - offset % 4) % 4]`. -/
def rotateMask (offset : Nat) (mask : List Nat) : List Nat :=
  [mask.getD ((0 + (4 - offset % 4)) % 4) 0,
    mask.getD ((1 + (4 - offset % 4)) % 4) 0,
    mask.getD ((2 + (4 - offset % 4)) % 4) 0,
    mask.getD ((3 + (4 - offset % 4)) % 4) 0]

/-- Result of one inner parser step: `flag` is the C return value of
`consumeMessage` / `consumeContinuation`, `rest` the unconsumed bytes. -/
structure StepResult where
  flag : Bool
  rest : List Nat
  state : ParserState
  events : List Event
  deriving Repr

/-- The big-endian 16-bit extended length at bytes 2-3 of the frame. -/
def be16At (l : List Nat) : Nat := l.getD 2 0 * 2 ^ 8 + l.getD 3 0

/-- The big-endian 64-bit extended length at bytes 2-9 of the frame. -/
def be64At (l : List Nat) : Nat :=
  l.getD 2 0 * 2 ^ 56 + l.getD 3 0 * 2 ^ 48 + l.getD 4 0 * 2 ^ 40 + l.getD 5 0 * 2 ^ 32 +
    l.getD 6 0 * 2 ^ 24 + l.getD 7 0 * 2 ^ 16 + l.getD 8 0 * 2 ^ 8 + l.getD 9 0

/-- Model of `consumeMessage` (lines 362-419) on the buffer `l` (whose head is
the frame's first byte).  `H` is the `MESSAGE_HEADER` template argument and
`payLength` the already-extracted payload length.  The `(… % 2 ^ 64)` mirrors
the `uint64_t` addition in the `payLength + MESSAGE_HEADER <= length` check
and the `(unsigned int)` cast that stores `remainingBytes`. -/
def consumeMessage (impl : Impl) (isServer : Bool) (H : Nat) (payLength : Nat)
    (l : List Nat) (st : ParserState) : StepResult :=
  if (getOpCode l ≠ 0 ∧ (st.opStack = 1 ∨ (st.lastFin = false ∧ getOpCode l < 2))) ∨
      (getOpCode l = 0 ∧ st.opStack = -1) then
    ⟨true, l, st, [.forceClose ERR_PROTOCOL]⟩
  else
    let st1 :=
      if getOpCode l ≠ 0 then
        { st with
          opStack := st.opStack + 1
          opCode0 := if st.opStack + 1 = 0 then getOpCode l else st.opCode0
          opCode1 := if st.opStack + 1 = 1 then getOpCode l else st.opCode1 }
      else st
    let st2 := { st1 with lastFin := isFin l }
    if impl.refuse payLength then
      ⟨true, l, st2, [.forceClose ERR_TOO_BIG_MESSAGE]⟩
    else if (payLength + H) % 2 ^ 64 ≤ l.length then
      let payload :=
        if isServer then maskBytes ((l.drop (H - 4)).take 4) 0 ((l.drop H).take payLength)
        else (l.drop H).take payLength
      let st3 := { st2 with
        opStack := if isFin l then st2.opStack - 1 else st2.opStack
        spill := [] }
      ⟨false, l.drop (payLength + H), st3, [.fragment payload 0 st2.topOp (isFin l)]⟩
    else
      let remaining := (payLength + H - l.length) % 2 ^ 32
      let payload :=
        if isServer then maskBytes ((l.drop (H - 4)).take 4) 0 (l.drop H)
        else l.drop H
      let st3 := { st2 with
        spill := []
        wantsHead := false
        remainingBytes := remaining
        mask := if isServer then
            rotateMask (4 - (l.length - H) % 4) ((l.drop (H - 4)).take 4)
          else st2.mask }
      ⟨true, [], st3, [.fragment payload remaining st2.topOp (isFin l)]⟩

/-- Model of `consumeContinuation` (lines 428-474).  `flag = true` is the C
`return true`, i.e. the frame completed and `consume` jumps back to the
header loop. -/
def consumeContinuation (isServer : Bool) (l : List Nat) (st : ParserState) :
    StepResult :=
  if st.remainingBytes ≤ l.length then
    let payload :=
      if isServer then maskBytes st.mask 0 (l.take st.remainingBytes)
      else l.take st.remainingBytes
    let st1 := { st with
      opStack := if st.lastFin then st.opStack - 1 else st.opStack
      wantsHead := true }
    ⟨true, l.drop st.remainingBytes, st1, [.fragment payload 0 st.topOp st.lastFin]⟩
  else
    let payload := if isServer then maskBytes st.mask 0 l else l
    let newRemaining := st.remainingBytes - l.length
    let st1 := { st with
      remainingBytes := newRemaining
      mask := if isServer ∧ l.length % 4 ≠ 0 then rotateMask (4 - l.length % 4) st.mask
        else st.mask }
    ⟨false, [], st1, [.fragment payload newRemaining st.topOp st.lastFin]⟩

/-- The spill save after the header loop (lines 514-517): remaining bytes
(fewer than the pending header needs) are buffered; `length & 0xf` is the
stored `spillLength`. -/
def spillExit (l : List Nat) (st : ParserState) : ParserState × List Event :=
  if l.length ≠ 0 then ({ st with spill := l.take (l.length &&& 15) }, [])
  else (st, [])

theorem SHORT_pos (b : Bool) : 0 < SHORT_MESSAGE_HEADER b := by
  cases b <;> simp [SHORT_MESSAGE_HEADER]

theorem MEDIUM_pos (b : Bool) : 0 < MEDIUM_MESSAGE_HEADER b := by
  cases b <;> simp [MEDIUM_MESSAGE_HEADER]

theorem LONG_pos (b : Bool) : 0 < LONG_MESSAGE_HEADER b := by
  cases b <;> simp [LONG_MESSAGE_HEADER]

theorem consumeMessage_progress (impl : Impl) (isServer : Bool) (H payLength : Nat)
    (l : List Nat) (st : ParserState) (hH : 0 < H) (hl : 0 < l.length) :
    (consumeMessage impl isServer H payLength l st).flag = true ∨
    (consumeMessage impl isServer H payLength l st).rest.length < l.length := by
  unfold consumeMessage
  split
  · exact Or.inl rfl
  · dsimp only
    split
    · exact Or.inl rfl
    · split
      · refine Or.inr ?_
        simp only [List.length_drop]
        omega
      · exact Or.inl rfl

/-- The header loop of `consume` (lines 488-517), including the spill save on
exit; a `flag = true` result from `consumeMessage` is the `return` inside the
loop. -/
def headLoop (impl : Impl) (isServer : Bool) (l : List Nat) (st : ParserState) :
    ParserState × List Event :=
  if h1 : SHORT_MESSAGE_HEADER isServer ≤ l.length then
    if (rsv1 l = true ∧ impl.setCompressed = false) ∨ rsv23 l = true ∨
        (2 < getOpCode l ∧ getOpCode l < 8) ∨ 10 < getOpCode l ∨
        (2 < getOpCode l ∧ (isFin l = false ∨ 125 < payloadLength l)) then
      (st, [.forceClose ERR_PROTOCOL])
    else if payloadLength l < 126 then
      let r := consumeMessage impl isServer (SHORT_MESSAGE_HEADER isServer)
        (payloadLength l) l st
      if hf : r.flag then (r.state, r.events)
      else
        let next := headLoop impl isServer r.rest r.state
        (next.1, r.events ++ next.2)
    else if payloadLength l = 126 then
      if l.length < MEDIUM_MESSAGE_HEADER isServer then spillExit l st
      else
        let r := consumeMessage impl isServer (MEDIUM_MESSAGE_HEADER isServer)
          (be16At l) l st
        if hf : r.flag then (r.state, r.events)
        else
          let next := headLoop impl isServer r.rest r.state
          (next.1, r.events ++ next.2)
    else if l.length < LONG_MESSAGE_HEADER isServer then spillExit l st
    else
      let r := consumeMessage impl isServer (LONG_MESSAGE_HEADER isServer)
        (be64At l) l st
      if hf : r.flag then (r.state, r.events)
      else
        let next := headLoop impl isServer r.rest r.state
        (next.1, r.events ++ next.2)
  else spillExit l st
  termination_by l.length
  decreasing_by
  · exact (consumeMessage_progress impl isServer _ _ l st (SHORT_pos isServer)
      (lt_of_lt_of_le (SHORT_pos isServer) h1)).resolve_left hf
  · exact (consumeMessage_progress impl isServer _ _ l st (MEDIUM_pos isServer)
      (lt_of_lt_of_le (SHORT_pos isServer) h1)).resolve_left hf
  · exact (consumeMessage_progress impl isServer _ _ l st (LONG_pos isServer)
      (lt_of_lt_of_le (SHORT_pos isServer) h1)).resolve_left hf

/-- Model of `consume` (lines 481-521): prepend the spill, then either run the
header loop or continue the in-progress frame (jumping back to the header
loop when it completes). -/
def consume (impl : Impl) (isServer : Bool) (input : List Nat) (st : ParserState) :
    ParserState × List Event :=
  let l := st.spill ++ input
  if st.wantsHead then headLoop impl isServer l st
  else
    let r := consumeContinuation isServer l st
    if r.flag then
      let next := headLoop impl isServer r.rest r.state
      (next.1, r.events ++ next.2)
    else (r.state, r.events)

/-- Feeding a sequence of chunks through successive `consume` calls,
accumulating the emitted events. -/
def feed (impl : Impl) (isServer : Bool) (chunks : List (List Nat))
    (st : ParserState) : ParserState × List Event :=
  match chunks with
  | [] => (st, [])
  | c :: cs =>
    let r := consume impl isServer c st
    let rest := feed impl isServer cs r.1
    (rest.1, r.2 ++ rest.2)

/-! ### Parser evaluation lemmas (guarded unfoldings of `headLoop`) -/

theorem maskBytes_length (mask : List Nat) (off : Nat) (l : List Nat) :
    (maskBytes mask off l).length = l.length := by
  induction l generalizing off with
  | nil => rfl
  | cons b r ih => simp [maskBytes, ih]

theorem maskBytes_maskBytes (mask : List Nat) (off : Nat) (l : List Nat) :
    maskBytes mask off (maskBytes mask off l) = l := by
  induction l generalizing off with
  | nil => rfl
  | cons b r ih => simp [maskBytes, ih, Nat.xor_cancel_right]

/-- Abbreviation for the header-validation test of `consume` (lines 492-493). -/
def badHeader (impl : Impl) (l : List Nat) : Prop :=
  (rsv1 l = true ∧ impl.setCompressed = false) ∨ rsv23 l = true ∨
    (2 < getOpCode l ∧ getOpCode l < 8) ∨ 10 < getOpCode l ∨
    (2 < getOpCode l ∧ (isFin l = false ∨ 125 < payloadLength l))

instance (impl : Impl) (l : List Nat) : Decidable (badHeader impl l) := by
  unfold badHeader; infer_instance

theorem headLoop_stop (impl : Impl) (isServer : Bool) (l : List Nat) (st : ParserState)
    (h : ¬ SHORT_MESSAGE_HEADER isServer ≤ l.length) :
    headLoop impl isServer l st = spillExit l st := by
  rw [headLoop.eq_def, dif_neg h]

theorem headLoop_bad (impl : Impl) (isServer : Bool) (l : List Nat) (st : ParserState)
    (h1 : SHORT_MESSAGE_HEADER isServer ≤ l.length) (hb : badHeader impl l) :
    headLoop impl isServer l st = (st, [.forceClose ERR_PROTOCOL]) := by
  unfold badHeader at hb
  rw [headLoop.eq_def, dif_pos h1, if_pos hb]

theorem headLoop_short (impl : Impl) (isServer : Bool) (l : List Nat) (st : ParserState)
    (h1 : SHORT_MESSAGE_HEADER isServer ≤ l.length) (hok : ¬ badHeader impl l)
    (hpl : payloadLength l < 126) :
    headLoop impl isServer l st =
      (let r := consumeMessage impl isServer (SHORT_MESSAGE_HEADER isServer)
        (payloadLength l) l st
      if r.flag then (r.state, r.events)
      else ((headLoop impl isServer r.rest r.state).1,
        r.events ++ (headLoop impl isServer r.rest r.state).2)) := by
  unfold badHeader at hok
  rw [headLoop.eq_def, dif_pos h1, if_neg hok, if_pos hpl]
  simp only [dite_eq_ite]

theorem headLoop_medium_spill (impl : Impl) (isServer : Bool) (l : List Nat)
    (st : ParserState) (h1 : SHORT_MESSAGE_HEADER isServer ≤ l.length)
    (hok : ¬ badHeader impl l) (hpl : payloadLength l = 126)
    (h2 : l.length < MEDIUM_MESSAGE_HEADER isServer) :
    headLoop impl isServer l st = spillExit l st := by
  unfold badHeader at hok
  rw [headLoop.eq_def, dif_pos h1, if_neg hok, if_neg (by omega), if_pos hpl, if_pos h2]

theorem headLoop_medium (impl : Impl) (isServer : Bool) (l : List Nat) (st : ParserState)
    (h1 : SHORT_MESSAGE_HEADER isServer ≤ l.length) (hok : ¬ badHeader impl l)
    (hpl : payloadLength l = 126) (h2 : ¬ l.length < MEDIUM_MESSAGE_HEADER isServer) :
    headLoop impl isServer l st =
      (let r := consumeMessage impl isServer (MEDIUM_MESSAGE_HEADER isServer) (be16At l) l st
      if r.flag then (r.state, r.events)
      else ((headLoop impl isServer r.rest r.state).1,
        r.events ++ (headLoop impl isServer r.rest r.state).2)) := by
  unfold badHeader at hok
  rw [headLoop.eq_def, dif_pos h1, if_neg hok, if_neg (by intro hq; omega), if_pos hpl, if_neg h2]
  simp only [dite_eq_ite]

theorem headLoop_long_spill (impl : Impl) (isServer : Bool) (l : List Nat)
    (st : ParserState) (h1 : SHORT_MESSAGE_HEADER isServer ≤ l.length)
    (hok : ¬ badHeader impl l) (hpl : ¬ payloadLength l < 126)
    (hpl2 : payloadLength l ≠ 126) (h2 : l.length < LONG_MESSAGE_HEADER isServer) :
    headLoop impl isServer l st = spillExit l st := by
  unfold badHeader at hok
  rw [headLoop.eq_def, dif_pos h1, if_neg hok, if_neg hpl, if_neg hpl2, if_pos h2]

theorem headLoop_long (impl : Impl) (isServer : Bool) (l : List Nat) (st : ParserState)
    (h1 : SHORT_MESSAGE_HEADER isServer ≤ l.length) (hok : ¬ badHeader impl l)
    (hpl : ¬ payloadLength l < 126) (hpl2 : payloadLength l ≠ 126)
    (h2 : ¬ l.length < LONG_MESSAGE_HEADER isServer) :
    headLoop impl isServer l st =
      (let r := consumeMessage impl isServer (LONG_MESSAGE_HEADER isServer) (be64At l) l st
      if r.flag then (r.state, r.events)
      else ((headLoop impl isServer r.rest r.state).1,
        r.events ++ (headLoop impl isServer r.rest r.state).2)) := by
  unfold badHeader at hok
  rw [headLoop.eq_def, dif_pos h1, if_neg hok, if_neg hpl, if_neg hpl2, if_neg h2]
  simp only [dite_eq_ite]

/-! ### Close-code validity (spec section 3: legal on-the-wire close codes) -/

/-- A close code that is legal on the wire: in `[1000,1011] ∪ [4000,4999]`
and not one of the reserved codes `1004`, `1005`, `1006`. -/
def validCloseCode (c : Nat) : Prop :=
  ((1000 ≤ c ∧ c ≤ 1011) ∨ (4000 ≤ c ∧ c ≤ 4999)) ∧ c ≠ 1004 ∧ c ≠ 1005 ∧ c ≠ 1006

instance (c : Nat) : Decidable (validCloseCode c) := by
  unfold validCloseCode; infer_instance

/-! ### Claim theorems -/

/-- C6: `isValidUtf8(buf, len)` returns true iff the buffer is valid UTF-8 per
RFC 3629 (it agrees with the reference RFC 3629 decoder `utf8Ref`): it rejects
overlong encodings, surrogates, code points above U+10FFFF, truncated
sequences and stray continuation bytes, and accepts everything else. -/
theorem isValidUtf8_matches_rfc3629 (s : List Nat) (h : ∀ b ∈ s, b < 256) :
    isValidUtf8 s = utf8Ref s :=
  isValidUtf8_agreesAux s.length s le_rfl h

/-- Witness for C6 at the concrete buffer `"Hé💖"` (mixed 1-, 2- and 4-byte
code points). -/
theorem isValidUtf8_matches_rfc3629_witness :
    (∀ b ∈ [0x48, 0xC3, 0xA9, 0xF0, 0x9F, 0x92, 0x96], b < 256) ∧
    isValidUtf8 [0x48, 0xC3, 0xA9, 0xF0, 0x9F, 0x92, 0x96] =
      utf8Ref [0x48, 0xC3, 0xA9, 0xF0, 0x9F, 0x92, 0x96] :=
  ⟨by decide, isValidUtf8_matches_rfc3629 _ (by decide)⟩

/-- C4 counterexample: the claim asserts the rejection triple has length 29,
but the string `"Received invalid close payload"` has 30 bytes; on the
claim's own example payload `03 ed "bye"` (code 1005) the parser returns
length 30, not 29. -/
theorem parseClosePayload_length29_refuted :
    (parseClosePayload [0x03, 0xED, 0x62, 0x79, 0x65] false).length = 30 ∧
    parseClosePayload [0x03, 0xED, 0x62, 0x79, 0x65] false ≠
      ⟨1006, .errorText ERR_INVALID_CLOSE_PAYLOAD, 29⟩ := by
  have he : parseClosePayload [0x03, 0xED, 0x62, 0x79, 0x65] false =
      ⟨1006, .errorText ERR_INVALID_CLOSE_PAYLOAD, 30⟩ := by
    simp +decide [parseClosePayload, isValidUtf8_step, isValidUtf8_nil, asciiRun]
  rw [he]
  exact ⟨rfl, by decide⟩

/-- C4 (amended: the rejection triple's length is 30, the length of
`"Received invalid close payload"`, not 29): for every input of length ≥ 2
whose leading big-endian 16-bit code is out of range, reserved, or whose
remaining bytes fail UTF-8 validation (when not skipped), `parseClosePayload`
returns `{1006, "Received invalid close payload", 30}`. -/
theorem parseClosePayload_rejects_invalid (src : List Nat) (skip : Bool)
    (hlen : 2 ≤ src.length)
    (hbad : src.headI * 256 + src.tail.headI < 1000 ∨
      4999 < src.headI * 256 + src.tail.headI ∨
      (1011 < src.headI * 256 + src.tail.headI ∧ src.headI * 256 + src.tail.headI < 4000) ∨
      src.headI * 256 + src.tail.headI = 1004 ∨
      src.headI * 256 + src.tail.headI = 1005 ∨
      src.headI * 256 + src.tail.headI = 1006 ∨
      (skip = false ∧ isValidUtf8 (src.drop 2) = false)) :
    parseClosePayload src skip = ⟨1006, .errorText ERR_INVALID_CLOSE_PAYLOAD, 30⟩ := by
  unfold parseClosePayload
  rw [if_pos hlen, if_pos ?_]
  · have h30 : ERR_INVALID_CLOSE_PAYLOAD.length = 30 := by decide
    rw [h30]
  · rcases hbad with h | h | h | h | h | h | h
    exacts [Or.inl h, Or.inr (Or.inl h), Or.inr (Or.inr (Or.inl h)),
      Or.inr (Or.inr (Or.inr (Or.inl (by omega)))),
      Or.inr (Or.inr (Or.inr (Or.inl (by omega)))),
      Or.inr (Or.inr (Or.inr (Or.inl (by omega)))),
      Or.inr (Or.inr (Or.inr (Or.inr h)))]

/-- Witness for the amended C4 at the payload `03 ed "bye"` (code 1005). -/
theorem parseClosePayload_rejects_invalid_witness :
    (2 ≤ ([0x03, 0xED, 0x62, 0x79, 0x65] : List Nat).length) ∧
    parseClosePayload [0x03, 0xED, 0x62, 0x79, 0x65] false =
      ⟨1006, .errorText ERR_INVALID_CLOSE_PAYLOAD, 30⟩ :=
  ⟨by decide, parseClosePayload_rejects_invalid _ false (by decide) (by decide)⟩

/-- C8: close payload round-trip.  For a valid close code (not 0, 1005 or
1006) and a valid-UTF-8 message, parsing the formatted close payload returns
exactly that code and message. -/
theorem closePayload_roundTrip (code : Nat) (msg : List Nat)
    (hv : validCloseCode code) (hmsg : isValidUtf8 msg = true) :
    parseClosePayload (formatClosePayload code msg) false =
      ⟨code, .payload msg, msg.length⟩ := by
  obtain ⟨hrange, h4, h5, h6⟩ := hv
  unfold formatClosePayload
  rw [if_pos ⟨by omega, h5, h6⟩]
  unfold parseClosePayload
  rw [if_pos (by simp)]
  have hc : (code / 256 % 256 :: code % 256 :: msg).headI * 256 +
      (code / 256 % 256 :: code % 256 :: msg).tail.headI = code := by
    simp only [List.headI_cons, List.tail_cons]
    omega
  rw [hc]
  have hdrop : (code / 256 % 256 :: code % 256 :: msg).drop 2 = msg := by simp
  rw [hdrop]
  rw [if_neg ?_]
  · simp
  · rintro (h | h | h | h | ⟨-, hf⟩)
    · omega
    · omega
    · omega
    · omega
    · simp [hmsg] at hf

/-- Witness for C8 at code 1000, message `"bye"`. -/
theorem closePayload_roundTrip_witness :
    validCloseCode 1000 ∧ isValidUtf8 [0x62, 0x79, 0x65] = true ∧
    parseClosePayload (formatClosePayload 1000 [0x62, 0x79, 0x65]) false =
      ⟨1000, .payload [0x62, 0x79, 0x65], 3⟩ :=
  ⟨by decide, by simp +decide [isValidUtf8_step, isValidUtf8_nil, asciiRun],
    closePayload_roundTrip 1000 [0x62, 0x79, 0x65] (by decide)
      (by simp +decide [isValidUtf8_step, isValidUtf8_nil, asciiRun])⟩


/-- C9: for every payload size and both roles, `messageFrameSize` equals the
byte count produced by `formatMessage` called with
`length == reportedLength == src.length`. -/
theorem messageFrameSize_matches_formatMessage (isServer : Bool) (src : List Nat)
    (opCode : Nat) (compressed fin : Bool) (mask : List Nat) (hm : mask.length = 4) :
    (formatMessage isServer src opCode src.length compressed fin mask).length =
      messageFrameSize isServer src.length := by
  by_cases h1 : src.length < 126 <;> by_cases h2 : src.length ≤ 0xFFFF <;>
    cases isServer <;>
      simp [formatMessage, messageFrameSize, be16, be64, h1, h2, maskBytes_length, hm] <;>
      omega

/-- Witness for C9 at a 3-byte payload, client role. -/
theorem messageFrameSize_matches_formatMessage_witness :
    ([9, 9, 9, 9] : List Nat).length = 4 ∧
    (formatMessage false [1, 2, 3] 2 ([1, 2, 3] : List Nat).length false true
      [9, 9, 9, 9]).length = messageFrameSize false ([1, 2, 3] : List Nat).length :=
  ⟨by decide, messageFrameSize_matches_formatMessage false [1, 2, 3] 2 false true
    [9, 9, 9, 9] (by decide)⟩

/-- C10: a zero-length `consume` call in the middle of a frame's payload
(with no spill) still delivers exactly one `handleFragment` with fragment
length 0, the unchanged `remainingBytes` as `remaining`, the top-of-stack
opcode, and `lastFin`, and leaves the state unchanged. -/
theorem consume_empty_midPayload (impl : Impl) (isServer : Bool) (st : ParserState)
    (hw : st.wantsHead = false) (hr : 0 < st.remainingBytes) (hs : st.spill = []) :
    consume impl isServer [] st =
      (st, [.fragment [] st.remainingBytes st.topOp st.lastFin]) := by
  obtain ⟨w, sp, ops, oc0, oc1, lf, rb, mk⟩ := st
  simp only at hw hr hs
  subst hw hs
  unfold consume consumeContinuation
  have h0 : ¬ rb = 0 := by omega
  simp [h0, maskBytes]

/-- Witness for C10 at a concrete mid-payload state. -/
theorem consume_empty_midPayload_witness :
    (({ wantsHead := false, spill := [], opStack := 0, opCode0 := 2, opCode1 := 0,
        lastFin := true, remainingBytes := 7, mask := [1, 2, 3, 4] } : ParserState).wantsHead
        = false) ∧
    consume ⟨true, fun _ => false⟩ true []
        { wantsHead := false, spill := [], opStack := 0, opCode0 := 2, opCode1 := 0,
          lastFin := true, remainingBytes := 7, mask := [1, 2, 3, 4] } =
      ({ wantsHead := false, spill := [], opStack := 0, opCode0 := 2, opCode1 := 0,
          lastFin := true, remainingBytes := 7, mask := [1, 2, 3, 4] },
        [.fragment [] 7 2 true]) :=
  ⟨rfl, consume_empty_midPayload _ true _ rfl (by decide) rfl⟩

/-- C7: a frame header with RSV2/RSV3 set, RSV1 set without negotiated
compression, a reserved opcode, or an unfragmented/oversized control frame
makes `consume` emit exactly one `forceClose` with
`"Received invalid WebSocket frame"` and no fragment. -/
theorem consume_bad_header (impl : Impl) (isServer : Bool) (l : List Nat)
    (st : ParserState) (hw : st.wantsHead = true) (hs : st.spill = [])
    (hlen : SHORT_MESSAGE_HEADER isServer ≤ l.length)
    (hbad : rsv23 l = true ∨ (rsv1 l = true ∧ impl.setCompressed = false) ∨
      (3 ≤ getOpCode l ∧ getOpCode l ≤ 7) ∨ (11 ≤ getOpCode l ∧ getOpCode l ≤ 15) ∨
      (8 ≤ getOpCode l ∧ (isFin l = false ∨ 125 < payloadLength l))) :
    consume impl isServer l st = (st, [.forceClose ERR_PROTOCOL]) := by
  unfold consume
  rw [hs]
  simp only [List.nil_append, hw, if_true]
  refine headLoop_bad impl isServer l st hlen ?_
  unfold badHeader
  rcases hbad with h | h | h | h | ⟨hop, hfin⟩
  · exact Or.inr (Or.inl h)
  · exact Or.inl h
  · exact Or.inr (Or.inr (Or.inl ⟨by omega, by omega⟩))
  · exact Or.inr (Or.inr (Or.inr (Or.inl (by omega))))
  · by_cases h10 : getOpCode l ≤ 10
    · exact Or.inr (Or.inr (Or.inr (Or.inr ⟨by omega, hfin⟩)))
    · exact Or.inr (Or.inr (Or.inr (Or.inl (by omega))))

/-- Witness for C7: first byte `a1` (RSV2 set), 6 filler bytes, server role. -/
theorem consume_bad_header_witness :
    (rsv23 [0xA1, 0, 0, 0, 0, 0] = true) ∧
    consume ⟨true, fun _ => false⟩ true [0xA1, 0, 0, 0, 0, 0] initialState =
      (initialState, [.forceClose ERR_PROTOCOL]) :=
  ⟨by decide, consume_bad_header ⟨true, fun _ => false⟩ true [0xA1, 0, 0, 0, 0, 0]
    initialState rfl rfl (by decide) (Or.inl (by decide))⟩

/-- `refusePayloadLength` bounds accepted payloads below 4GiB (as the real
library's `maxPayloadLength` limit, an `unsigned int`, always does); without
this, a declared payload of about 2^32 bytes would overflow the
`unsigned int remainingBytes`. -/
def RefuseBounded (impl : Impl) : Prop :=
  ∀ p, impl.refuse p = false → p + 14 < 2 ^ 32

theorem headerLe14 (b : Bool) : SHORT_MESSAGE_HEADER b ≤ 14 ∧
    MEDIUM_MESSAGE_HEADER b ≤ 14 ∧ LONG_MESSAGE_HEADER b ≤ 14 := by
  cases b <;> simp [SHORT_MESSAGE_HEADER, MEDIUM_MESSAGE_HEADER, LONG_MESSAGE_HEADER]

theorem spillExit_wantsHead (l : List Nat) (st : ParserState) :
    (spillExit l st).1.wantsHead = st.wantsHead := by
  unfold spillExit; split <;> rfl

theorem consumeMessage_inv (impl : Impl) (isServer : Bool) (H p : Nat) (l : List Nat)
    (st : ParserState) (hb : RefuseBounded impl) (hw : st.wantsHead = true) (hH : H ≤ 14) :
    ((consumeMessage impl isServer H p l st).state.remainingBytes = 0 →
      (consumeMessage impl isServer H p l st).state.wantsHead = true) ∧
    ((consumeMessage impl isServer H p l st).flag = false →
      (consumeMessage impl isServer H p l st).state.wantsHead = true) := by
  unfold consumeMessage
  split
  · exact ⟨fun _ => hw, fun _ => hw⟩
  · dsimp only
    split
    · exact ⟨fun _ => by dsimp only; split <;> exact hw,
        fun _ => by dsimp only; split <;> exact hw⟩
    · split
      · exact ⟨fun _ => by dsimp only; split <;> exact hw,
        fun _ => by dsimp only; split <;> exact hw⟩
      · rename_i hop hrefuse hle
        have hrf : impl.refuse p = false := by
          revert hrefuse; simp
        have hpb := hb p hrf
        refine ⟨fun h0 => absurd h0 ?_, fun hf => by simp at hf⟩
        dsimp only
        omega

theorem headLoop_inv (impl : Impl) (isServer : Bool) (hb : RefuseBounded impl) :
    ∀ n (l : List Nat) (st : ParserState), l.length ≤ n → st.wantsHead = true →
      ((headLoop impl isServer l st).1.remainingBytes = 0 →
        (headLoop impl isServer l st).1.wantsHead = true) := by
  intro n
  induction n with
  | zero =>
    intro l st hl hw _
    have h1 : ¬ SHORT_MESSAGE_HEADER isServer ≤ l.length := by
      have := SHORT_pos isServer; omega
    rw [headLoop_stop _ _ _ _ h1, spillExit_wantsHead]
    exact hw
  | succ n ih =>
    intro l st hl hw
    by_cases h1 : SHORT_MESSAGE_HEADER isServer ≤ l.length
    · by_cases hbad : badHeader impl l
      · rw [headLoop_bad _ _ _ _ h1 hbad]
        exact fun _ => hw
      · by_cases hpl : payloadLength l < 126
        · rw [headLoop_short _ _ _ _ h1 hbad hpl]
          obtain ⟨hi1, hi2⟩ := consumeMessage_inv impl isServer _ (payloadLength l) l st
            hb hw (headerLe14 isServer).1
          by_cases hf : (consumeMessage impl isServer (SHORT_MESSAGE_HEADER isServer)
              (payloadLength l) l st).flag = true
          · simp only [hf, if_true]
            exact hi1
          · simp only [hf, if_false, Bool.false_eq_true]
            have hrest := (consumeMessage_progress impl isServer _ (payloadLength l) l st
              (SHORT_pos isServer) (lt_of_lt_of_le (SHORT_pos isServer) h1)).resolve_left hf
            exact ih _ _ (by omega) (hi2 (by revert hf; simp))
        · by_cases hpl2 : payloadLength l = 126
          · by_cases h2 : l.length < MEDIUM_MESSAGE_HEADER isServer
            · rw [headLoop_medium_spill _ _ _ _ h1 hbad hpl2 h2, spillExit_wantsHead]
              exact fun _ => hw
            · rw [headLoop_medium _ _ _ _ h1 hbad hpl2 h2]
              obtain ⟨hi1, hi2⟩ := consumeMessage_inv impl isServer _ (be16At l) l st
                hb hw (headerLe14 isServer).2.1
              by_cases hf : (consumeMessage impl isServer (MEDIUM_MESSAGE_HEADER isServer)
                  (be16At l) l st).flag = true
              · simp only [hf, if_true]
                exact hi1
              · simp only [hf, if_false, Bool.false_eq_true]
                have hrest := (consumeMessage_progress impl isServer _ (be16At l) l st
                  (MEDIUM_pos isServer) (lt_of_lt_of_le (SHORT_pos isServer) h1)).resolve_left hf
                exact ih _ _ (by omega) (hi2 (by revert hf; simp))
          · by_cases h2 : l.length < LONG_MESSAGE_HEADER isServer
            · rw [headLoop_long_spill _ _ _ _ h1 hbad hpl hpl2 h2, spillExit_wantsHead]
              exact fun _ => hw
            · rw [headLoop_long _ _ _ _ h1 hbad hpl hpl2 h2]
              obtain ⟨hi1, hi2⟩ := consumeMessage_inv impl isServer _ (be64At l) l st
                hb hw (headerLe14 isServer).2.2
              by_cases hf : (consumeMessage impl isServer (LONG_MESSAGE_HEADER isServer)
                  (be64At l) l st).flag = true
              · simp only [hf, if_true]
                exact hi1
              · simp only [hf, if_false, Bool.false_eq_true]
                have hrest := (consumeMessage_progress impl isServer _ (be64At l) l st
                  (LONG_pos isServer) (lt_of_lt_of_le (SHORT_pos isServer) h1)).resolve_left hf
                exact ih _ _ (by omega) (hi2 (by revert hf; simp))
    · rw [headLoop_stop _ _ _ _ h1, spillExit_wantsHead]
      exact fun _ => hw

theorem consume_inv (impl : Impl) (isServer : Bool) (input : List Nat) (st : ParserState)
    (hb : RefuseBounded impl) :
    (consume impl isServer input st).1.remainingBytes = 0 →
      (consume impl isServer input st).1.wantsHead = true := by
  unfold consume
  by_cases hw : st.wantsHead = true
  · simp only [hw, if_true]
    exact headLoop_inv impl isServer hb _ _ st le_rfl hw
  · rw [if_neg hw]
    unfold consumeContinuation
    by_cases hc : st.remainingBytes ≤ (st.spill ++ input).length
    · rw [if_pos hc]
      dsimp only
      exact headLoop_inv impl isServer hb _ _ _ le_rfl rfl
    · rw [if_neg hc]
      intro h0
      have h0' : st.remainingBytes - (st.spill ++ input).length = 0 := h0
      omega

theorem feed_inv (impl : Impl) (isServer : Bool) (hb : RefuseBounded impl) :
    ∀ (chunks : List (List Nat)) (st : ParserState),
      (st.remainingBytes = 0 → st.wantsHead = true) →
      ((feed impl isServer chunks st).1.remainingBytes = 0 →
        (feed impl isServer chunks st).1.wantsHead = true) := by
  intro chunks
  induction chunks with
  | nil => intro st h; exact h
  | cons c cs ih =>
    intro st _
    exact ih _ (consume_inv impl isServer c st hb)

/-- A concrete implementation with the library's default-sized payload limit
(16MiB): used to instantiate `RefuseBounded`. -/
def implDemo : Impl := ⟨true, fun p => decide (16777216 < p)⟩

theorem implDemo_bounded : RefuseBounded implDemo := by
  intro p h
  simp [implDemo] at h
  omega

/-- C2 counterexample: feeding the masked `"Hello"` text frame in two chunks
(split after one payload byte) completes the frame — `wantsHead` returns to
`true` and no `forceClose` fires — but `remainingBytes` is left at its stale
value 4, so `wantsHead = true ⇔ remainingBytes = 0` fails on a reachable,
error-free state. -/
theorem wantsHead_iff_remainingBytes_refuted :
    ((feed ⟨true, fun _ => false⟩ true
      [[0x81, 0x85, 0x37, 0xFA, 0x21, 0x3D, 0x7F], [0x9F, 0x4D, 0x51, 0x58]]
      initialState).1.wantsHead = true) ∧
    ((feed ⟨true, fun _ => false⟩ true
      [[0x81, 0x85, 0x37, 0xFA, 0x21, 0x3D, 0x7F], [0x9F, 0x4D, 0x51, 0x58]]
      initialState).1.remainingBytes = 4) ∧
    ((feed ⟨true, fun _ => false⟩ true
      [[0x81, 0x85, 0x37, 0xFA, 0x21, 0x3D, 0x7F], [0x9F, 0x4D, 0x51, 0x58]]
      initialState).2 =
      [.fragment [0x48] 4 1 true, .fragment [0x65, 0x6C, 0x6C, 0x6F] 0 1 true]) := by
  refine ⟨?_, ?_, ?_⟩ <;>
    simp +decide [feed, consume, initialState, headLoop_stop, headLoop_bad,
      headLoop_short, headLoop_medium, headLoop_medium_spill, headLoop_long,
      headLoop_long_spill, consumeMessage, consumeContinuation, spillExit, maskBytes,
      rotateMask, be16At, be64At, isFin, getOpCode, payloadLength, rsv1, rsv23,
      SHORT_MESSAGE_HEADER, MEDIUM_MESSAGE_HEADER, LONG_MESSAGE_HEADER,
      ParserState.topOp, badHeader]

/-- C2 (amended: only the forward direction survives — `remainingBytes = 0`
implies `wantsHead`, for any implementation whose payload-length limit stays
below 4GiB; after `consumeContinuation` completes a frame `remainingBytes`
keeps its stale nonzero value, so the converse direction is false). -/
theorem remainingBytes_zero_imp_wantsHead (impl : Impl) (isServer : Bool)
    (chunks : List (List Nat)) (st : ParserState) (hb : RefuseBounded impl)
    (hreach : (feed impl isServer chunks initialState).1 = st)
    (h0 : st.remainingBytes = 0) : st.wantsHead = true := by
  subst hreach
  exact feed_inv impl isServer hb chunks initialState (fun _ => rfl) h0

/-- Witness for the amended C2: the state reached by the two-chunk `"Hello"`
feed after a further empty `consume` keeps the invariant. -/
theorem remainingBytes_zero_imp_wantsHead_witness :
    RefuseBounded implDemo ∧
    (feed implDemo true [[0x81, 0x85, 0x37, 0xFA, 0x21, 0x3D, 0x7F, 0x9F,
      0x4D, 0x51, 0x58]] initialState).1 =
      { wantsHead := true, spill := [], opStack := -1, opCode0 := 1, opCode1 := 0,
        lastFin := true, remainingBytes := 0, mask := [0, 0, 0, 0] } ∧
    ({ wantsHead := true, spill := [], opStack := -1, opCode0 := 1, opCode1 := 0,
        lastFin := true, remainingBytes := 0, mask := [0, 0, 0, 0] } : ParserState).wantsHead
      = true := by
  refine ⟨implDemo_bounded, ?_, ?_⟩
  · simp +decide [feed, consume, implDemo, initialState, headLoop_stop, headLoop_bad,
      headLoop_short, headLoop_medium, headLoop_medium_spill, headLoop_long,
      headLoop_long_spill, consumeMessage, consumeContinuation, spillExit, maskBytes,
      rotateMask, be16At, be64At, isFin, getOpCode, payloadLength, rsv1, rsv23,
      SHORT_MESSAGE_HEADER, MEDIUM_MESSAGE_HEADER, LONG_MESSAGE_HEADER,
      ParserState.topOp, badHeader]
  · exact remainingBytes_zero_imp_wantsHead implDemo true
      [[0x81, 0x85, 0x37, 0xFA, 0x21, 0x3D, 0x7F, 0x9F, 0x4D, 0x51, 0x58]] _
      implDemo_bounded
      (by simp +decide [feed, consume, implDemo, initialState, headLoop_stop, headLoop_bad,
        headLoop_short, headLoop_medium, headLoop_medium_spill, headLoop_long,
        headLoop_long_spill, consumeMessage, consumeContinuation, spillExit, maskBytes,
        rotateMask, be16At, be64At, isFin, getOpCode, payloadLength, rsv1, rsv23,
        SHORT_MESSAGE_HEADER, MEDIUM_MESSAGE_HEADER, LONG_MESSAGE_HEADER,
        ParserState.topOp, badHeader])
      rfl

/-- C3 counterexample: with a fragmented Binary message in progress
(first frame `FIN = 0`), a second **Binary** frame (opcode 2) is *accepted*
and delivered — only a Text frame (opcode 1) trips the
`getOpCode(src) < 2` check — so "any new data frame (Text or Binary) is a
protocol error" is false.  (Frames are masked with a zero mask;
server role.) -/
theorem midMessage_binary_accepted :
    (consume ⟨true, fun _ => false⟩ true
      [0x02, 0x81, 0, 0, 0, 0, 0xAA, 0x82, 0x81, 0, 0, 0, 0, 0xBB] initialState).2 =
      [.fragment [0xAA] 0 2 false, .fragment [0xBB] 0 2 true] := by
  simp +decide [consume, initialState, headLoop_stop, headLoop_bad,
    headLoop_short, headLoop_medium, headLoop_medium_spill, headLoop_long,
    headLoop_long_spill, consumeMessage, consumeContinuation, spillExit, maskBytes,
    rotateMask, be16At, be16, be64At, isFin, getOpCode, payloadLength, rsv1, rsv23,
    SHORT_MESSAGE_HEADER, MEDIUM_MESSAGE_HEADER, LONG_MESSAGE_HEADER,
    ParserState.topOp, badHeader]

theorem lor128_and127 : ∀ n, n < 126 → (n ||| 128) &&& 127 = n := by decide

theorem headerByte_facts (opCode : Nat) (hop : opCode = 1 ∨ opCode = 2) (fin : Bool) :
    (((if fin then 128 else 0) ||| opCode) &&& 15 = opCode) ∧
    ((decide (¬ ((if fin then 128 else 0) ||| opCode) &&& 128 = 0)) = fin) ∧
    (((if fin then 128 else 0) ||| opCode) &&& 64 = 0) ∧
    (((if fin then 128 else 0) ||| opCode) &&& 48 = 0) := by
  rcases hop with h | h <;> subst h <;> cases fin <;> decide

theorem consume_initial (impl : Impl) (isServer : Bool) (input : List Nat) :
    consume impl isServer input initialState =
      headLoop impl isServer input initialState := rfl

/-- Shared core of the masking round trip: a fully-present client data frame
`b0 :: b1 :: ext ++ mask ++ masked-payload` consumed by a server-role
`consumeMessage` from the initial state delivers the unmasked payload. -/
theorem consumeMessage_roundTrip_core (impl : Impl) (H : Nat) (l p ext mask : List Nat)
    (opCode : Nat) (fin : Bool) (b0 b1 : Nat)
    (hl : l = b0 :: b1 :: (ext ++ (mask ++ maskBytes mask 0 p)))
    (hH : ext.length + 6 = H) (hm : mask.length = 4)
    (hrefuse : impl.refuse p.length = false)
    (hop : getOpCode l = opCode) (hopnz : opCode = 1 ∨ opCode = 2)
    (hfin : isFin l = fin)
    (hsmall : (p.length + H) % 2 ^ 64 = p.length + H) :
    consumeMessage impl true H p.length l initialState =
    ⟨false, [], ⟨true, [], if fin then -1 else 0, opCode, 0, fin, 0, [0, 0, 0, 0]⟩,
      [.fragment p 0 opCode fin]⟩ := by
  subst hl
  have hne : opCode ≠ 0 := by omega
  have hLlen : (b0 :: b1 :: (ext ++ (mask ++ maskBytes mask 0 p))).length = p.length + H := by
    simp [maskBytes_length]
    omega
  have hd2 : (b0 :: b1 :: (ext ++ (mask ++ maskBytes mask 0 p))).drop (ext.length + 2) =
      mask ++ maskBytes mask 0 p := by
    have h22 : ext.length + 2 = (ext.length + 1) + 1 := by omega
    rw [h22, List.drop_succ_cons, List.drop_succ_cons, List.drop_left]
  have hdH4 : (b0 :: b1 :: (ext ++ (mask ++ maskBytes mask 0 p))).drop (H - 4) =
      mask ++ maskBytes mask 0 p := by
    have h4 : H - 4 = ext.length + 2 := by omega
    rw [h4, hd2]
  have hdH : (b0 :: b1 :: (ext ++ (mask ++ maskBytes mask 0 p))).drop H =
      maskBytes mask 0 p := by
    have h6 : H = (ext.length + 2) + 4 := by omega
    rw [h6, ← List.drop_drop, hd2, List.drop_left' hm]
  have htake4 : (mask ++ maskBytes mask 0 p).take 4 = mask := List.take_left' hm
  have htakeP : (maskBytes mask 0 p).take p.length = maskBytes mask 0 p := by
    rw [← maskBytes_length mask 0 p, List.take_length]
  have hdrest : (b0 :: b1 :: (ext ++ (mask ++ maskBytes mask 0 p))).drop (p.length + H) =
      [] := List.drop_eq_nil_of_le (by omega)
  have hle : (p.length + H) % 2 ^ 64 ≤
      (b0 :: b1 :: (ext ++ (mask ++ maskBytes mask 0 p))).length := by
    rw [hsmall, hLlen]
  have hcond : ¬ ((opCode ≠ 0 ∧
      (initialState.opStack = 1 ∨ (initialState.lastFin = false ∧ opCode < 2))) ∨
      (opCode = 0 ∧ initialState.opStack = -1)) := by
    rintro (⟨-, h | ⟨h2, -⟩⟩ | ⟨hz, -⟩)
    · simp [initialState] at h
    · simp [initialState] at h2
    · omega
  unfold consumeMessage
  rw [hop, hfin, if_neg hcond]
  dsimp only
  rw [if_neg (by simp [hrefuse]), if_pos hle]
  rw [hdrest]
  simp only [if_pos rfl, hdH4, hdH, htake4, htakeP, maskBytes_maskBytes]
  simp [initialState, ParserState.topOp, hne]

/-- C5: masking round trip.  Formatting a data frame with
`formatMessage<CLIENT>` (any 4 mask bytes, `compressed = false`,
`length == reportedLength`) and feeding the produced frame to a server-role
parser in one `consume` yields exactly one `handleFragment` delivering the
original payload bytes with that opcode, `remaining == 0` and that FIN, and
the opcode stack returns to −1 exactly when `fin` is set. -/
theorem formatMessage_roundTrip (impl : Impl) (p : List Nat) (opCode : Nat) (fin : Bool)
    (mask : List Nat) (hop : opCode = 1 ∨ opCode = 2) (hm : mask.length = 4)
    (hrefuse : impl.refuse p.length = false) (hlen : p.length + 14 < 2 ^ 64) :
    consume impl true (formatMessage false p opCode p.length false fin mask) initialState =
      (⟨true, [], if fin then -1 else 0, opCode, 0, fin, 0, [0, 0, 0, 0]⟩,
        [.fragment p 0 opCode fin]) := by
  obtain ⟨f15, ffin, f64, f48⟩ := headerByte_facts opCode hop fin
  have hle2 : ¬ 2 < opCode := by omega
  have hle10 : ¬ 10 < opCode := by omega
  have hstop0 : ¬ SHORT_MESSAGE_HEADER true ≤ ([] : List Nat).length := by decide
  by_cases hb1 : p.length < 126
  · -- short frame
    have hL : formatMessage false p opCode p.length false fin mask =
        ((if fin then 128 else 0) ||| opCode) :: (p.length ||| 128) ::
          (mask ++ maskBytes mask 0 p) := by
      unfold formatMessage
      simp [hb1]
    have hof : getOpCode (((if fin then 128 else 0) ||| opCode) :: (p.length ||| 128) ::
        (mask ++ maskBytes mask 0 p)) = opCode := by
      simp [getOpCode, f15]
    have hff : isFin (((if fin then 128 else 0) ||| opCode) :: (p.length ||| 128) ::
        (mask ++ maskBytes mask 0 p)) = fin := by
      simp only [isFin, List.headI_cons]
      exact ffin
    have hpf : payloadLength (((if fin then 128 else 0) ||| opCode) :: (p.length ||| 128) ::
        (mask ++ maskBytes mask 0 p)) = p.length := by
      simp only [payloadLength, List.tail_cons, List.headI_cons]
      exact lor128_and127 _ hb1
    have hlenN : (((if fin then 128 else 0) ||| opCode) :: (p.length ||| 128) ::
        (mask ++ maskBytes mask 0 p)).length = p.length + 6 := by
      simp only [List.length_cons, List.length_append, maskBytes_length, hm]
      omega
    have hcore := consumeMessage_roundTrip_core impl (SHORT_MESSAGE_HEADER true)
      (((if fin then 128 else 0) ||| opCode) :: (p.length ||| 128) ::
        (mask ++ maskBytes mask 0 p)) p [] mask
      opCode fin ((if fin then 128 else 0) ||| opCode) (p.length ||| 128) (by simp)
      (by simp [SHORT_MESSAGE_HEADER]) hm hrefuse hof hop hff
      (Nat.mod_eq_of_lt (by simp [SHORT_MESSAGE_HEADER]; omega))
    rw [hL, consume_initial]
    rw [headLoop_short _ _ _ _ (by rw [hlenN]; show (6 : Nat) ≤ p.length + 6; omega)
      ?_ (by rw [hpf]; omega)]
    · dsimp only
      rw [hpf, hcore]
      dsimp only
      rw [headLoop_stop _ _ _ _ hstop0]
      simp [spillExit]
    · unfold badHeader
      simp [rsv1, rsv23, getOpCode, f15, f48, f64, hle2, hle10]
  · by_cases hb2 : p.length ≤ 0xFFFF
    · -- medium frame
      have hL : formatMessage false p opCode p.length false fin mask =
          ((if fin then 128 else 0) ||| opCode) :: (126 ||| 128) ::
            p.length / 2 ^ 8 % 256 :: p.length % 256 :: (mask ++ maskBytes mask 0 p) := by
        unfold formatMessage be16
        simp [hb1, hb2]
      have hof : getOpCode (((if fin then 128 else 0) ||| opCode) :: (126 ||| 128) ::
          p.length / 2 ^ 8 % 256 :: p.length % 256 :: (mask ++ maskBytes mask 0 p)) =
          opCode := by
        simp [getOpCode, f15]
      have hff : isFin (((if fin then 128 else 0) ||| opCode) :: (126 ||| 128) ::
          p.length / 2 ^ 8 % 256 :: p.length % 256 :: (mask ++ maskBytes mask 0 p)) =
          fin := by
        simp only [isFin, List.headI_cons]
        exact ffin
      have hpf : payloadLength (((if fin then 128 else 0) ||| opCode) :: (126 ||| 128) ::
          p.length / 2 ^ 8 % 256 :: p.length % 256 :: (mask ++ maskBytes mask 0 p)) =
          126 := by
        simp only [payloadLength, List.tail_cons, List.headI_cons]
        decide
      have hbe : be16At (((if fin then 128 else 0) ||| opCode) :: (126 ||| 128) ::
          p.length / 2 ^ 8 % 256 :: p.length % 256 :: (mask ++ maskBytes mask 0 p)) =
          p.length := by
        simp [be16At, List.getD]
        omega
      have hlenN : (((if fin then 128 else 0) ||| opCode) :: (126 ||| 128) ::
          p.length / 2 ^ 8 % 256 :: p.length % 256 ::
          (mask ++ maskBytes mask 0 p)).length = p.length + 8 := by
        simp only [List.length_cons, List.length_append, maskBytes_length, hm]
        omega
      have hcore := consumeMessage_roundTrip_core impl (MEDIUM_MESSAGE_HEADER true)
        (((if fin then 128 else 0) ||| opCode) :: (126 ||| 128) ::
          p.length / 2 ^ 8 % 256 :: p.length % 256 :: (mask ++ maskBytes mask 0 p)) p
        [p.length / 2 ^ 8 % 256, p.length % 256] mask opCode fin
        ((if fin then 128 else 0) ||| opCode) (126 ||| 128) (by simp)
        (by simp [MEDIUM_MESSAGE_HEADER]) hm hrefuse hof hop hff
        (Nat.mod_eq_of_lt (by simp [MEDIUM_MESSAGE_HEADER]; omega))
      rw [hL, consume_initial]
      rw [headLoop_medium _ _ _ _ (by rw [hlenN]; show (6 : Nat) ≤ p.length + 8; omega)
        ?_ hpf (by rw [hlenN]; show ¬ p.length + 8 < (8 : Nat); omega)]
      · dsimp only
        rw [hbe, hcore]
        dsimp only
        rw [headLoop_stop _ _ _ _ hstop0]
        simp [spillExit]
      · unfold badHeader
        simp [rsv1, rsv23, getOpCode, f15, f48, f64, hle2, hle10, hpf]
    · -- long frame
      have hL : formatMessage false p opCode p.length false fin mask =
          ((if fin then 128 else 0) ||| opCode) :: (127 ||| 128) ::
            p.length / 2 ^ 56 % 256 :: p.length / 2 ^ 48 % 256 :: p.length / 2 ^ 40 % 256 ::
            p.length / 2 ^ 32 % 256 :: p.length / 2 ^ 24 % 256 :: p.length / 2 ^ 16 % 256 ::
            p.length / 2 ^ 8 % 256 :: p.length % 256 :: (mask ++ maskBytes mask 0 p) := by
        unfold formatMessage be64
        simp [hb1, hb2]
      have hof : getOpCode (((if fin then 128 else 0) ||| opCode) :: (127 ||| 128) ::
          p.length / 2 ^ 56 % 256 :: p.length / 2 ^ 48 % 256 :: p.length / 2 ^ 40 % 256 ::
          p.length / 2 ^ 32 % 256 :: p.length / 2 ^ 24 % 256 :: p.length / 2 ^ 16 % 256 ::
          p.length / 2 ^ 8 % 256 :: p.length % 256 :: (mask ++ maskBytes mask 0 p)) =
          opCode := by
        simp [getOpCode, f15]
      have hff : isFin (((if fin then 128 else 0) ||| opCode) :: (127 ||| 128) ::
          p.length / 2 ^ 56 % 256 :: p.length / 2 ^ 48 % 256 :: p.length / 2 ^ 40 % 256 ::
          p.length / 2 ^ 32 % 256 :: p.length / 2 ^ 24 % 256 :: p.length / 2 ^ 16 % 256 ::
          p.length / 2 ^ 8 % 256 :: p.length % 256 :: (mask ++ maskBytes mask 0 p)) =
          fin := by
        simp only [isFin, List.headI_cons]
        exact ffin
      have hpf : payloadLength (((if fin then 128 else 0) ||| opCode) :: (127 ||| 128) ::
          p.length / 2 ^ 56 % 256 :: p.length / 2 ^ 48 % 256 :: p.length / 2 ^ 40 % 256 ::
          p.length / 2 ^ 32 % 256 :: p.length / 2 ^ 24 % 256 :: p.length / 2 ^ 16 % 256 ::
          p.length / 2 ^ 8 % 256 :: p.length % 256 :: (mask ++ maskBytes mask 0 p)) =
          127 := by
        simp only [payloadLength, List.tail_cons, List.headI_cons]
        decide
      have hbe : be64At (((if fin then 128 else 0) ||| opCode) :: (127 ||| 128) ::
          p.length / 2 ^ 56 % 256 :: p.length / 2 ^ 48 % 256 :: p.length / 2 ^ 40 % 256 ::
          p.length / 2 ^ 32 % 256 :: p.length / 2 ^ 24 % 256 :: p.length / 2 ^ 16 % 256 ::
          p.length / 2 ^ 8 % 256 :: p.length % 256 :: (mask ++ maskBytes mask 0 p)) =
          p.length := by
        simp [be64At, List.getD]
        omega
      have hlenN : (((if fin then 128 else 0) ||| opCode) :: (127 ||| 128) ::
          p.length / 2 ^ 56 % 256 :: p.length / 2 ^ 48 % 256 :: p.length / 2 ^ 40 % 256 ::
          p.length / 2 ^ 32 % 256 :: p.length / 2 ^ 24 % 256 :: p.length / 2 ^ 16 % 256 ::
          p.length / 2 ^ 8 % 256 :: p.length % 256 ::
          (mask ++ maskBytes mask 0 p)).length = p.length + 14 := by
        simp only [List.length_cons, List.length_append, maskBytes_length, hm]
        omega
      have hcore := consumeMessage_roundTrip_core impl (LONG_MESSAGE_HEADER true)
        (((if fin then 128 else 0) ||| opCode) :: (127 ||| 128) ::
          p.length / 2 ^ 56 % 256 :: p.length / 2 ^ 48 % 256 :: p.length / 2 ^ 40 % 256 ::
          p.length / 2 ^ 32 % 256 :: p.length / 2 ^ 24 % 256 :: p.length / 2 ^ 16 % 256 ::
          p.length / 2 ^ 8 % 256 :: p.length % 256 :: (mask ++ maskBytes mask 0 p)) p
        [p.length / 2 ^ 56 % 256, p.length / 2 ^ 48 % 256, p.length / 2 ^ 40 % 256,
          p.length / 2 ^ 32 % 256, p.length / 2 ^ 24 % 256, p.length / 2 ^ 16 % 256,
          p.length / 2 ^ 8 % 256, p.length % 256] mask opCode fin
        ((if fin then 128 else 0) ||| opCode) (127 ||| 128) (by simp)
        (by simp [LONG_MESSAGE_HEADER]) hm hrefuse hof hop hff
        (Nat.mod_eq_of_lt (by simp [LONG_MESSAGE_HEADER]; omega))
      rw [hL, consume_initial]
      rw [headLoop_long _ _ _ _ (by rw [hlenN]; show (6 : Nat) ≤ p.length + 14; omega)
        ?_ (by rw [hpf]; omega) (by rw [hpf]; omega)
        (by rw [hlenN]; show ¬ p.length + 14 < (14 : Nat); omega)]
      · dsimp only
        rw [hbe, hcore]
        dsimp only
        rw [headLoop_stop _ _ _ _ hstop0]
        simp [spillExit]
      · unfold badHeader
        simp [rsv1, rsv23, getOpCode, f15, f48, f64, hle2, hle10, hpf]

/-- Witness for C5 on the spec's own example frame: masked `"Hello"`,
`81 85 37 fa 21 3d 7f 9f 4d 51 58`. -/
theorem formatMessage_roundTrip_witness :
    (([0x37, 0xFA, 0x21, 0x3D] : List Nat).length = 4) ∧
    formatMessage false [0x48, 0x65, 0x6C, 0x6C, 0x6F] 1 5 false true
      [0x37, 0xFA, 0x21, 0x3D] = [0x81, 0x85, 0x37, 0xFA, 0x21, 0x3D, 0x7F, 0x9F, 0x4D,
        0x51, 0x58] ∧
    consume ⟨true, fun _ => false⟩ true
      (formatMessage false [0x48, 0x65, 0x6C, 0x6C, 0x6F] 1 5 false true
        [0x37, 0xFA, 0x21, 0x3D]) initialState =
      (⟨true, [], -1, 1, 0, true, 0, [0, 0, 0, 0]⟩,
        [.fragment [0x48, 0x65, 0x6C, 0x6C, 0x6F] 0 1 true]) :=
  ⟨by decide, by simp +decide [formatMessage, maskBytes, be16, be64],
    formatMessage_roundTrip ⟨true, fun _ => false⟩ [0x48, 0x65, 0x6C, 0x6C, 0x6F] 1 true
      [0x37, 0xFA, 0x21, 0x3D] (Or.inl rfl) (by decide) rfl (by decide)⟩

/-! ### Chunk-insensitivity machinery (C1) -/

theorem drop_append_le (x y : List Nat) (n : Nat) (h : n ≤ x.length) :
    (x ++ y).drop n = x.drop n ++ y := by
  rw [List.drop_append_eq_append_drop]
  have h0 : n - x.length = 0 := by omega
  rw [h0, List.drop_zero]

theorem drop_append_ge (x y : List Nat) (n : Nat) (h : x.length ≤ n) :
    (x ++ y).drop n = y.drop (n - x.length) := by
  rw [List.drop_append_eq_append_drop, List.drop_eq_nil_of_le h, List.nil_append]

theorem take_append_le (x y : List Nat) (n : Nat) (h : n ≤ x.length) :
    (x ++ y).take n = x.take n := by
  rw [List.take_append_eq_append_take]
  have h0 : n - x.length = 0 := by omega
  rw [h0, List.take_zero, List.append_nil]

theorem take_append_ge (x y : List Nat) (n : Nat) (h : x.length ≤ n) :
    (x ++ y).take n = x ++ y.take (n - x.length) := by
  rw [List.take_append_eq_append_take, List.take_of_length_le h]

theorem headI_eq_getD (l : List Nat) : l.headI = l.getD 0 0 := by
  cases l <;> rfl

theorem tail_headI_eq_getD (l : List Nat) : l.tail.headI = l.getD 1 0 := by
  cases l with
  | nil => rfl
  | cons a r => cases r <;> rfl

/-- The header accessors only read bytes inside `l`, so appending more input
does not change them. -/
theorem headers_append (l C : List Nat) (h : 2 ≤ l.length) :
    isFin (l ++ C) = isFin l ∧ getOpCode (l ++ C) = getOpCode l ∧
    payloadLength (l ++ C) = payloadLength l ∧ rsv1 (l ++ C) = rsv1 l ∧
    rsv23 (l ++ C) = rsv23 l := by
  have h0 : (l ++ C).getD 0 0 = l.getD 0 0 := List.getD_append _ _ _ _ (by omega)
  have h1 : (l ++ C).getD 1 0 = l.getD 1 0 := List.getD_append _ _ _ _ (by omega)
  exact ⟨by simp only [isFin, headI_eq_getD, h0],
    by simp only [getOpCode, headI_eq_getD, h0],
    by simp only [payloadLength, tail_headI_eq_getD, h1],
    by simp only [rsv1, headI_eq_getD, h0],
    by simp only [rsv23, headI_eq_getD, h0]⟩

theorem be16At_append (l C : List Nat) (h : 4 ≤ l.length) :
    be16At (l ++ C) = be16At l := by
  have h2 : (l ++ C).getD 2 0 = l.getD 2 0 := List.getD_append _ _ _ _ (by omega)
  have h3 : (l ++ C).getD 3 0 = l.getD 3 0 := List.getD_append _ _ _ _ (by omega)
  simp only [be16At, h2, h3]

theorem be64At_append (l C : List Nat) (h : 10 ≤ l.length) :
    be64At (l ++ C) = be64At l := by
  have h2 : (l ++ C).getD 2 0 = l.getD 2 0 := List.getD_append _ _ _ _ (by omega)
  have h3 : (l ++ C).getD 3 0 = l.getD 3 0 := List.getD_append _ _ _ _ (by omega)
  have h4 : (l ++ C).getD 4 0 = l.getD 4 0 := List.getD_append _ _ _ _ (by omega)
  have h5 : (l ++ C).getD 5 0 = l.getD 5 0 := List.getD_append _ _ _ _ (by omega)
  have h6 : (l ++ C).getD 6 0 = l.getD 6 0 := List.getD_append _ _ _ _ (by omega)
  have h7 : (l ++ C).getD 7 0 = l.getD 7 0 := List.getD_append _ _ _ _ (by omega)
  have h8 : (l ++ C).getD 8 0 = l.getD 8 0 := List.getD_append _ _ _ _ (by omega)
  have h9 : (l ++ C).getD 9 0 = l.getD 9 0 := List.getD_append _ _ _ _ (by omega)
  simp only [be64At, h2, h3, h4, h5, h6, h7, h8, h9]

theorem badHeader_append (impl : Impl) (l C : List Nat) (h : 2 ≤ l.length) :
    badHeader impl (l ++ C) ↔ badHeader impl l := by
  obtain ⟨e1, e2, e3, e4, e5⟩ := headers_append l C h
  unfold badHeader
  rw [e1, e2, e3, e4, e5]

/-! #### Mask rotation algebra -/

theorem list_len4 (m : List Nat) (hm : m.length = 4) :
    ∃ a b c d, m = [a, b, c, d] := by
  match m, hm with
  | [a, b, c, d], _ => exact ⟨a, b, c, d, rfl⟩

theorem rot_getD (a b c d : Nat) (n j : Nat) :
    (rotateMask (4 - n % 4) [a, b, c, d]).getD (j % 4) 0 =
      [a, b, c, d].getD ((j + n) % 4) 0 := by
  have hn4 : n % 4 = 0 ∨ (n % 4 = 1 ∨ (n % 4 = 2 ∨ n % 4 = 3)) := by omega
  have hj4 : j % 4 = 0 ∨ (j % 4 = 1 ∨ (j % 4 = 2 ∨ j % 4 = 3)) := by omega
  rw [Nat.add_mod]
  rcases hn4 with h1 | h1 | h1 | h1 <;> rcases hj4 with h2 | h2 | h2 | h2 <;>
    rw [h1, h2] <;> simp [rotateMask]

theorem maskBytes_rotate_aux (m : List Nat) (hm : m.length = 4) (n : Nat) :
    ∀ (y : List Nat) (j : Nat),
      maskBytes (rotateMask (4 - n % 4) m) j y = maskBytes m (j + n) y := by
  obtain ⟨a, b, c, d, rfl⟩ := list_len4 m hm
  intro y
  induction y with
  | nil => intro j; rfl
  | cons v r ih =>
    intro j
    simp only [maskBytes, rot_getD, ih (j + 1)]
    have : j + 1 + n = j + n + 1 := by omega
    rw [this]

/-- Consuming `n` masked bytes and then switching to the rotated mask is the
same as continuing with the original mask at offset `n`: the content of
`rotateMask(4 - n % 4, mask)` in `consumeMessage`/`consumeContinuation`. -/
theorem maskBytes_rotate (m : List Nat) (hm : m.length = 4) (n : Nat) (y : List Nat) :
    maskBytes (rotateMask (4 - n % 4) m) 0 y = maskBytes m n y := by
  have h := maskBytes_rotate_aux m hm n y 0
  rwa [Nat.zero_add] at h

theorem maskBytes_append (m : List Nat) (off : Nat) (x y : List Nat) :
    maskBytes m off (x ++ y) = maskBytes m off x ++ maskBytes m (off + x.length) y := by
  induction x generalizing off with
  | nil => simp [maskBytes]
  | cons a x ih =>
    simp only [List.cons_append, maskBytes, List.length_cons, List.append_eq]
    rw [ih (off + 1)]
    have h1 : off + 1 + x.length = off + (x.length + 1) := by omega
    rw [h1]

theorem rotateMask_congr (x y : Nat) (m : List Nat) (h : x % 4 = y % 4) :
    rotateMask (4 - x % 4) m = rotateMask (4 - y % 4) m := by
  rw [h]

theorem rotateMask_comp (m : List Nat) (hm : m.length = 4) (x y : Nat) :
    rotateMask (4 - y % 4) (rotateMask (4 - x % 4) m) =
      rotateMask (4 - (x + y) % 4) m := by
  obtain ⟨a, b, c, d, rfl⟩ := list_len4 m hm
  have hx4 : x % 4 = 0 ∨ (x % 4 = 1 ∨ (x % 4 = 2 ∨ x % 4 = 3)) := by omega
  have hy4 : y % 4 = 0 ∨ (y % 4 = 1 ∨ (y % 4 = 2 ∨ y % 4 = 3)) := by omega
  rw [Nat.add_mod]
  rcases hx4 with h1 | h1 | h1 | h1 <;> rcases hy4 with h2 | h2 | h2 | h2 <;>
    rw [h1, h2] <;> simp [rotateMask]

theorem rotateMask_length (off : Nat) (m : List Nat) :
    (rotateMask off m).length = 4 := by
  simp [rotateMask]

/-! #### Canonical event streams -/

/-- `true` iff the event list contains a `forceClose` (a protocol error or a
refused payload). -/
def hasFC : List Event → Bool
  | [] => false
  | .forceClose _ :: _ => true
  | .fragment _ _ _ _ :: rest => hasFC rest

theorem hasFC_append (a b : List Event) : hasFC (a ++ b) = (hasFC a || hasFC b) := by
  induction a with
  | nil => rfl
  | cons e rest ih => cases e <;> simp [hasFC, ih]

/-- Merge a partial fragment into the canonical form of the following events:
its bytes are prepended onto the next canonical fragment. -/
def mergeInto (p : List Nat) (rem op : Nat) (fin : Bool) : List Event → List Event
  | .fragment q rem' op' fin' :: out => .fragment (p ++ q) rem' op' fin' :: out
  | out => .fragment p rem op fin :: out

/-- Canonical form of an event stream: consecutive `handleFragment` deliveries
belonging to the same frame (all but the last have `remaining ≠ 0`) are fused
into a single fragment with the concatenated payload, so two streams are
chunk-equivalent iff their canonical forms are equal. -/
def canon : List Event → List Event
  | [] => []
  | .forceClose r :: rest => .forceClose r :: canon rest
  | .fragment p rem op fin :: rest =>
    if rem = 0 then .fragment p 0 op fin :: canon rest
    else mergeInto p rem op fin (canon rest)

theorem canon_append_congr (E X Y : List Event) (h : canon X = canon Y) :
    canon (E ++ X) = canon (E ++ Y) := by
  induction E with
  | nil => exact h
  | cons e rest ih =>
    cases e with
    | forceClose r => simp only [List.cons_append, canon, List.append_eq, ih]
    | fragment p rem op fin => simp only [List.cons_append, canon, List.append_eq, ih]

theorem and15_small : ∀ n, n < 16 → n &&& 15 = n := by decide

theorem headLoop_nil (impl : Impl) (isServer : Bool) (st : ParserState) :
    headLoop impl isServer [] st = (st, []) := by
  rw [headLoop_stop impl isServer [] st
    (by have := SHORT_pos isServer; simp only [List.length_nil]; omega)]
  simp [spillExit]

theorem spillExit_small (l : List Nat) (st : ParserState) (h16 : l.length < 16)
    (hne : l ≠ []) : spillExit l st = ({ st with spill := l }, []) := by
  unfold spillExit
  rw [if_pos (by simpa using hne), and15_small l.length h16, List.take_length]

/-- The parser-state fields that drive the header loop. -/
def SEqCore (st st' : ParserState) : Prop :=
  st.wantsHead = st'.wantsHead ∧ st.opStack = st'.opStack ∧
  st.opCode0 = st'.opCode0 ∧ st.opCode1 = st'.opCode1 ∧ st.lastFin = st'.lastFin

/-- Observational equivalence of parser states: all live fields agree, while
`remainingBytes` and (for a server) the stored mask may differ when
`wantsHead` is set — the source only reads them in `consumeContinuation`,
and only unmasks when `isServer`. -/
def StateEq (isServer : Bool) (st st' : ParserState) : Prop :=
  SEqCore st st' ∧ st.spill = st'.spill ∧
  (st.wantsHead = false →
    st.remainingBytes = st'.remainingBytes ∧ (isServer = true → st.mask = st'.mask))

theorem SEqCore_refl (st : ParserState) : SEqCore st st := ⟨rfl, rfl, rfl, rfl, rfl⟩

theorem StateEq_refl (isServer : Bool) (st : ParserState) : StateEq isServer st st :=
  ⟨SEqCore_refl st, rfl, fun _ => ⟨rfl, fun _ => rfl⟩⟩

theorem StateEq_symm {isServer : Bool} {a b : ParserState} (h : StateEq isServer a b) :
    StateEq isServer b a := by
  obtain ⟨⟨w1, o1, x1, y1, f1⟩, s1, m1⟩ := h
  refine ⟨⟨w1.symm, o1.symm, x1.symm, y1.symm, f1.symm⟩, s1.symm, fun hw => ?_⟩
  obtain ⟨r1, k1⟩ := m1 (by rw [w1]; exact hw)
  exact ⟨r1.symm, fun hs => (k1 hs).symm⟩

theorem StateEq_trans {isServer : Bool} {a b c : ParserState} (h1 : StateEq isServer a b)
    (h2 : StateEq isServer b c) : StateEq isServer a c := by
  obtain ⟨⟨w1, o1, x1, y1, f1⟩, s1, m1⟩ := h1
  obtain ⟨⟨w2, o2, x2, y2, f2⟩, s2, m2⟩ := h2
  refine ⟨⟨w1.trans w2, o1.trans o2, x1.trans x2, y1.trans y2, f1.trans f2⟩,
    s1.trans s2, fun hw => ?_⟩
  obtain ⟨r1, k1⟩ := m1 hw
  obtain ⟨r2, k2⟩ := m2 (by rw [← w1]; exact hw)
  exact ⟨r1.trans r2, fun hs => (k1 hs).trans (k2 hs)⟩

/-- Explicit form of `consumeMessage`: the same computation written with
flat records, so that the state dependence is visible field by field. -/
theorem consumeMessage_eq (impl : Impl) (isServer : Bool) (H P : Nat) (l : List Nat)
    (st : ParserState) :
    consumeMessage impl isServer H P l st =
      if (getOpCode l ≠ 0 ∧ (st.opStack = 1 ∨ (st.lastFin = false ∧ getOpCode l < 2))) ∨
          (getOpCode l = 0 ∧ st.opStack = -1) then
        ⟨true, l, st, [.forceClose ERR_PROTOCOL]⟩
      else
        let ns : Int := if getOpCode l ≠ 0 then st.opStack + 1 else st.opStack
        let oc0 := if getOpCode l ≠ 0 ∧ st.opStack + 1 = 0 then getOpCode l else st.opCode0
        let oc1 := if getOpCode l ≠ 0 ∧ st.opStack + 1 = 1 then getOpCode l else st.opCode1
        let top := if ns = 1 then oc1 else oc0
        if impl.refuse P then
          ⟨true, l, ⟨st.wantsHead, st.spill, ns, oc0, oc1, isFin l, st.remainingBytes,
            st.mask⟩, [.forceClose ERR_TOO_BIG_MESSAGE]⟩
        else if (P + H) % 2 ^ 64 ≤ l.length then
          ⟨false, l.drop (P + H),
            ⟨st.wantsHead, [], if isFin l then ns - 1 else ns, oc0, oc1, isFin l,
              st.remainingBytes, st.mask⟩,
            [.fragment (if isServer then maskBytes ((l.drop (H - 4)).take 4) 0
                ((l.drop H).take P) else (l.drop H).take P) 0 top (isFin l)]⟩
        else
          ⟨true, [],
            ⟨false, [], ns, oc0, oc1, isFin l, (P + H - l.length) % 2 ^ 32,
              if isServer then rotateMask (4 - (l.length - H) % 4) ((l.drop (H - 4)).take 4)
                else st.mask⟩,
            [.fragment (if isServer then maskBytes ((l.drop (H - 4)).take 4) 0 (l.drop H)
              else l.drop H) ((P + H - l.length) % 2 ^ 32) top (isFin l)]⟩ := by
  by_cases herr : (getOpCode l ≠ 0 ∧ (st.opStack = 1 ∨ (st.lastFin = false ∧
      getOpCode l < 2))) ∨ (getOpCode l = 0 ∧ st.opStack = -1)
  · unfold consumeMessage
    rw [if_pos herr, if_pos herr]
  · unfold consumeMessage
    rw [if_neg herr, if_neg herr]
    dsimp only
    by_cases hz : getOpCode l ≠ 0
    · rw [if_pos hz]
      by_cases hrf : impl.refuse P = true
      · rw [if_pos hrf, if_pos hrf]
        simp [hz]
      · rw [if_neg hrf, if_neg hrf]
        by_cases hle : (P + H) % 2 ^ 64 ≤ l.length
        · rw [if_pos hle, if_pos hle]
          simp [hz, ParserState.topOp]
        · rw [if_neg hle, if_neg hle]
          simp [hz, ParserState.topOp]
    · have hz0 : getOpCode l = 0 := by omega
      rw [if_neg hz]
      by_cases hrf : impl.refuse P = true
      · rw [if_pos hrf, if_pos hrf]
        simp [hz0]
      · rw [if_neg hrf, if_neg hrf]
        by_cases hle : (P + H) % 2 ^ 64 ≤ l.length
        · rw [if_pos hle, if_pos hle]
          simp [hz0, ParserState.topOp]
        · rw [if_neg hle, if_neg hle]
          simp [hz0, ParserState.topOp]

/-- `consumeMessage` depends on the state only through the fields of
`SEqCore` (plus dead fields that are passed through). -/
theorem consumeMessage_congr (impl : Impl) (isServer : Bool) (H P : Nat) (l : List Nat)
    (st st' : ParserState) (hc : SEqCore st st') (hw : st.wantsHead = true) :
    (consumeMessage impl isServer H P l st).flag =
      (consumeMessage impl isServer H P l st').flag ∧
    (consumeMessage impl isServer H P l st).rest =
      (consumeMessage impl isServer H P l st').rest ∧
    (consumeMessage impl isServer H P l st).events =
      (consumeMessage impl isServer H P l st').events ∧
    (hasFC (consumeMessage impl isServer H P l st).events = false →
      StateEq isServer (consumeMessage impl isServer H P l st).state
        (consumeMessage impl isServer H P l st').state ∧
      (consumeMessage impl isServer H P l st).state.spill = []) := by
  obtain ⟨hw', ho, h0, h1, hl⟩ := hc
  rw [consumeMessage_eq impl isServer H P l st, consumeMessage_eq impl isServer H P l st',
    ← hw', ← ho, ← h0, ← h1, ← hl]
  dsimp only
  split
  · exact ⟨rfl, rfl, rfl, fun hfc => by simp [hasFC] at hfc⟩
  · split
    · exact ⟨rfl, rfl, rfl, fun hfc => by simp [hasFC] at hfc⟩
    · split
      · refine ⟨rfl, rfl, rfl, fun _ =>
          ⟨⟨⟨rfl, rfl, rfl, rfl, rfl⟩, rfl, fun hwf => ?_⟩, rfl⟩⟩
        have hwf' : st.wantsHead = false := hwf
        rw [hw] at hwf'
        simp at hwf'
      · refine ⟨rfl, rfl, rfl, fun _ =>
          ⟨⟨⟨rfl, rfl, rfl, rfl, rfl⟩, rfl, fun _ => ⟨rfl, fun hs => ?_⟩⟩, rfl⟩⟩
        simp [hs]


/-- `headLoop` depends on the state only through the `SEqCore` fields; the
spill is overwritten on every exit (except the degenerate empty run). -/
theorem headLoop_congr (impl : Impl) (isServer : Bool) (hb : RefuseBounded impl) :
    ∀ n (l : List Nat) (st st' : ParserState), l.length ≤ n → SEqCore st st' →
      st.wantsHead = true → (l = [] → st.spill = st'.spill) →
      hasFC (headLoop impl isServer l st).2 = false →
      (headLoop impl isServer l st).2 = (headLoop impl isServer l st').2 ∧
      StateEq isServer (headLoop impl isServer l st).1 (headLoop impl isServer l st').1 := by
  intro n
  induction n with
  | zero =>
    intro l st st' hl hc hw hsp hfc
    cases l with
    | nil =>
      rw [headLoop_nil, headLoop_nil]
      exact ⟨rfl, hc, hsp rfl, fun hwf => by rw [hw] at hwf; simp at hwf⟩
    | cons a t => exact absurd hl (by simp)
  | succ n ih =>
    intro l st st' hl hc hw hsp hfc
    by_cases hnil : l = []
    · subst hnil
      rw [headLoop_nil, headLoop_nil]
      exact ⟨rfl, hc, hsp rfl, fun hwf => by rw [hw] at hwf; simp at hwf⟩
    · have hlpos : 0 < l.length := List.length_pos.mpr hnil
      by_cases h1 : SHORT_MESSAGE_HEADER isServer ≤ l.length
      · by_cases hbad : badHeader impl l
        · rw [headLoop_bad _ _ _ _ h1 hbad] at hfc
          simp [hasFC] at hfc
        · by_cases hpl : payloadLength l < 126
          · rw [headLoop_short _ _ _ _ h1 hbad hpl] at hfc
            rw [headLoop_short _ _ _ _ h1 hbad hpl, headLoop_short _ _ _ _ h1 hbad hpl]
            obtain ⟨cf, cr, ce, cst⟩ := consumeMessage_congr impl isServer
              (SHORT_MESSAGE_HEADER isServer) (payloadLength l) l st st' hc hw
            dsimp only at hfc ⊢
            by_cases hf : (consumeMessage impl isServer (SHORT_MESSAGE_HEADER isServer)
                (payloadLength l) l st).flag = true
            · rw [if_pos hf] at hfc ⊢
              rw [if_pos (by rw [← cf]; exact hf)]
              obtain ⟨hse, hspl⟩ := cst hfc
              exact ⟨ce, hse⟩
            · rw [if_neg hf] at hfc ⊢
              rw [if_neg (by rw [← cf]; exact hf)]
              rw [hasFC_append, Bool.or_eq_false_iff] at hfc
              obtain ⟨hfc1, hfc2⟩ := hfc
              obtain ⟨hse, hspl⟩ := cst hfc1
              have hwr : (consumeMessage impl isServer (SHORT_MESSAGE_HEADER isServer)
                  (payloadLength l) l st).state.wantsHead = true :=
                (consumeMessage_inv impl isServer _ (payloadLength l) l st hb hw
                  (headerLe14 isServer).1).2 (by revert hf; simp)
              have hrest := (consumeMessage_progress impl isServer _ (payloadLength l) l st
                (SHORT_pos isServer) (lt_of_lt_of_le (SHORT_pos isServer) h1)).resolve_left hf
              rw [← cr]
              obtain ⟨ihe, ihs⟩ := ih _ _ _ (by omega) hse.1 hwr (fun _ => hse.2.1) hfc2
              exact ⟨by rw [ce, ihe], ihs⟩
          · by_cases hpl2 : payloadLength l = 126
            · by_cases h2 : l.length < MEDIUM_MESSAGE_HEADER isServer
              · rw [headLoop_medium_spill _ _ _ _ h1 hbad hpl2 h2,
                  headLoop_medium_spill _ _ _ _ h1 hbad hpl2 h2,
                  spillExit_small l st (by have := (headerLe14 isServer).2.1; omega) hnil,
                  spillExit_small l st' (by have := (headerLe14 isServer).2.1; omega) hnil]
                exact ⟨rfl, hc, rfl, fun hwf => by
                  have hwf' : st.wantsHead = false := hwf
                  rw [hw] at hwf'; simp at hwf'⟩
              · rw [headLoop_medium _ _ _ _ h1 hbad hpl2 h2] at hfc
                rw [headLoop_medium _ _ _ _ h1 hbad hpl2 h2,
                  headLoop_medium _ _ _ _ h1 hbad hpl2 h2]
                obtain ⟨cf, cr, ce, cst⟩ := consumeMessage_congr impl isServer
                  (MEDIUM_MESSAGE_HEADER isServer) (be16At l) l st st' hc hw
                dsimp only at hfc ⊢
                by_cases hf : (consumeMessage impl isServer (MEDIUM_MESSAGE_HEADER isServer)
                    (be16At l) l st).flag = true
                · rw [if_pos hf] at hfc ⊢
                  rw [if_pos (by rw [← cf]; exact hf)]
                  obtain ⟨hse, hspl⟩ := cst hfc
                  exact ⟨ce, hse⟩
                · rw [if_neg hf] at hfc ⊢
                  rw [if_neg (by rw [← cf]; exact hf)]
                  rw [hasFC_append, Bool.or_eq_false_iff] at hfc
                  obtain ⟨hfc1, hfc2⟩ := hfc
                  obtain ⟨hse, hspl⟩ := cst hfc1
                  have hwr : (consumeMessage impl isServer (MEDIUM_MESSAGE_HEADER isServer)
                      (be16At l) l st).state.wantsHead = true :=
                    (consumeMessage_inv impl isServer _ (be16At l) l st hb hw
                      (headerLe14 isServer).2.1).2 (by revert hf; simp)
                  have hrest := (consumeMessage_progress impl isServer _ (be16At l) l st
                    (MEDIUM_pos isServer)
                    (lt_of_lt_of_le (SHORT_pos isServer) h1)).resolve_left hf
                  rw [← cr]
                  obtain ⟨ihe, ihs⟩ := ih _ _ _ (by omega) hse.1 hwr (fun _ => hse.2.1) hfc2
                  exact ⟨by rw [ce, ihe], ihs⟩
            · by_cases h2 : l.length < LONG_MESSAGE_HEADER isServer
              · rw [headLoop_long_spill _ _ _ _ h1 hbad hpl hpl2 h2,
                  headLoop_long_spill _ _ _ _ h1 hbad hpl hpl2 h2,
                  spillExit_small l st (by have := (headerLe14 isServer).2.2; omega) hnil,
                  spillExit_small l st' (by have := (headerLe14 isServer).2.2; omega) hnil]
                exact ⟨rfl, hc, rfl, fun hwf => by
                  have hwf' : st.wantsHead = false := hwf
                  rw [hw] at hwf'; simp at hwf'⟩
              · rw [headLoop_long _ _ _ _ h1 hbad hpl hpl2 h2] at hfc
                rw [headLoop_long _ _ _ _ h1 hbad hpl hpl2 h2,
                  headLoop_long _ _ _ _ h1 hbad hpl hpl2 h2]
                obtain ⟨cf, cr, ce, cst⟩ := consumeMessage_congr impl isServer
                  (LONG_MESSAGE_HEADER isServer) (be64At l) l st st' hc hw
                dsimp only at hfc ⊢
                by_cases hf : (consumeMessage impl isServer (LONG_MESSAGE_HEADER isServer)
                    (be64At l) l st).flag = true
                · rw [if_pos hf] at hfc ⊢
                  rw [if_pos (by rw [← cf]; exact hf)]
                  obtain ⟨hse, hspl⟩ := cst hfc
                  exact ⟨ce, hse⟩
                · rw [if_neg hf] at hfc ⊢
                  rw [if_neg (by rw [← cf]; exact hf)]
                  rw [hasFC_append, Bool.or_eq_false_iff] at hfc
                  obtain ⟨hfc1, hfc2⟩ := hfc
                  obtain ⟨hse, hspl⟩ := cst hfc1
                  have hwr : (consumeMessage impl isServer (LONG_MESSAGE_HEADER isServer)
                      (be64At l) l st).state.wantsHead = true :=
                    (consumeMessage_inv impl isServer _ (be64At l) l st hb hw
                      (headerLe14 isServer).2.2).2 (by revert hf; simp)
                  have hrest := (consumeMessage_progress impl isServer _ (be64At l) l st
                    (LONG_pos isServer)
                    (lt_of_lt_of_le (SHORT_pos isServer) h1)).resolve_left hf
                  rw [← cr]
                  obtain ⟨ihe, ihs⟩ := ih _ _ _ (by omega) hse.1 hwr (fun _ => hse.2.1) hfc2
                  exact ⟨by rw [ce, ihe], ihs⟩
      · rw [headLoop_stop _ _ _ _ h1, headLoop_stop _ _ _ _ h1,
          spillExit_small l st (by have := (headerLe14 isServer).1; omega) hnil,
          spillExit_small l st' (by have := (headerLe14 isServer).1; omega) hnil]
        exact ⟨rfl, hc, rfl, fun hwf => by
          have hwf' : st.wantsHead = false := hwf
          rw [hw] at hwf'; simp at hwf'⟩


/-- Structural sanity of reachable states: while a frame is in progress the
spill is empty and (for a server) the stored mask has its 4 bytes. -/
def GoodSt (isServer : Bool) (st : ParserState) : Prop :=
  st.wantsHead = false → st.spill = [] ∧ (isServer = true → st.mask.length = 4)

theorem consumeMessage_good (impl : Impl) (isServer : Bool) (H P : Nat) (l : List Nat)
    (st : ParserState) (hw : st.wantsHead = true) :
    GoodSt isServer (consumeMessage impl isServer H P l st).state := by
  rw [consumeMessage_eq]
  split
  · exact fun hwf => by rw [hw] at hwf; simp at hwf
  · dsimp only
    split
    · exact fun hwf => by
        have hwf' : st.wantsHead = false := hwf
        rw [hw] at hwf'; simp at hwf'
    · split
      · exact fun hwf => by
          have hwf' : st.wantsHead = false := hwf
          rw [hw] at hwf'; simp at hwf'
      · refine fun _ => ⟨rfl, fun hs => ?_⟩
        simp [hs, rotateMask_length]

theorem spillExit_good (isServer : Bool) (l : List Nat) (st : ParserState)
    (hw : st.wantsHead = true) : GoodSt isServer (spillExit l st).1 := by
  unfold spillExit
  split <;> exact fun hwf => by
    have hwf' : st.wantsHead = false := hwf
    rw [hw] at hwf'; simp at hwf'

theorem headLoop_good (impl : Impl) (isServer : Bool) (hb : RefuseBounded impl) :
    ∀ n (l : List Nat) (st : ParserState), l.length ≤ n → st.wantsHead = true →
      GoodSt isServer (headLoop impl isServer l st).1 := by
  intro n
  induction n with
  | zero =>
    intro l st hl hw
    have h1 : ¬ SHORT_MESSAGE_HEADER isServer ≤ l.length := by
      have := SHORT_pos isServer; omega
    rw [headLoop_stop _ _ _ _ h1]
    exact spillExit_good isServer l st hw
  | succ n ih =>
    intro l st hl hw
    by_cases h1 : SHORT_MESSAGE_HEADER isServer ≤ l.length
    · by_cases hbad : badHeader impl l
      · rw [headLoop_bad _ _ _ _ h1 hbad]
        exact fun hwf => by rw [hw] at hwf; simp at hwf
      · by_cases hpl : payloadLength l < 126
        · rw [headLoop_short _ _ _ _ h1 hbad hpl]
          dsimp only
          by_cases hf : (consumeMessage impl isServer (SHORT_MESSAGE_HEADER isServer)
              (payloadLength l) l st).flag = true
          · rw [if_pos hf]
            exact consumeMessage_good impl isServer _ _ l st hw
          · rw [if_neg hf]
            have hwr := (consumeMessage_inv impl isServer _ (payloadLength l) l st hb hw
              (headerLe14 isServer).1).2 (by revert hf; simp)
            have hrest := (consumeMessage_progress impl isServer _ (payloadLength l) l st
              (SHORT_pos isServer) (lt_of_lt_of_le (SHORT_pos isServer) h1)).resolve_left hf
            exact ih _ _ (by omega) hwr
        · by_cases hpl2 : payloadLength l = 126
          · by_cases h2 : l.length < MEDIUM_MESSAGE_HEADER isServer
            · rw [headLoop_medium_spill _ _ _ _ h1 hbad hpl2 h2]
              exact spillExit_good isServer l st hw
            · rw [headLoop_medium _ _ _ _ h1 hbad hpl2 h2]
              dsimp only
              by_cases hf : (consumeMessage impl isServer (MEDIUM_MESSAGE_HEADER isServer)
                  (be16At l) l st).flag = true
              · rw [if_pos hf]
                exact consumeMessage_good impl isServer _ _ l st hw
              · rw [if_neg hf]
                have hwr := (consumeMessage_inv impl isServer _ (be16At l) l st hb hw
                  (headerLe14 isServer).2.1).2 (by revert hf; simp)
                have hrest := (consumeMessage_progress impl isServer _ (be16At l) l st
                  (MEDIUM_pos isServer)
                  (lt_of_lt_of_le (SHORT_pos isServer) h1)).resolve_left hf
                exact ih _ _ (by omega) hwr
          · by_cases h2 : l.length < LONG_MESSAGE_HEADER isServer
            · rw [headLoop_long_spill _ _ _ _ h1 hbad hpl hpl2 h2]
              exact spillExit_good isServer l st hw
            · rw [headLoop_long _ _ _ _ h1 hbad hpl hpl2 h2]
              dsimp only
              by_cases hf : (consumeMessage impl isServer (LONG_MESSAGE_HEADER isServer)
                  (be64At l) l st).flag = true
              · rw [if_pos hf]
                exact consumeMessage_good impl isServer _ _ l st hw
              · rw [if_neg hf]
                have hwr := (consumeMessage_inv impl isServer _ (be64At l) l st hb hw
                  (headerLe14 isServer).2.2).2 (by revert hf; simp)
                have hrest := (consumeMessage_progress impl isServer _ (be64At l) l st
                  (LONG_pos isServer)
                  (lt_of_lt_of_le (SHORT_pos isServer) h1)).resolve_left hf
                exact ih _ _ (by omega) hwr
    · rw [headLoop_stop _ _ _ _ h1]
      exact spillExit_good isServer l st hw

theorem consume_wantsHead_eq (impl : Impl) (isServer : Bool) (input : List Nat)
    (st : ParserState) (hw : st.wantsHead = true) :
    consume impl isServer input st = headLoop impl isServer (st.spill ++ input) st := by
  unfold consume
  rw [if_pos hw]

theorem consume_continue_eq (impl : Impl) (isServer : Bool) (input : List Nat)
    (st : ParserState) (hw : ¬ st.wantsHead = true) :
    consume impl isServer input st =
      (let r := consumeContinuation isServer (st.spill ++ input) st
      if r.flag then
        ((headLoop impl isServer r.rest r.state).1,
          r.events ++ (headLoop impl isServer r.rest r.state).2)
      else (r.state, r.events)) := by
  unfold consume
  rw [if_neg hw]

theorem consumeContinuation_complete (isServer : Bool) (l : List Nat) (st : ParserState)
    (h : st.remainingBytes ≤ l.length) :
    consumeContinuation isServer l st =
      ⟨true, l.drop st.remainingBytes,
        { st with
          opStack := if st.lastFin then st.opStack - 1 else st.opStack
          wantsHead := true },
        [.fragment (if isServer then maskBytes st.mask 0 (l.take st.remainingBytes)
          else l.take st.remainingBytes) 0 st.topOp st.lastFin]⟩ := by
  unfold consumeContinuation
  rw [if_pos h]

theorem consumeContinuation_incomplete (isServer : Bool) (l : List Nat) (st : ParserState)
    (h : ¬ st.remainingBytes ≤ l.length) :
    consumeContinuation isServer l st =
      ⟨false, [],
        { st with
          remainingBytes := st.remainingBytes - l.length
          mask := if isServer ∧ l.length % 4 ≠ 0 then rotateMask (4 - l.length % 4) st.mask
            else st.mask },
        [.fragment (if isServer then maskBytes st.mask 0 l else l)
          (st.remainingBytes - l.length) st.topOp st.lastFin]⟩ := by
  unfold consumeContinuation
  rw [if_neg h]

theorem consume_good (impl : Impl) (isServer : Bool) (input : List Nat) (st : ParserState)
    (hb : RefuseBounded impl) (hg : GoodSt isServer st) :
    GoodSt isServer (consume impl isServer input st).1 := by
  by_cases hw : st.wantsHead = true
  · rw [consume_wantsHead_eq impl isServer input st hw]
    exact headLoop_good impl isServer hb _ _ st le_rfl hw
  · rw [consume_continue_eq impl isServer input st hw]
    dsimp only
    by_cases hcc : st.remainingBytes ≤ (st.spill ++ input).length
    · rw [consumeContinuation_complete isServer _ st hcc]
      dsimp only
      rw [if_pos rfl]
      exact headLoop_good impl isServer hb _ _ _ le_rfl rfl
    · rw [consumeContinuation_incomplete isServer _ st hcc]
      dsimp only
      rw [if_neg (by simp)]
      intro _
      obtain ⟨hsp, hmk⟩ := hg (by revert hw; cases st.wantsHead <;> simp)
      refine ⟨hsp, fun hs => ?_⟩
      by_cases hrot : isServer ∧ (st.spill ++ input).length % 4 ≠ 0
      · rw [if_pos hrot]
        exact rotateMask_length _ _
      · rw [if_neg hrot]
        exact hmk hs


/-- A frame whose bytes all lie inside `l` is parsed identically whether or
not further input `C` is already appended. -/
theorem consumeMessage_append_complete (impl : Impl) (isServer : Bool)
    (hb : RefuseBounded impl) (H P : Nat) (l C : List Nat) (st : ParserState)
    (hH : H ≤ l.length) (h2 : 2 ≤ l.length) (hH4 : isServer = true → 4 ≤ H)
    (hH14 : H ≤ 14)
    (herrl : ¬ ((getOpCode l ≠ 0 ∧ (st.opStack = 1 ∨ (st.lastFin = false ∧
      getOpCode l < 2))) ∨ (getOpCode l = 0 ∧ st.opStack = -1)))
    (hrf : impl.refuse P = false) (hle : P + H ≤ l.length) :
    (consumeMessage impl isServer H P l st).flag = false ∧
    (consumeMessage impl isServer H P (l ++ C) st).flag = false ∧
    (consumeMessage impl isServer H P (l ++ C) st).rest =
      (consumeMessage impl isServer H P l st).rest ++ C ∧
    (consumeMessage impl isServer H P (l ++ C) st).state =
      (consumeMessage impl isServer H P l st).state ∧
    (consumeMessage impl isServer H P (l ++ C) st).events =
      (consumeMessage impl isServer H P l st).events ∧
    (consumeMessage impl isServer H P l st).state.spill = [] := by
  obtain ⟨e1, e2, e3, e4, e5⟩ := headers_append l C h2
  have hmod : (P + H) % 2 ^ 64 = P + H :=
    Nat.mod_eq_of_lt (by have := hb P hrf; omega)
  have hr := consumeMessage_eq impl isServer H P l st
  rw [if_neg herrl] at hr
  dsimp only at hr
  rw [if_neg (by simp [hrf]), if_pos (by rw [hmod]; exact hle)] at hr
  have hrc := consumeMessage_eq impl isServer H P (l ++ C) st
  rw [e1, e2] at hrc
  rw [if_neg herrl] at hrc
  dsimp only at hrc
  rw [if_neg (by simp [hrf]),
    if_pos (by rw [hmod]; simp only [List.length_append]; omega)] at hrc
  have hdPH : (l ++ C).drop (P + H) = l.drop (P + H) ++ C :=
    drop_append_le l C (P + H) hle
  have hdH : (l ++ C).drop H = l.drop H ++ C := drop_append_le l C H hH
  have htP : (l.drop H ++ C).take P = (l.drop H).take P :=
    take_append_le _ C P (by simp only [List.length_drop]; omega)
  rw [hr, hrc]
  refine ⟨rfl, rfl, hdPH, rfl, ?_, rfl⟩
  by_cases hs : isServer = true
  · have hd4 : (l ++ C).drop (H - 4) = l.drop (H - 4) ++ C :=
      drop_append_le l C (H - 4) (by omega)
    have ht4 : (l.drop (H - 4) ++ C).take 4 = (l.drop (H - 4)).take 4 :=
      take_append_le _ C 4 (by simp only [List.length_drop]; have := hH4 hs; omega)
    simp only [hs, if_true, hd4, ht4, hdH, htP]
  · simp only [Bool.not_eq_true] at hs
    simp only [hs, Bool.false_eq_true, if_false, hdH, htP]


/-- A frame that straddles the boundary between `l` and `C`: parsing `l ++ C`
in one go gives the same canonical events and an equivalent state as parsing
`l` (which banks a partial frame) and then feeding `C`. -/
theorem consumeMessage_append_straddle (impl : Impl) (isServer : Bool)
    (hb : RefuseBounded impl) (H P : Nat) (l C : List Nat) (st : ParserState)
    (hH : H ≤ l.length) (h2 : 2 ≤ l.length) (hH4 : isServer = true → 4 ≤ H)
    (hH14 : H ≤ 14) (hw : st.wantsHead = true)
    (herrl : ¬ ((getOpCode l ≠ 0 ∧ (st.opStack = 1 ∨ (st.lastFin = false ∧
      getOpCode l < 2))) ∨ (getOpCode l = 0 ∧ st.opStack = -1)))
    (hrf : impl.refuse P = false) (hgt : l.length < P + H)
    (hstep : headLoop impl isServer (l ++ C) st =
      (let rc := consumeMessage impl isServer H P (l ++ C) st
      if rc.flag then (rc.state, rc.events)
      else ((headLoop impl isServer rc.rest rc.state).1,
        rc.events ++ (headLoop impl isServer rc.rest rc.state).2)))
    (hfc : hasFC (headLoop impl isServer (l ++ C) st).2 = false) :
    (consumeMessage impl isServer H P l st).flag = true ∧
    StateEq isServer (headLoop impl isServer (l ++ C) st).1
      (consume impl isServer C (consumeMessage impl isServer H P l st).state).1 ∧
    canon (headLoop impl isServer (l ++ C) st).2 =
      canon ((consumeMessage impl isServer H P l st).events ++
        (consume impl isServer C (consumeMessage impl isServer H P l st).state).2) ∧
    hasFC (consumeMessage impl isServer H P l st).events = false ∧
    hasFC (consume impl isServer C
      (consumeMessage impl isServer H P l st).state).2 = false := by
  obtain ⟨e1, e2, e3, e4, e5⟩ := headers_append l C h2
  have hPb := hb P hrf
  have hmod : (P + H) % 2 ^ 64 = P + H := Nat.mod_eq_of_lt (by omega)
  have hmod32 : (P + H - l.length) % 2 ^ 32 = P + H - l.length :=
    Nat.mod_eq_of_lt (by omega)
  have hMl4 : isServer = true → ((l.drop (H - 4)).take 4).length = 4 := fun hs => by
    simp only [List.length_take, List.length_drop]
    have := hH4 hs
    omega
  have hd4 : isServer = true →
      ((l ++ C).drop (H - 4)).take 4 = (l.drop (H - 4)).take 4 := fun hs => by
    rw [drop_append_le l C (H - 4) (by omega)]
    exact take_append_le _ C 4 (by simp only [List.length_drop]; have := hH4 hs; omega)
  have hdH : (l ++ C).drop H = l.drop H ++ C := drop_append_le l C H hH
  -- the explicit form of the partial parse of `l`
  have hr := consumeMessage_eq impl isServer H P l st
  rw [if_neg herrl] at hr
  dsimp only at hr
  rw [if_neg (by simp [hrf]), if_neg (by rw [hmod]; omega), hmod32] at hr
  rw [hstep] at hfc ⊢
  by_cases hC : P + H ≤ l.length + C.length
  · -- the frame completes inside `C`
    have hrc := consumeMessage_eq impl isServer H P (l ++ C) st
    rw [e1, e2, if_neg herrl] at hrc
    dsimp only at hrc
    rw [if_neg (by simp [hrf]),
      if_pos (by rw [hmod]; simp only [List.length_append]; omega)] at hrc
    rw [hrc] at hfc ⊢
    dsimp only at hfc ⊢
    rw [if_neg (by simp)] at hfc ⊢
    rw [hasFC_append, Bool.or_eq_false_iff] at hfc
    obtain ⟨-, hfcT⟩ := hfc
    have hrest0 : (l ++ C).drop (P + H) = C.drop (P + H - l.length) :=
      drop_append_ge l C (P + H) (by omega)
    rw [hr]
    dsimp only
    rw [consume_continue_eq _ _ _ _ (by simp)]
    dsimp only
    simp only [List.nil_append]
    rw [consumeContinuation_complete isServer C _ (by dsimp only; omega)]
    dsimp only
    rw [if_pos rfl]
    dsimp only
    rw [hrest0] at hfcT ⊢
    -- both continue with the same header loop, from SEqCore-related states
    obtain ⟨hcge, hcgs⟩ := headLoop_congr impl isServer hb
      (C.drop (P + H - l.length)).length (C.drop (P + H - l.length))
      (⟨st.wantsHead, [],
        if isFin l = true then (if getOpCode l ≠ 0 then st.opStack + 1 else st.opStack) - 1
          else if getOpCode l ≠ 0 then st.opStack + 1 else st.opStack,
        if getOpCode l ≠ 0 ∧ st.opStack + 1 = 0 then getOpCode l else st.opCode0,
        if getOpCode l ≠ 0 ∧ st.opStack + 1 = 1 then getOpCode l else st.opCode1,
        isFin l, st.remainingBytes, st.mask⟩ : ParserState)
      (⟨true, [],
        if isFin l = true then (if getOpCode l ≠ 0 then st.opStack + 1 else st.opStack) - 1
          else if getOpCode l ≠ 0 then st.opStack + 1 else st.opStack,
        if getOpCode l ≠ 0 ∧ st.opStack + 1 = 0 then getOpCode l else st.opCode0,
        if getOpCode l ≠ 0 ∧ st.opStack + 1 = 1 then getOpCode l else st.opCode1,
        isFin l, P + H - l.length,
        if isServer = true then rotateMask (4 - (l.length - H) % 4)
          (List.take 4 (List.drop (H - 4) l)) else st.mask⟩ : ParserState)
      le_rfl ⟨hw, rfl, rfl, rfl, rfl⟩ hw (fun _ => rfl) hfcT
    refine ⟨by trivial, hcgs, ?_, by simp [hasFC], ?_⟩
    · -- canonical events agree
      rw [hcge]
      have hpay : (if isServer then maskBytes (((l ++ C).drop (H - 4)).take 4) 0
            (((l ++ C).drop H).take P) else ((l ++ C).drop H).take P) =
          (if isServer then maskBytes ((l.drop (H - 4)).take 4) 0 (l.drop H)
            else l.drop H) ++
          (if isServer then maskBytes (if isServer then rotateMask (4 - (l.length - H) % 4)
              ((l.drop (H - 4)).take 4) else st.mask) 0 (C.take (P + H - l.length))
            else C.take (P + H - l.length)) := by
        by_cases hs : isServer = true
        · simp only [hs, if_true]
          rw [hd4 hs, hdH, take_append_ge _ _ P (by simp only [List.length_drop]; omega)]
          have hx : P - (l.drop H).length = P + H - l.length := by
            simp only [List.length_drop]
            omega
          rw [hx, maskBytes_append]
          congr 1
          rw [maskBytes_rotate _ (hMl4 hs) (l.length - H)]
          simp only [List.length_drop, Nat.zero_add]
        · simp only [Bool.not_eq_true] at hs
          simp only [hs, Bool.false_eq_true, if_false]
          rw [hdH, take_append_ge _ _ P (by simp only [List.length_drop]; omega)]
          have hx : P - (l.drop H).length = P + H - l.length := by
            simp only [List.length_drop]
            omega
          rw [hx]
      rw [hpay]
      have hR1 : ¬ P + H - l.length = 0 := by omega
      simp [canon, mergeInto, hR1, ParserState.topOp]
    · -- no forceClose on the chunked side
      rw [hasFC_append, ← hcge]
      simp only [hasFC, Bool.false_or]
      exact hfcT
  · -- the frame is still incomplete even with `C`
    have hmod32c : (P + H - (l.length + C.length)) % 2 ^ 32 =
        P + H - (l.length + C.length) := Nat.mod_eq_of_lt (by omega)
    have hrc := consumeMessage_eq impl isServer H P (l ++ C) st
    rw [e1, e2, if_neg herrl] at hrc
    dsimp only at hrc
    rw [if_neg (by simp [hrf]),
      if_neg (by rw [hmod]; simp only [List.length_append]; omega)] at hrc
    simp only [List.length_append, hmod32c] at hrc
    rw [hrc] at hfc ⊢
    dsimp only at hfc ⊢
    rw [if_pos rfl] at hfc ⊢
    rw [hr]
    dsimp only
    rw [consume_continue_eq _ _ _ _ (by simp)]
    dsimp only
    simp only [List.nil_append]
    rw [consumeContinuation_incomplete isServer C _ (by dsimp only; omega)]
    dsimp only
    rw [if_neg Bool.false_ne_true]
    refine ⟨by trivial, ?_, ?_, by simp [hasFC], by simp [hasFC]⟩
    · -- state equivalence (here: field-wise equality of the two partial states)
      refine ⟨⟨rfl, rfl, rfl, rfl, rfl⟩, rfl, fun _ => ?_⟩
      constructor
      · dsimp only
        omega
      · intro hs
        dsimp only
        simp only [hs, if_true, true_and]
        have hnc : l.length + C.length - H = (l.length - H) + C.length := by omega
        rw [hd4 hs, hnc]
        by_cases hc4 : C.length % 4 = 0
        · rw [if_neg (by simp [hc4])]
          exact rotateMask_congr _ _ _ (by omega)
        · rw [if_pos hc4]
          exact (rotateMask_comp _ (hMl4 hs) _ _).symm
    · -- canonical events agree
      have hpay : (if isServer then maskBytes (((l ++ C).drop (H - 4)).take 4) 0
            ((l ++ C).drop H) else (l ++ C).drop H) =
          (if isServer then maskBytes ((l.drop (H - 4)).take 4) 0 (l.drop H)
            else l.drop H) ++
          (if isServer then maskBytes (if isServer then rotateMask (4 - (l.length - H) % 4)
              ((l.drop (H - 4)).take 4) else st.mask) 0 C
            else C) := by
        by_cases hs : isServer = true
        · simp only [hs, if_true]
          rw [hd4 hs, hdH, maskBytes_append]
          congr 1
          rw [maskBytes_rotate _ (hMl4 hs) (l.length - H)]
          simp only [List.length_drop, Nat.zero_add]
        · simp only [Bool.not_eq_true] at hs
          simp only [hs, Bool.false_eq_true, if_false, hdH]
      rw [hpay]
      have hR1 : ¬ P + H - l.length = 0 := by omega
      have hR2 : ¬ P + H - (l.length + C.length) = 0 := by omega
      have hR2' : P + H - l.length - C.length = P + H - (l.length + C.length) := by omega
      simp [canon, mergeInto, hR1, hR2, hR2', ParserState.topOp]


/-- Shared spill-and-retry pattern: when the first chunk ends inside a header,
it is banked in the spill and the second call replays it in front of the new
input, reproducing the one-shot run up to the dead fields. -/
theorem headLoop_append_spill (impl : Impl) (isServer : Bool) (hb : RefuseBounded impl)
    (l C : List Nat) (st : ParserState) (hw : st.wantsHead = true) (hnil : l ≠ [])
    (hexit : headLoop impl isServer l st = ({ st with spill := l }, []))
    (hfc : hasFC (headLoop impl isServer (l ++ C) st).2 = false) :
    StateEq isServer (headLoop impl isServer (l ++ C) st).1
      (consume impl isServer C (headLoop impl isServer l st).1).1 ∧
    canon (headLoop impl isServer (l ++ C) st).2 =
      canon ((headLoop impl isServer l st).2 ++
        (consume impl isServer C (headLoop impl isServer l st).1).2) ∧
    hasFC (headLoop impl isServer l st).2 = false ∧
    hasFC (consume impl isServer C (headLoop impl isServer l st).1).2 = false := by
  rw [hexit]
  dsimp only
  rw [consume_wantsHead_eq _ _ _ _ (by exact hw)]
  dsimp only
  obtain ⟨hce, hcs⟩ := headLoop_congr impl isServer hb (l ++ C).length (l ++ C) st
    ({ st with spill := l }) le_rfl ⟨rfl, rfl, rfl, rfl, rfl⟩ hw
    (fun hcc => absurd (List.append_eq_nil.mp hcc).1 hnil) hfc
  refine ⟨hcs, ?_, rfl, ?_⟩
  · rw [List.nil_append, hce]
  · rw [← hce]
    exact hfc

theorem CM_error_contra (impl : Impl) (isServer : Bool) (H P : Nat) (l C : List Nat)
    (st : ParserState) (h2 : 2 ≤ l.length)
    (hstep : headLoop impl isServer (l ++ C) st =
      (let rc := consumeMessage impl isServer H P (l ++ C) st
      if rc.flag then (rc.state, rc.events)
      else ((headLoop impl isServer rc.rest rc.state).1,
        rc.events ++ (headLoop impl isServer rc.rest rc.state).2)))
    (hfc : hasFC (headLoop impl isServer (l ++ C) st).2 = false)
    (herrl : (getOpCode l ≠ 0 ∧ (st.opStack = 1 ∨ (st.lastFin = false ∧
      getOpCode l < 2))) ∨ (getOpCode l = 0 ∧ st.opStack = -1)) : False := by
  obtain ⟨e1, e2, e3, e4, e5⟩ := headers_append l C h2
  have hrcE := consumeMessage_eq impl isServer H P (l ++ C) st
  rw [e1, e2, if_pos herrl] at hrcE
  rw [hstep] at hfc
  dsimp only at hfc
  rw [hrcE] at hfc
  dsimp only at hfc
  rw [if_pos rfl] at hfc
  simp [hasFC] at hfc

theorem CM_refuse_contra (impl : Impl) (isServer : Bool) (H P : Nat) (l C : List Nat)
    (st : ParserState) (h2 : 2 ≤ l.length)
    (hstep : headLoop impl isServer (l ++ C) st =
      (let rc := consumeMessage impl isServer H P (l ++ C) st
      if rc.flag then (rc.state, rc.events)
      else ((headLoop impl isServer rc.rest rc.state).1,
        rc.events ++ (headLoop impl isServer rc.rest rc.state).2)))
    (hfc : hasFC (headLoop impl isServer (l ++ C) st).2 = false)
    (herrl : ¬ ((getOpCode l ≠ 0 ∧ (st.opStack = 1 ∨ (st.lastFin = false ∧
      getOpCode l < 2))) ∨ (getOpCode l = 0 ∧ st.opStack = -1)))
    (hrf : impl.refuse P = true) : False := by
  obtain ⟨e1, e2, e3, e4, e5⟩ := headers_append l C h2
  have hrcE := consumeMessage_eq impl isServer H P (l ++ C) st
  rw [e1, e2, if_neg herrl] at hrcE
  dsimp only at hrcE
  rw [if_pos hrf] at hrcE
  rw [hstep] at hfc
  dsimp only at hfc
  rw [hrcE] at hfc
  dsimp only at hfc
  rw [if_pos rfl] at hfc
  simp [hasFC] at hfc


/-- One parsed frame at the head of the buffer: either it completes inside
`l` and the runs proceed in lockstep, or it straddles into `C`. -/
theorem headLoop_append_frame (impl : Impl) (isServer : Bool) (hb : RefuseBounded impl)
    (H P : Nat) (l C : List Nat) (st : ParserState)
    (ih : ∀ (l' : List Nat) (st' : ParserState), l'.length < l.length →
      st'.wantsHead = true → (l' = [] → st'.spill = []) →
      hasFC (headLoop impl isServer (l' ++ C) st').2 = false →
      StateEq isServer (headLoop impl isServer (l' ++ C) st').1
        (consume impl isServer C (headLoop impl isServer l' st').1).1 ∧
      canon (headLoop impl isServer (l' ++ C) st').2 =
        canon ((headLoop impl isServer l' st').2 ++
          (consume impl isServer C (headLoop impl isServer l' st').1).2) ∧
      hasFC (headLoop impl isServer l' st').2 = false ∧
      hasFC (consume impl isServer C (headLoop impl isServer l' st').1).2 = false)
    (hH : H ≤ l.length) (h2 : 2 ≤ l.length) (hH4 : isServer = true → 4 ≤ H)
    (hH14 : H ≤ 14) (hHpos : 0 < H) (hw : st.wantsHead = true)
    (hstepC : headLoop impl isServer (l ++ C) st =
      (let rc := consumeMessage impl isServer H P (l ++ C) st
      if rc.flag then (rc.state, rc.events)
      else ((headLoop impl isServer rc.rest rc.state).1,
        rc.events ++ (headLoop impl isServer rc.rest rc.state).2)))
    (hstepL : headLoop impl isServer l st =
      (let r := consumeMessage impl isServer H P l st
      if r.flag then (r.state, r.events)
      else ((headLoop impl isServer r.rest r.state).1,
        r.events ++ (headLoop impl isServer r.rest r.state).2)))
    (hfc : hasFC (headLoop impl isServer (l ++ C) st).2 = false) :
    StateEq isServer (headLoop impl isServer (l ++ C) st).1
      (consume impl isServer C (headLoop impl isServer l st).1).1 ∧
    canon (headLoop impl isServer (l ++ C) st).2 =
      canon ((headLoop impl isServer l st).2 ++
        (consume impl isServer C (headLoop impl isServer l st).1).2) ∧
    hasFC (headLoop impl isServer l st).2 = false ∧
    hasFC (consume impl isServer C (headLoop impl isServer l st).1).2 = false := by
  by_cases herrl : (getOpCode l ≠ 0 ∧ (st.opStack = 1 ∨ (st.lastFin = false ∧
      getOpCode l < 2))) ∨ (getOpCode l = 0 ∧ st.opStack = -1)
  · exact (CM_error_contra impl isServer H P l C st h2 hstepC hfc herrl).elim
  · by_cases hrf : impl.refuse P = true
    · exact (CM_refuse_contra impl isServer H P l C st h2 hstepC hfc herrl hrf).elim
    · have hrf0 : impl.refuse P = false := by revert hrf; cases impl.refuse P <;> simp
      by_cases hle : P + H ≤ l.length
      · obtain ⟨hfl, hflC, hrrest, hrstate, hrevents, hspl⟩ :=
          consumeMessage_append_complete impl isServer hb H P l C st hH h2 hH4 hH14
            herrl hrf0 hle
        rw [hstepC] at hfc ⊢
        dsimp only at hfc ⊢
        rw [hflC] at hfc ⊢
        rw [if_neg Bool.false_ne_true] at hfc ⊢
        rw [hrrest, hrstate, hrevents] at hfc ⊢
        rw [hstepL]
        dsimp only
        rw [hfl, if_neg Bool.false_ne_true]
        have hwr := (consumeMessage_inv impl isServer H P l st hb hw hH14).2 hfl
        have hprog := (consumeMessage_progress impl isServer H P l st hHpos
          (lt_of_lt_of_le hHpos hH)).resolve_left (by rw [hfl]; simp)
        rw [hasFC_append, Bool.or_eq_false_iff] at hfc
        obtain ⟨hfcE, hfcR⟩ := hfc
        obtain ⟨ihS, ihC, ihF1, ihF2⟩ := ih (consumeMessage impl isServer H P l st).rest
          (consumeMessage impl isServer H P l st).state hprog hwr (fun _ => hspl) hfcR
        refine ⟨ihS, ?_, ?_, ihF2⟩
        · rw [List.append_assoc]
          exact canon_append_congr _ _ _ ihC
        · rw [hasFC_append, Bool.or_eq_false_iff]
          exact ⟨hfcE, ihF1⟩
      · obtain ⟨hfl, hS, hCa, hF1, hF2⟩ := consumeMessage_append_straddle impl isServer hb
          H P l C st hH h2 hH4 hH14 hw herrl hrf0 (by omega) hstepC hfc
        rw [hstepL]
        dsimp only
        rw [hfl, if_pos rfl]
        exact ⟨hS, hCa, hF1, hF2⟩

/-- Splitting the input to the header loop at any point is invisible: the
one-shot run and the run-then-feed-the-rest runs produce the same canonical
events and equivalent states. -/
theorem headLoop_append (impl : Impl) (isServer : Bool) (hb : RefuseBounded impl) :
    ∀ n (l C : List Nat) (st : ParserState), l.length ≤ n → st.wantsHead = true →
      (l = [] → st.spill = []) →
      hasFC (headLoop impl isServer (l ++ C) st).2 = false →
      StateEq isServer (headLoop impl isServer (l ++ C) st).1
        (consume impl isServer C (headLoop impl isServer l st).1).1 ∧
      canon (headLoop impl isServer (l ++ C) st).2 =
        canon ((headLoop impl isServer l st).2 ++
          (consume impl isServer C (headLoop impl isServer l st).1).2) ∧
      hasFC (headLoop impl isServer l st).2 = false ∧
      hasFC (consume impl isServer C (headLoop impl isServer l st).1).2 = false := by
  intro n
  induction n with
  | zero =>
    intro l C st hl hw hsp hfc
    cases l with
    | nil =>
      simp only [List.nil_append] at hfc ⊢
      rw [headLoop_nil]
      dsimp only
      rw [consume_wantsHead_eq _ _ _ _ hw, hsp rfl]
      simp only [List.nil_append]
      exact ⟨StateEq_refl isServer _, by trivial, rfl, hfc⟩
    | cons a t => exact absurd hl (by simp)
  | succ n ih =>
    intro l C st hl hw hsp hfc
    by_cases hnil : l = []
    · subst hnil
      simp only [List.nil_append] at hfc ⊢
      rw [headLoop_nil]
      dsimp only
      rw [consume_wantsHead_eq _ _ _ _ hw, hsp rfl]
      simp only [List.nil_append]
      exact ⟨StateEq_refl isServer _, by trivial, rfl, hfc⟩
    · by_cases h1 : SHORT_MESSAGE_HEADER isServer ≤ l.length
      · have h2 : 2 ≤ l.length :=
          le_trans (by cases isServer <;> simp [SHORT_MESSAGE_HEADER]) h1
        have h1C : SHORT_MESSAGE_HEADER isServer ≤ (l ++ C).length := by
          simp only [List.length_append]; omega
        by_cases hbad : badHeader impl l
        · have hbadC : badHeader impl (l ++ C) := (badHeader_append impl l C h2).mpr hbad
          rw [headLoop_bad _ _ _ _ h1C hbadC] at hfc
          simp [hasFC] at hfc
        · have hbadC : ¬ badHeader impl (l ++ C) := fun hx =>
            hbad ((badHeader_append impl l C h2).mp hx)
          obtain ⟨e1, e2, e3, e4, e5⟩ := headers_append l C h2
          by_cases hpl : payloadLength l < 126
          · have hplC : payloadLength (l ++ C) < 126 := by rw [e3]; exact hpl
            have hstepC := headLoop_short impl isServer (l ++ C) st h1C hbadC hplC
            rw [e3] at hstepC
            have hstepL := headLoop_short impl isServer l st h1 hbad hpl
            exact headLoop_append_frame impl isServer hb (SHORT_MESSAGE_HEADER isServer)
              (payloadLength l) l C st (fun l' st' hlt => ih l' C st' (by omega))
              h1 h2 (fun hs => by simp [hs, SHORT_MESSAGE_HEADER])
              (headerLe14 isServer).1 (SHORT_pos isServer) hw hstepC hstepL hfc
          · by_cases hpl2 : payloadLength l = 126
            · by_cases hmed : l.length < MEDIUM_MESSAGE_HEADER isServer
              · have hexit : headLoop impl isServer l st = ({ st with spill := l }, []) := by
                  rw [headLoop_medium_spill _ _ _ _ h1 hbad hpl2 hmed,
                    spillExit_small l st (by have := (headerLe14 isServer).2.1; omega) hnil]
                exact headLoop_append_spill impl isServer hb l C st hw hnil hexit hfc
              · have hplC2 : payloadLength (l ++ C) = 126 := by rw [e3]; exact hpl2
                have hmedC : ¬ (l ++ C).length < MEDIUM_MESSAGE_HEADER isServer := by
                  simp only [List.length_append]; omega
                have hbe : be16At (l ++ C) = be16At l := be16At_append l C (by
                  cases isServer <;> simp [MEDIUM_MESSAGE_HEADER] at hmed <;> omega)
                have hstepC := headLoop_medium impl isServer (l ++ C) st h1C hbadC hplC2 hmedC
                rw [hbe] at hstepC
                have hstepL := headLoop_medium impl isServer l st h1 hbad hpl2 hmed
                exact headLoop_append_frame impl isServer hb (MEDIUM_MESSAGE_HEADER isServer)
                  (be16At l) l C st (fun l' st' hlt => ih l' C st' (by omega))
                  (by omega) h2 (fun hs => by simp [hs, MEDIUM_MESSAGE_HEADER])
                  (headerLe14 isServer).2.1 (MEDIUM_pos isServer) hw hstepC hstepL hfc
            · by_cases hlong : l.length < LONG_MESSAGE_HEADER isServer
              · have hexit : headLoop impl isServer l st = ({ st with spill := l }, []) := by
                  rw [headLoop_long_spill _ _ _ _ h1 hbad hpl hpl2 hlong,
                    spillExit_small l st (by have := (headerLe14 isServer).2.2; omega) hnil]
                exact headLoop_append_spill impl isServer hb l C st hw hnil hexit hfc
              · have hplC : ¬ payloadLength (l ++ C) < 126 := by rw [e3]; exact hpl
                have hplC2 : payloadLength (l ++ C) ≠ 126 := by rw [e3]; exact hpl2
                have hlongC : ¬ (l ++ C).length < LONG_MESSAGE_HEADER isServer := by
                  simp only [List.length_append]; omega
                have hbe : be64At (l ++ C) = be64At l := be64At_append l C (by
                  cases isServer <;> simp [LONG_MESSAGE_HEADER] at hlong <;> omega)
                have hstepC := headLoop_long impl isServer (l ++ C) st h1C hbadC hplC
                  hplC2 hlongC
                rw [hbe] at hstepC
                have hstepL := headLoop_long impl isServer l st h1 hbad hpl hpl2 hlong
                exact headLoop_append_frame impl isServer hb (LONG_MESSAGE_HEADER isServer)
                  (be64At l) l C st (fun l' st' hlt => ih l' C st' (by omega))
                  (by omega) h2 (fun hs => by simp [hs, LONG_MESSAGE_HEADER])
                  (headerLe14 isServer).2.2 (LONG_pos isServer) hw hstepC hstepL hfc
      · have hexit : headLoop impl isServer l st = ({ st with spill := l }, []) := by
          rw [headLoop_stop _ _ _ _ h1,
            spillExit_small l st (by have := (headerLe14 isServer).1; omega) hnil]
        exact headLoop_append_spill impl isServer hb l C st hw hnil hexit hfc


theorem hasFC_cons_frag (p : List Nat) (r o : Nat) (f : Bool) (E : List Event) :
    hasFC (.fragment p r o f :: E) = hasFC E := rfl

theorem canon_cons_zero (p : List Nat) (o : Nat) (f : Bool) (E : List Event) :
    canon (.fragment p 0 o f :: E) = .fragment p 0 o f :: canon E := by
  simp [canon]

theorem maskBytes_congr (m : List Nat) (a b : Nat) (y : List Nat) (h : a % 4 = b % 4) :
    maskBytes m a y = maskBytes m b y := by
  induction y generalizing a b with
  | nil => rfl
  | cons v r ih =>
    simp only [maskBytes, h, ih (a + 1) (b + 1) (by omega)]

theorem rotateMask_id (m : List Nat) (hm : m.length = 4) : rotateMask 4 m = m := by
  obtain ⟨a, b, c, d, rfl⟩ := list_len4 m hm
  simp [rotateMask]

/-- Composition of the conditional mask rotations performed by successive
`consumeContinuation` calls equals the single rotation of the one-shot run. -/
theorem rotate_cond_comp (m : List Nat) (hm : m.length = 4) (a c : Nat) :
    (if c % 4 ≠ 0 then
      rotateMask (4 - c % 4) (if a % 4 ≠ 0 then rotateMask (4 - a % 4) m else m)
    else (if a % 4 ≠ 0 then rotateMask (4 - a % 4) m else m)) =
    if (a + c) % 4 ≠ 0 then rotateMask (4 - (a + c) % 4) m else m := by
  by_cases ha : a % 4 = 0
  · by_cases hc : c % 4 = 0
    · rw [if_neg (by simp [hc]), if_neg (by simp [ha]), if_neg (by simp; omega)]
    · rw [if_pos hc, if_neg (by simp [ha]), if_pos (by simp; omega)]
      exact rotateMask_congr _ _ _ (by omega)
  · by_cases hc : c % 4 = 0
    · rw [if_neg (by simp [hc]), if_pos ha, if_pos (by simp; omega)]
      exact rotateMask_congr _ _ _ (by omega)
    · rw [if_pos hc, if_pos ha, rotateMask_comp m hm]
      by_cases hac : (a + c) % 4 = 0
      · rw [if_neg (by simp [hac]), hac]
        exact rotateMask_id m hm
      · rw [if_pos hac]


/-- Splitting one `consume` call into two at an arbitrary point gives the
same canonical events and an equivalent final state. -/
theorem consume_append (impl : Impl) (isServer : Bool) (hb : RefuseBounded impl)
    (A C : List Nat) (st : ParserState) (hg : GoodSt isServer st)
    (hfc : hasFC (consume impl isServer (A ++ C) st).2 = false) :
    StateEq isServer (consume impl isServer (A ++ C) st).1
      (consume impl isServer C (consume impl isServer A st).1).1 ∧
    canon (consume impl isServer (A ++ C) st).2 =
      canon ((consume impl isServer A st).2 ++
        (consume impl isServer C (consume impl isServer A st).1).2) ∧
    hasFC (consume impl isServer A st).2 = false ∧
    hasFC (consume impl isServer C (consume impl isServer A st).1).2 = false := by
  by_cases hw : st.wantsHead = true
  · rw [consume_wantsHead_eq impl isServer (A ++ C) st hw] at hfc ⊢
    rw [consume_wantsHead_eq impl isServer A st hw]
    rw [← List.append_assoc] at hfc ⊢
    exact headLoop_append impl isServer hb (st.spill ++ A).length (st.spill ++ A) C st
      le_rfl hw (fun h0 => (List.append_eq_nil.mp h0).1) hfc
  · have hwf : st.wantsHead = false := by revert hw; cases st.wantsHead <;> simp
    obtain ⟨hsp0, hmk⟩ := hg hwf
    rw [consume_continue_eq impl isServer (A ++ C) st hw] at hfc ⊢
    rw [consume_continue_eq impl isServer A st hw]
    dsimp only at hfc ⊢
    rw [hsp0] at hfc ⊢
    simp only [List.nil_append] at hfc ⊢
    by_cases hcc : st.remainingBytes ≤ A.length
    · -- the pending frame completes inside A
      rw [consumeContinuation_complete isServer (A ++ C) st
        (by simp only [List.length_append]; omega)] at hfc ⊢
      rw [consumeContinuation_complete isServer A st hcc]
      dsimp only at hfc ⊢
      rw [if_pos rfl] at hfc ⊢
      rw [if_pos rfl]
      rw [drop_append_le A C st.remainingBytes hcc] at hfc ⊢
      rw [take_append_le A C st.remainingBytes hcc] at hfc ⊢
      simp only [List.cons_append, List.nil_append] at hfc ⊢
      rw [hasFC_cons_frag] at hfc
      obtain ⟨hS, hC2, hF1, hF2⟩ := headLoop_append impl isServer hb
        (A.drop st.remainingBytes).length (A.drop st.remainingBytes) C
        { st with
          opStack := if st.lastFin then st.opStack - 1 else st.opStack
          wantsHead := true }
        le_rfl rfl (fun _ => hsp0) hfc
      refine ⟨hS, ?_, ?_, hF2⟩
      · rw [canon_cons_zero, canon_cons_zero, hC2]
      · rw [hasFC_cons_frag]
        exact hF1
    · -- the pending frame continues past A
      rw [consumeContinuation_incomplete isServer A st hcc]
      dsimp only
      rw [if_neg Bool.false_ne_true]
      rw [consume_continue_eq impl isServer C _ (by exact hw)]
      dsimp only
      rw [hsp0]
      simp only [List.nil_append]
      by_cases hcc2 : st.remainingBytes ≤ A.length + C.length
      · -- ... and completes inside C
        rw [consumeContinuation_complete isServer (A ++ C) st
          (by simp only [List.length_append]; omega)] at hfc ⊢
        rw [consumeContinuation_complete isServer C _ (by dsimp only; omega)]
        dsimp only at hfc ⊢
        rw [if_pos rfl] at hfc ⊢
        rw [if_pos rfl]
        rw [drop_append_ge A C st.remainingBytes (by omega)] at hfc ⊢
        simp only [List.cons_append, List.nil_append] at hfc ⊢
        rw [hasFC_cons_frag] at hfc
        obtain ⟨hce, hcs⟩ := headLoop_congr impl isServer hb
          (C.drop (st.remainingBytes - A.length)).length
          (C.drop (st.remainingBytes - A.length))
          (⟨true, st.spill, if st.lastFin = true then st.opStack - 1 else st.opStack,
            st.opCode0, st.opCode1, st.lastFin, st.remainingBytes, st.mask⟩ : ParserState)
          (⟨true, [], if st.lastFin = true then st.opStack - 1 else st.opStack,
            st.opCode0, st.opCode1, st.lastFin, st.remainingBytes - A.length,
            if isServer = true ∧ A.length % 4 ≠ 0 then rotateMask (4 - A.length % 4) st.mask
              else st.mask⟩ : ParserState)
          le_rfl ⟨rfl, rfl, rfl, rfl, rfl⟩ rfl (fun _ => hsp0) hfc
        have hpay : (if isServer = true then
              maskBytes st.mask 0 (List.take st.remainingBytes (A ++ C))
            else List.take st.remainingBytes (A ++ C)) =
            (if isServer = true then maskBytes st.mask 0 A else A) ++
            (if isServer = true then
              maskBytes (if isServer = true ∧ A.length % 4 ≠ 0 then
                rotateMask (4 - A.length % 4) st.mask else st.mask) 0
                (List.take (st.remainingBytes - A.length) C)
            else List.take (st.remainingBytes - A.length) C) := by
          by_cases hs : isServer = true
          · simp only [hs, if_true, true_and]
            rw [take_append_ge A C st.remainingBytes (by omega), maskBytes_append]
            congr 1
            by_cases ha4 : A.length % 4 = 0
            · rw [if_neg (by simp [ha4])]
              exact (maskBytes_congr st.mask _ _ _ (by omega)).symm
            · rw [if_pos ha4, maskBytes_rotate st.mask (hmk hs) A.length]
              exact (maskBytes_congr st.mask _ _ _ (by omega)).symm
          · simp only [Bool.not_eq_true] at hs
            simp only [hs, Bool.false_eq_true, if_false]
            rw [take_append_ge A C st.remainingBytes (by omega)]
        rw [hpay, hce]
        have hR1 : ¬ st.remainingBytes - A.length = 0 := by omega
        refine ⟨hcs, ?_, by simp [hasFC], ?_⟩
        · simp [canon, mergeInto, hR1, ParserState.topOp]
        · rw [hasFC_cons_frag, ← hce]
          exact hfc
      · -- ... and is still incomplete after C
        rw [consumeContinuation_incomplete isServer (A ++ C) st
          (by simp only [List.length_append]; omega)] at hfc ⊢
        rw [consumeContinuation_incomplete isServer C _ (by dsimp only; omega)]
        dsimp only at hfc ⊢
        rw [if_neg Bool.false_ne_true] at hfc ⊢
        rw [if_neg Bool.false_ne_true]
        have hpay : (if isServer = true then maskBytes st.mask 0 (A ++ C) else A ++ C) =
            (if isServer = true then maskBytes st.mask 0 A else A) ++
            (if isServer = true then
              maskBytes (if isServer = true ∧ A.length % 4 ≠ 0 then
                rotateMask (4 - A.length % 4) st.mask else st.mask) 0 C
            else C) := by
          by_cases hs : isServer = true
          · simp only [hs, if_true, true_and]
            rw [maskBytes_append]
            congr 1
            by_cases ha4 : A.length % 4 = 0
            · rw [if_neg (by simp [ha4])]
              exact (maskBytes_congr st.mask _ _ _ (by omega)).symm
            · rw [if_pos ha4, maskBytes_rotate st.mask (hmk hs) A.length]
              exact (maskBytes_congr st.mask _ _ _ (by omega)).symm
          · simp only [Bool.not_eq_true] at hs
            simp only [hs, Bool.false_eq_true, if_false]
        refine ⟨⟨⟨rfl, rfl, rfl, rfl, rfl⟩, hsp0, fun _ => ?_⟩, ?_, by simp [hasFC],
          by simp [hasFC]⟩
        · constructor
          · dsimp only
            simp only [List.length_append]
            omega
          · intro hs
            dsimp only
            simp only [hs, true_and, List.length_append]
            exact (rotate_cond_comp st.mask (hmk hs) A.length C.length).symm
        · rw [hpay]
          have hR1 : ¬ st.remainingBytes - A.length = 0 := by omega
          have hR2 : ¬ st.remainingBytes - (A.length + C.length) = 0 := by omega
          have hRR : st.remainingBytes - A.length - C.length =
              st.remainingBytes - (A.length + C.length) := by omega
          simp [canon, mergeInto, hR1, hR2, hRR, ParserState.topOp]


theorem feed_nil (impl : Impl) (isServer : Bool) (st : ParserState) :
    feed impl isServer [] st = (st, []) := rfl

theorem feed_cons (impl : Impl) (isServer : Bool) (c : List Nat) (cs : List (List Nat))
    (st : ParserState) :
    feed impl isServer (c :: cs) st =
      ((feed impl isServer cs (consume impl isServer c st).1).1,
        (consume impl isServer c st).2 ++
          (feed impl isServer cs (consume impl isServer c st).1).2) := rfl

/-- Feeding the chunks one `consume` at a time reproduces the one-shot run:
same canonical events, equivalent state. -/
theorem feed_consume_agree (impl : Impl) (isServer : Bool) (hb : RefuseBounded impl) :
    ∀ (chunks : List (List Nat)) (st : ParserState), chunks ≠ [] → GoodSt isServer st →
      hasFC (consume impl isServer chunks.flatten st).2 = false →
      StateEq isServer (consume impl isServer chunks.flatten st).1
        (feed impl isServer chunks st).1 ∧
      canon (consume impl isServer chunks.flatten st).2 =
        canon (feed impl isServer chunks st).2 ∧
      hasFC (feed impl isServer chunks st).2 = false := by
  intro chunks
  induction chunks with
  | nil => intro st h; exact absurd rfl h
  | cons c cs ih =>
    intro st _ hg hfc
    by_cases hcs : cs = []
    · subst hcs
      simp only [List.flatten_cons, List.flatten_nil, List.append_nil] at hfc ⊢
      rw [feed_cons, feed_nil]
      simp only [List.append_nil]
      exact ⟨StateEq_refl isServer _, by trivial, hfc⟩
    · simp only [List.flatten_cons] at hfc ⊢
      obtain ⟨hS, hC, hF1, hF2⟩ := consume_append impl isServer hb c cs.flatten st hg hfc
      have hg1 := consume_good impl isServer c st hb hg
      obtain ⟨ihS, ihC, ihF⟩ := ih (consume impl isServer c st).1 hcs hg1 hF2
      rw [feed_cons]
      refine ⟨StateEq_trans hS ihS, ?_, ?_⟩
      · rw [hC]
        exact canon_append_congr _ _ _ ihC
      · rw [hasFC_append, Bool.or_eq_false_iff]
        exact ⟨hF1, ihF⟩

/-- C1: chunk-insensitivity of the parser.  For every byte stream and every
partition of it into chunks, feeding the chunks sequentially through
`consume` from the initial state produces the same `handleFragment` calls,
up to re-fusing the split deliveries of a frame (`canon` equates streams by
opcode, FIN and concatenated payload bytes per frame), as feeding the whole
stream in one call — provided the one-shot run raises no `forceClose` and
the length limit keeps `remainingBytes` below `2^32`
(`RefuseBounded`). -/
theorem consume_chunk_insensitive (impl : Impl) (isServer : Bool)
    (chunks : List (List Nat)) (hb : RefuseBounded impl)
    (hclean : hasFC (consume impl isServer chunks.flatten initialState).2 = false) :
    canon (feed impl isServer chunks initialState).2 =
      canon (consume impl isServer chunks.flatten initialState).2 := by
  cases chunks with
  | nil =>
    rw [feed_nil]
    rw [show ([] : List (List Nat)).flatten = [] from rfl, consume_initial, headLoop_nil]
  | cons c cs =>
    exact ((feed_consume_agree impl isServer hb (c :: cs) initialState (by simp)
      (fun hwf => by simp [initialState] at hwf) hclean).2.1).symm

/-- Witness for C1: the masked `"Hello"` frame `81 85 37 fa 21 3d 7f 9f 4d 51 58`
split into chunks of sizes 1, 2, 4 and 4 (cutting both the header and the
masked payload) yields the same canonical fragment stream as one call. -/
theorem consume_chunk_insensitive_witness :
    RefuseBounded implDemo ∧
    hasFC (consume implDemo true
      ([[0x81], [0x85, 0x37], [0xFA, 0x21, 0x3D, 0x7F],
        [0x9F, 0x4D, 0x51, 0x58]] : List (List Nat)).flatten initialState).2 = false ∧
    canon (feed implDemo true
      [[0x81], [0x85, 0x37], [0xFA, 0x21, 0x3D, 0x7F], [0x9F, 0x4D, 0x51, 0x58]]
      initialState).2 =
    canon (consume implDemo true
      ([[0x81], [0x85, 0x37], [0xFA, 0x21, 0x3D, 0x7F],
        [0x9F, 0x4D, 0x51, 0x58]] : List (List Nat)).flatten initialState).2 :=
  ⟨implDemo_bounded,
    by simp +decide [consume, initialState, headLoop_stop, headLoop_bad, headLoop_short,
      headLoop_medium, headLoop_medium_spill, headLoop_long, headLoop_long_spill,
      consumeMessage, consumeContinuation, spillExit, maskBytes, rotateMask, be16At,
      be64At, isFin, getOpCode, payloadLength, rsv1, rsv23, SHORT_MESSAGE_HEADER,
      MEDIUM_MESSAGE_HEADER, LONG_MESSAGE_HEADER, ParserState.topOp, badHeader,
      implDemo, hasFC],
    consume_chunk_insensitive implDemo true
      [[0x81], [0x85, 0x37], [0xFA, 0x21, 0x3D, 0x7F], [0x9F, 0x4D, 0x51, 0x58]]
      implDemo_bounded
      (by simp +decide [consume, initialState, headLoop_stop, headLoop_bad,
        headLoop_short, headLoop_medium, headLoop_medium_spill, headLoop_long,
        headLoop_long_spill, consumeMessage, consumeContinuation, spillExit, maskBytes,
        rotateMask, be16At, be64At, isFin, getOpCode, payloadLength, rsv1, rsv23,
        SHORT_MESSAGE_HEADER, MEDIUM_MESSAGE_HEADER, LONG_MESSAGE_HEADER,
        ParserState.topOp, badHeader, implDemo, hasFC])⟩


/-- C3 (amended): with a fragmented data message in progress
(`opStack = 0`, `lastFin = false`), for any header-valid next frame whose
header is in the buffer (all three length buckets, any fill level): a
**Text** frame (opcode 1) is rejected with
`forceClose("Received invalid WebSocket frame")`; every other opcode
(Continuation, Binary, or a control frame) is accepted and its payload
delivered as a fragment; a control frame that is the whole buffer leaves
`opStack` unchanged (transparent push+pop) but sets `lastFin` to true (its
own FIN), so the message-in-progress tracking is *not* fully preserved. -/
theorem midMessage_discipline (impl : Impl) (isServer : Bool) (l : List Nat)
    (st : ParserState) (H P : Nat) (hw : st.wantsHead = true) (hs : st.spill = [])
    (hop : st.opStack = 0) (hlf : st.lastFin = false)
    (hok : ¬ badHeader impl l)
    (hHP : (payloadLength l < 126 ∧ H = SHORT_MESSAGE_HEADER isServer ∧
        P = payloadLength l) ∨
      (payloadLength l = 126 ∧ H = MEDIUM_MESSAGE_HEADER isServer ∧ P = be16At l) ∨
      (¬ payloadLength l < 126 ∧ payloadLength l ≠ 126 ∧
        H = LONG_MESSAGE_HEADER isServer ∧ P = be64At l))
    (hHl : H ≤ l.length) (hrefuse : impl.refuse P = false) :
    (getOpCode l = 1 → consume impl isServer l st = (st, [.forceClose ERR_PROTOCOL])) ∧
    (getOpCode l ≠ 1 → ∃ payload rem rest,
      (consume impl isServer l st).2 =
        .fragment payload rem (if getOpCode l = 0 then st.opCode0 else getOpCode l)
          (isFin l) :: rest) ∧
    (8 ≤ getOpCode l → l.length = P + H →
      (consume impl isServer l st).1.opStack = st.opStack ∧
      (consume impl isServer l st).1.lastFin = true) := by
  have hstopnil : ¬ SHORT_MESSAGE_HEADER isServer ≤ ([] : List Nat).length := by
    simp only [List.length_nil]
    have := SHORT_pos isServer
    omega
  have hstep : consume impl isServer l st =
      (let r := consumeMessage impl isServer H P l st
      if r.flag then (r.state, r.events)
      else ((headLoop impl isServer r.rest r.state).1,
        r.events ++ (headLoop impl isServer r.rest r.state).2)) := by
    have hSM : SHORT_MESSAGE_HEADER isServer ≤ MEDIUM_MESSAGE_HEADER isServer := by
      cases isServer <;> decide
    have hSL : SHORT_MESSAGE_HEADER isServer ≤ LONG_MESSAGE_HEADER isServer := by
      cases isServer <;> decide
    rw [consume_wantsHead_eq _ _ _ _ hw, hs, List.nil_append]
    rcases hHP with ⟨hpl, hH, hP⟩ | ⟨hpl, hH, hP⟩ | ⟨hpl, hpl2, hH, hP⟩
    · subst hH
      subst hP
      exact headLoop_short impl isServer l st (by omega) hok hpl
    · subst hH
      subst hP
      exact headLoop_medium impl isServer l st (by omega) hok hpl (by omega)
    · subst hH
      subst hP
      exact headLoop_long impl isServer l st (by omega) hok hpl hpl2 (by omega)
  obtain ⟨w, sp, ops, oc0, oc1, lf, rb, mk⟩ := st
  simp only at hw hs hop hlf
  subst hw hs hop hlf
  refine ⟨?_, ?_, ?_⟩
  · -- Text frame mid-message: protocol error
    intro ho1
    have hcm : consumeMessage impl isServer H P l ⟨true, [], 0, oc0, oc1, false, rb, mk⟩ =
        ⟨true, l, ⟨true, [], 0, oc0, oc1, false, rb, mk⟩,
          [.forceClose ERR_PROTOCOL]⟩ := by
      unfold consumeMessage
      rw [if_pos (Or.inl ⟨by omega, Or.inr ⟨rfl, by omega⟩⟩)]
    rw [hstep, hcm]
    simp
  · -- any other opcode: accepted, its payload delivered as a fragment
    intro hne
    by_cases hz : getOpCode l = 0
    · by_cases hc : (P + H) % 2 ^ 64 ≤ l.length
      · have hcm : consumeMessage impl isServer H P l
            ⟨true, [], 0, oc0, oc1, false, rb, mk⟩ =
            ⟨false, l.drop (P + H),
              ⟨true, [], if isFin l then -1 else 0, oc0, oc1, isFin l, rb, mk⟩,
              [.fragment (if isServer then
                  maskBytes ((l.drop (H - 4)).take 4) 0 ((l.drop H).take P)
                else (l.drop H).take P) 0 oc0 (isFin l)]⟩ := by
          unfold consumeMessage
          rw [if_neg (by rintro (⟨hnz, _⟩ | ⟨_, hbad2⟩)
                         · exact hnz hz
                         · simp at hbad2)]
          dsimp only
          rw [if_neg (by simp [hrefuse]), if_pos hc]
          simp [hz, ParserState.topOp]
        rw [hstep]
        dsimp only
        rw [hcm]
        dsimp only
        rw [if_neg Bool.false_ne_true]
        refine ⟨(if isServer then
            maskBytes ((l.drop (H - 4)).take 4) 0 ((l.drop H).take P)
          else (l.drop H).take P), 0,
          (headLoop impl isServer (l.drop (P + H))
            ⟨true, [], if isFin l then -1 else 0, oc0, oc1, isFin l, rb, mk⟩).2, ?_⟩
        simp [hz]
      · have hcm : consumeMessage impl isServer H P l
            ⟨true, [], 0, oc0, oc1, false, rb, mk⟩ =
            ⟨true, [],
              ⟨false, [], 0, oc0, oc1, isFin l, (P + H - l.length) % 2 ^ 32,
                if isServer then
                  rotateMask (4 - (l.length - H) % 4) ((l.drop (H - 4)).take 4)
                else mk⟩,
              [.fragment (if isServer then
                  maskBytes ((l.drop (H - 4)).take 4) 0 (l.drop H)
                else l.drop H) ((P + H - l.length) % 2 ^ 32) oc0 (isFin l)]⟩ := by
          unfold consumeMessage
          rw [if_neg (by rintro (⟨hnz, _⟩ | ⟨_, hbad2⟩)
                         · exact hnz hz
                         · simp at hbad2)]
          dsimp only
          rw [if_neg (by simp [hrefuse]), if_neg hc]
          simp [hz, ParserState.topOp]
        rw [hstep]
        dsimp only
        rw [hcm]
        dsimp only
        rw [if_pos rfl]
        refine ⟨(if isServer then
            maskBytes ((l.drop (H - 4)).take 4) 0 (l.drop H)
          else l.drop H), (P + H - l.length) % 2 ^ 32, [], ?_⟩
        simp [hz]
    · by_cases hc : (P + H) % 2 ^ 64 ≤ l.length
      · have hcm : consumeMessage impl isServer H P l
            ⟨true, [], 0, oc0, oc1, false, rb, mk⟩ =
            ⟨false, l.drop (P + H),
              ⟨true, [], if isFin l then 0 else 1, oc0, getOpCode l, isFin l, rb, mk⟩,
              [.fragment (if isServer then
                  maskBytes ((l.drop (H - 4)).take 4) 0 ((l.drop H).take P)
                else (l.drop H).take P) 0 (getOpCode l) (isFin l)]⟩ := by
          unfold consumeMessage
          rw [if_neg (by rintro (⟨_, (hs1 | ⟨_, hs2⟩)⟩ | ⟨hz2, _⟩)
                         · simp at hs1
                         · omega
                         · exact hz hz2)]
          dsimp only
          rw [if_neg (by simp [hrefuse]), if_pos hc]
          simp [hz, ParserState.topOp]
        rw [hstep]
        dsimp only
        rw [hcm]
        dsimp only
        rw [if_neg Bool.false_ne_true]
        refine ⟨(if isServer then
            maskBytes ((l.drop (H - 4)).take 4) 0 ((l.drop H).take P)
          else (l.drop H).take P), 0,
          (headLoop impl isServer (l.drop (P + H))
            ⟨true, [], if isFin l then 0 else 1, oc0, getOpCode l, isFin l, rb, mk⟩).2, ?_⟩
        simp [hz]
      · have hcm : consumeMessage impl isServer H P l
            ⟨true, [], 0, oc0, oc1, false, rb, mk⟩ =
            ⟨true, [],
              ⟨false, [], 1, oc0, getOpCode l, isFin l, (P + H - l.length) % 2 ^ 32,
                if isServer then
                  rotateMask (4 - (l.length - H) % 4) ((l.drop (H - 4)).take 4)
                else mk⟩,
              [.fragment (if isServer then
                  maskBytes ((l.drop (H - 4)).take 4) 0 (l.drop H)
                else l.drop H) ((P + H - l.length) % 2 ^ 32) (getOpCode l) (isFin l)]⟩ := by
          unfold consumeMessage
          rw [if_neg (by rintro (⟨_, (hs1 | ⟨_, hs2⟩)⟩ | ⟨hz2, _⟩)
                         · simp at hs1
                         · omega
                         · exact hz hz2)]
          dsimp only
          rw [if_neg (by simp [hrefuse]), if_neg hc]
          simp [hz, ParserState.topOp]
        rw [hstep]
        dsimp only
        rw [hcm]
        dsimp only
        rw [if_pos rfl]
        refine ⟨(if isServer then
            maskBytes ((l.drop (H - 4)).take 4) 0 (l.drop H)
          else l.drop H), (P + H - l.length) % 2 ^ 32, [], ?_⟩
        simp [hz]
  · -- control frame alone in the buffer: opStack transparent, lastFin set to
    -- the control frame's FIN (true)
    intro hctl hexact
    have hfin : isFin l = true := by
      by_contra hf
      exact hok (Or.inr (Or.inr (Or.inr (Or.inr
        ⟨by omega, Or.inl (by revert hf; cases isFin l <;> simp)⟩))))
    have hz : ¬ getOpCode l = 0 := by omega
    have hc : (P + H) % 2 ^ 64 ≤ l.length := by
      rw [hexact]
      exact Nat.mod_le _ _
    have hdropnil : l.drop (P + H) = [] := List.drop_eq_nil_of_le (by omega)
    have hcm : consumeMessage impl isServer H P l
        ⟨true, [], 0, oc0, oc1, false, rb, mk⟩ =
        ⟨false, l.drop (P + H),
          ⟨true, [], if isFin l then 0 else 1, oc0, getOpCode l, isFin l, rb, mk⟩,
          [.fragment (if isServer then
              maskBytes ((l.drop (H - 4)).take 4) 0 ((l.drop H).take P)
            else (l.drop H).take P) 0 (getOpCode l) (isFin l)]⟩ := by
      unfold consumeMessage
      rw [if_neg (by rintro (⟨_, (hs1 | ⟨_, hs2⟩)⟩ | ⟨hz2, _⟩)
                     · simp at hs1
                     · omega
                     · exact hz hz2)]
      dsimp only
      rw [if_neg (by simp [hrefuse]), if_pos hc]
      simp [hz, ParserState.topOp]
    rw [hstep, hcm]
    simp only [hdropnil, headLoop_stop _ _ _ _ hstopnil, spillExit]
    simp [hfin]

/-- Witness for the amended C3: mid-message state, incoming Ping frame
(`89 80` + zero mask) as the whole buffer: control transparency
instantiated with the hypotheses discharged. -/
theorem midMessage_discipline_witness :
    (¬ badHeader ⟨true, fun _ => false⟩ [0x89, 0x80, 0, 0, 0, 0]) ∧
    (8 ≤ getOpCode [0x89, 0x80, 0, 0, 0, 0] →
      ([0x89, 0x80, 0, 0, 0, 0] : List Nat).length = 0 + 6 →
      (consume ⟨true, fun _ => false⟩ true [0x89, 0x80, 0, 0, 0, 0]
        { wantsHead := true, spill := [], opStack := 0, opCode0 := 2, opCode1 := 0,
          lastFin := false, remainingBytes := 0, mask := [0, 0, 0, 0] }).1.opStack =
      ({ wantsHead := true, spill := [], opStack := 0, opCode0 := 2, opCode1 := 0,
          lastFin := false, remainingBytes := 0,
          mask := [0, 0, 0, 0] } : ParserState).opStack ∧
      (consume ⟨true, fun _ => false⟩ true [0x89, 0x80, 0, 0, 0, 0]
        { wantsHead := true, spill := [], opStack := 0, opCode0 := 2, opCode1 := 0,
          lastFin := false, remainingBytes := 0,
          mask := [0, 0, 0, 0] }).1.lastFin = true) :=
  ⟨by decide,
    (midMessage_discipline ⟨true, fun _ => false⟩ true [0x89, 0x80, 0, 0, 0, 0]
      { wantsHead := true, spill := [], opStack := 0, opCode0 := 2, opCode1 := 0,
        lastFin := false, remainingBytes := 0, mask := [0, 0, 0, 0] } 6 0
      rfl rfl rfl rfl (by decide)
      (Or.inl ⟨by decide, by decide, by decide⟩) (by decide) rfl).2.2⟩

end UWS
